import Mathlib

set_option maxRecDepth 100000

/-!
AO-MCX domain preparation: loading, layout conversion, detector mask and
source placement.

A shallow embedding of `mcx_loadvolume`, `mcx_loadacoustics`,
`mcx_convertrow2col`, `mcx_maskdet` and of the source-placement part of
`mcx_prepdomain` (`src/src/mcx_utils.c`), with the properties the specification
states about them.

Conventions of the embedding.

* `float` values are rationals (`ℚ`). Two embeddings of the float code are
  given. The first computes in exact arithmetic; the properties the
  specification states in exact arithmetic are proved of it. The second (names
  ending in `_f32`) rounds every operation to binary32 as the machine does; it
  is evaluated on the inputs where the code leaves what exact arithmetic gives.
  Infinities and NaN are in neither.
* A byte buffer is a `List Nat`; reading is `List.getD _ _ 0` and writing is
  `List.set`.  Index arithmetic is done in `Nat`, which agrees with the
  `unsigned int` arithmetic of the source as long as the padded size
  `(dim.x+2)*(dim.y+2)*(dim.z+2)` is below `2^32`.
  The index of the source voxel is an `int` computed from `double` values; it
  is exact as long as `dim.x*dim.y*dim.z` fits an `int`.
* The per-detector counter `count` is an `unsigned int`; its increment is
  taken modulo `2^32`. So are `datalen`, `datalen*4`, `index` and
  `current_pos` of the two loaders.
* Loops whose number of iterations depends on the data take a fuel argument;
  for the scan loops `forHalf_scan` shows that `scanFuel` iterations are all
  the loop makes, the relocation loop of the source returns `none` when the
  fuel runs out.
* `mcx_error` ends the process; it is the `error` outcome of `PrepResult` and
  of `LoadResult`.
* A file is the list of the items `fread` can deliver from it, `none` when
  `fopen` fails; `fread` delivers at most the number of items asked for.
* Reads through a pointer that leave the object pointed to have no value in C;
  where the source makes one (`*vol[i]` in `mcx_convertrow2col`) the byte read
  is a parameter of the model.
-/

namespace AoMcx

attribute [local semireducible] Rat.add Rat.mul Rat.inv Rat.sub

/-! ## Constants (`mcx_const.h`) -/

/-- Bit 7 of a voxel byte: the detector flag. -/
def DET_MASK : Nat := 0x80

/-- Low seven bits of a voxel byte: the medium index. -/
def MED_MASK : Nat := 0x7F

/-- Sentinel `1e10f` of the corner loop. -/
def VERY_BIG : ℚ := 10000000000

/-! ## Data model -/

/-- Grid dimensions (`uint3`). -/
structure uint3 where
  x : Nat
  y : Nat
  z : Nat
deriving DecidableEq, Repr

/-- Three floats (`float3`): a position or a direction. -/
structure float3 where
  x : ℚ
  y : ℚ
  z : ℚ
deriving DecidableEq, Repr

/-- Four floats (`float4`): a detector, centre `(x,y,z)` and radius `w`. -/
structure float4 where
  x : ℚ
  y : ℚ
  z : ℚ
  w : ℚ
deriving DecidableEq, Repr

/-- The fields of `Config` read or written by the functions modelled here.
`detnum` is the length of `detpos`. -/
structure Config where
  dim : uint3
  vol : List Nat
  detpos : List float4
  srcpos : float3
  srcdir : float3
  issavedet : Bool
  isdumpmask : Bool
deriving DecidableEq, Repr

/-- Conversion `(int)f` of a float: truncation toward zero. -/
def cTrunc (q : ℚ) : ℤ := if 0 ≤ q then ⌊q⌋ else ⌈q⌉

/-! ## `mcx_maskdet` in exact arithmetic -/

/-- The table `corners[8][3]` of `mcx_maskdet`. -/
def corners : List (ℚ × ℚ × ℚ) :=
  [(0, 0, 0), (1, 0, 0), (0, 1, 0), (0, 0, 1), (1, 1, 0), (1, 0, 1), (0, 1, 1), (1, 1, 1)]

/-- The call `memcpy(dst+doff, src+soff, n)` on byte buffers. -/
def memcpy (dst : List Nat) (doff : Nat) (src : List Nat) (soff n : Nat) : List Nat :=
  (List.range n).foldl (fun acc k => acc.set (doff + k) (src.getD (soff + k) 0)) dst

/-- The inner loop over `yi` that fills one `z`-slab of the padded copy. -/
def padRows (dim : uint3) (vol : List Nat) (zi : Nat) (pv : List Nat) : List Nat :=
  (List.range' 1 dim.y).foldl
    (fun acc yi =>
      memcpy acc (zi * (dim.y + 2) * (dim.x + 2) + yi * (dim.x + 2) + 1) vol
        ((zi - 1) * dim.y * dim.x + (yi - 1) * dim.x) dim.x)
    pv

/-- The zero-padded copy `padvol`: `calloc(dx*dy,dz)` followed by the row-wise
`memcpy` of the volume into the interior (lines 885-889). -/
def padvol (dim : uint3) (vol : List Nat) : List Nat :=
  (List.range' 1 dim.z).foldl (fun acc zi => padRows dim vol zi acc)
    (List.replicate ((dim.x + 2) * (dim.y + 2) * (dim.z + 2)) 0)

/-- The test of lines 907-908: the sample is skipped when it lies outside the
domain or farther than `w+1` from the detector centre. -/
def sampleRejected (dim : uint3) (det : float4) (x y z : ℚ) : Bool :=
  decide (z + det.z < 0 ∨ x + det.x < 0 ∨ y + det.y < 0 ∨
    (dim.x : ℚ) ≤ x + det.x ∨ (dim.y : ℚ) ≤ y + det.y ∨ (dim.z : ℚ) ≤ z + det.z ∨
    (det.w + 1) * (det.w + 1) < x * x + y * y + z * z)

/-- Squared distance from the detector centre to one corner of the voxel
`(vx,vy,vz)` (lines 912-915). -/
def cornerD2 (det : float4) (vx vy vz : ℤ) (c : ℚ × ℚ × ℚ) : ℚ :=
  ((vx : ℚ) - det.x + c.1) * ((vx : ℚ) - det.x + c.1) +
  ((vy : ℚ) - det.y + c.2.1) * ((vy : ℚ) - det.y + c.2.1) +
  ((vz : ℚ) - det.z + c.2.2) * ((vz : ℚ) - det.z + c.2.2)

/-- The corner loop of lines 911-921, started with the current `mind2`; a
corner beyond `d2max` resets `mind2` to `VERY_BIG` and leaves the loop. -/
def cornerLoop (d2max : ℚ) (det : float4) (vx vy vz : ℤ) : List (ℚ × ℚ × ℚ) → ℚ → ℚ
  | [], mind2 => mind2
  | c :: cs, mind2 =>
    if d2max < cornerD2 det vx vy vz c then VERY_BIG
    else cornerLoop d2max det vx vy vz cs
      (if cornerD2 det vx vy vz c < mind2 then cornerD2 det vx vy vz c else mind2)

/-- Value of `mind2` after the corner loop for the voxel holding the sample. -/
def mind2Of (det : float4) (ix iy iz : ℚ) : ℚ :=
  cornerLoop ((det.w + 17321 / 10000) * (det.w + 17321 / 10000)) det
    (cTrunc ix) (cTrunc iy) (cTrunc iz) corners VERY_BIG

/-- The test of line 922 (negated): the voxel is kept for the interface test. -/
def cornerAccepted (det : float4) (ix iy iz : ℚ) : Bool :=
  decide (¬ (mind2Of det ix iy iz = VERY_BIG ∨ det.w * det.w ≤ mind2Of det ix iy iz))

/-- The 26 indices read by the interface test of lines 926-931, in the order of
the source; `dx`, `dy` are the padded dimensions. -/
def neighbourIdx (dx dy idx1d : Nat) : List Nat :=
  [idx1d + 1, idx1d - 1, idx1d + dx, idx1d - dx, idx1d + dy * dx, idx1d - dy * dx,
   idx1d + dx + 1, idx1d + dx - 1, idx1d - dx + 1, idx1d - dx - 1,
   idx1d + dy * dx + 1, idx1d + dy * dx - 1, idx1d - dy * dx + 1, idx1d - dy * dx - 1,
   idx1d + dy * dx + dx, idx1d + dy * dx - dx, idx1d - dy * dx + dx, idx1d - dy * dx - dx,
   idx1d + dy * dx + dx + 1, idx1d + dy * dx + dx - 1, idx1d + dy * dx - dx + 1,
   idx1d + dy * dx - dx - 1,
   idx1d - dy * dx + dx + 1, idx1d - dy * dx + dx - 1, idx1d - dy * dx - dx + 1,
   idx1d - dy * dx - dx - 1]

/-- The interface test of lines 925-931: the padded voxel is nonzero and not
all of its 26 padded neighbours are nonzero. -/
def exposed (pv : List Nat) (dx dy idx1d : Nat) : Bool :=
  decide (pv.getD idx1d 0 ≠ 0) &&
    !((neighbourIdx dx dy idx1d).all (fun n => decide (pv.getD n 0 ≠ 0)))

/-- Index `idx1d` into the padded copy computed at line 923, in exact
arithmetic, where `(int)(iz+1)` is `(int)iz + 1`; `padIdxOf_f32` rounds the
sums as the machine does. -/
def padIdxOf (dim : uint3) (ix iy iz : ℚ) : Nat :=
  (cTrunc (iz + 1)).toNat * (dim.y + 2) * (dim.x + 2) +
    (cTrunc (iy + 1)).toNat * (dim.x + 2) + (cTrunc (ix + 1)).toNat

/-- Index into the unpadded volume used at line 932. -/
def volIdxOf (dim : uint3) (ix iy iz : ℚ) : Nat :=
  (cTrunc iz).toNat * dim.y * dim.x + (cTrunc iy).toNat * dim.x + (cTrunc ix).toNat

/-- All the tests a sample at offset `(x,y,z)` must pass for lines 932-933 to
run. -/
def sampleAccepted (dim : uint3) (pv : List Nat) (det : float4) (x y z : ℚ) : Bool :=
  !sampleRejected dim det x y z &&
    cornerAccepted det (x + det.x) (y + det.y) (z + det.z) &&
    exposed pv (dim.x + 2) (dim.y + 2) (padIdxOf dim (x + det.x) (y + det.y) (z + det.z))

/-- The statement `vol[i] |= (1<<7)`. -/
def setFlag (vol : List Nat) (i : Nat) : List Nat :=
  vol.set i (vol.getD i 0 ||| DET_MASK)

/-- Body of the innermost loop (lines 905-934) on the state `(vol, count)`. -/
def maskdet_sample (dim : uint3) (pv : List Nat) (det : float4) (x y z : ℚ)
    (st : List Nat × Nat) : List Nat × Nat :=
  if sampleAccepted dim pv det x y z then
    (setFlag st.1 (volIdxOf dim (x + det.x) (y + det.y) (z + det.z)), (st.2 + 1) % 2 ^ 32)
  else st

/-- A loop `for(v=v0; v<=hi; v+=0.5f) body` in exact arithmetic, run for at
most `fuel` iterations: the variable runs over an exact half-step lattice.
`forHalf_f32` rounds the increments as the machine does. -/
def forHalf {σ : Type} (hi : ℚ) (body : ℚ → σ → σ) : Nat → ℚ → σ → σ
  | 0, _, s => s
  | fuel + 1, v, s => if v ≤ hi then forHalf hi body fuel (v + 1 / 2) (body v s) else s

/-- Number of iterations of `for(v=-w-1; v<=w+1; v+=0.5f)`. -/
def scanFuel (w : ℚ) : Nat := (⌊4 * (w + 1)⌋ + 1).toNat

/-- The three nested scan loops of one detector (lines 898-937), from the
volume `vol` and `count=0`. -/
def maskdet_detector (dim : uint3) (pv : List Nat) (det : float4) (vol : List Nat) :
    List Nat × Nat :=
  forHalf (det.w + 1)
    (fun z => forHalf (det.w + 1)
      (fun y => forHalf (det.w + 1) (fun x => maskdet_sample dim pv det x y z)
        (scanFuel det.w) (-det.w - 1))
      (scanFuel det.w) (-det.w - 1))
    (scanFuel det.w) (-det.w - 1) (vol, 0)

/-- What `mcx_maskdet` leaves behind: the volume, the final value of `count`
for each detector, the detector numbers `d+1` of the warnings written to
`stderr`, and whether the process ended inside the function (mask dump:
`exit(0)` after the file is written, `mcx_error(-10)` when it cannot be). -/
structure MaskOut where
  vol : List Nat
  counts : List Nat
  warnings : List Nat
  exited : Bool
deriving DecidableEq, Repr

/-- One iteration of the detector loop (lines 897-940); `acc.counts.length` is
the loop variable `d`. -/
def maskdet_step (cfg : Config) (pv : List Nat) (acc : MaskOut) (det : float4) : MaskOut :=
  let r := maskdet_detector cfg.dim pv det acc.vol
  { vol := r.1
    counts := acc.counts ++ [r.2]
    warnings :=
      if cfg.issavedet && decide (r.2 = 0) then acc.warnings ++ [acc.counts.length + 1]
      else acc.warnings
    exited := acc.exited }

/-- The function `mcx_maskdet` (lines 871-963). -/
def mcx_maskdet (cfg : Config) : MaskOut :=
  let r := cfg.detpos.foldl (maskdet_step cfg (padvol cfg.dim cfg.vol))
    { vol := cfg.vol, counts := [], warnings := [], exited := false }
  { r with exited := cfg.isdumpmask }

/-! ## Source placement in `mcx_prepdomain`, in exact arithmetic -/

/-- How the modelled part of `mcx_prepdomain` ends: it returns with the
configuration it leaves, or `mcx_error(id,msg)` ends the process, or the
process has already ended inside `mcx_maskdet` (mask dump). -/
inductive PrepResult where
  | ok (cfg : Config)
  | error (id : Int) (msg : String)
  | exited
deriving DecidableEq, Repr

/-- The bounds test of lines 276-277 and 290-291 on `cfg->srcpos`, with the
dimensions compared exactly; `srcOutside_f32` converts them to `float` as the
source does. -/
def srcOutside (cfg : Config) : Bool :=
  decide (cfg.srcpos.x < 0 ∨ cfg.srcpos.y < 0 ∨ cfg.srcpos.z < 0 ∨
    (cfg.dim.x : ℚ) ≤ cfg.srcpos.x ∨ (cfg.dim.y : ℚ) ≤ cfg.srcpos.y ∨
    (cfg.dim.z : ℚ) ≤ cfg.srcpos.z)

/-- The index `idx1d` of lines 279 and 293:
`(int)(floor(z)*dim.y*dim.x+floor(y)*dim.x+floor(x))`. -/
def srcIdx (cfg : Config) : Nat :=
  (⌊cfg.srcpos.z⌋ * (cfg.dim.y : ℤ) * (cfg.dim.x : ℤ) + ⌊cfg.srcpos.y⌋ * (cfg.dim.x : ℤ) +
    ⌊cfg.srcpos.x⌋).toNat

/-- Lines 287-289: the source position advanced by the direction vector. -/
def srcAdvance (cfg : Config) : Config :=
  { cfg with srcpos := ⟨cfg.srcpos.x + cfg.srcdir.x, cfg.srcpos.y + cfg.srcdir.y,
      cfg.srcpos.z + cfg.srcdir.z⟩ }

/-- The loop `while(cfg->vol[idx1d]==0)` of lines 286-294, run for at most
`fuel` iterations; `none` when the fuel is used up before the loop ends. -/
def srcLoop : Nat → Config → Option PrepResult
  | 0, cfg => if cfg.vol.getD (srcIdx cfg) 0 = 0 then none else some (PrepResult.ok cfg)
  | fuel + 1, cfg =>
    if cfg.vol.getD (srcIdx cfg) 0 = 0 then
      if srcOutside (srcAdvance cfg) then
        some (PrepResult.error (-4) "searching non-zero voxel failed along the incident vector")
      else srcLoop fuel (srcAdvance cfg)
    else some (PrepResult.ok cfg)

/-- Source placement, lines 276-296 of `mcx_prepdomain`, on a configuration
whose volume is loaded. -/
def mcx_prepdomain_source (fuel : Nat) (cfg : Config) : Option PrepResult :=
  if srcOutside cfg then
    some (PrepResult.error (-4) "source position is outside of the volume")
  else if cfg.vol.getD (srcIdx cfg) 0 = 0 then srcLoop fuel cfg
  else some (PrepResult.ok cfg)

/-- Lines 274-296 of `mcx_prepdomain`: the detector mask when `issavedet` is
set, then source placement on the volume the mask leaves. -/
def mcx_prepdomain_tail (fuel : Nat) (cfg : Config) : Option PrepResult :=
  if cfg.issavedet then
    if (mcx_maskdet cfg).exited then some PrepResult.exited
    else mcx_prepdomain_source fuel { cfg with vol := (mcx_maskdet cfg).vol }
  else mcx_prepdomain_source fuel cfg

/-- The configuration with the source moved `k` steps along its direction. -/
def srcAt (cfg : Config) (k : Nat) : Config :=
  { cfg with srcpos := ⟨cfg.srcpos.x + (k : ℚ) * cfg.srcdir.x,
      cfg.srcpos.y + (k : ℚ) * cfg.srcdir.y, cfg.srcpos.z + (k : ℚ) * cfg.srcdir.z⟩ }

/-- A column of three voxels, background below medium 1, with the source in
the lowest voxel pointing up. -/
def columnCfg : Config :=
  { dim := ⟨1, 1, 3⟩, vol := [0, 0, 1], detpos := [⟨0, 0, 3, 1 / 4⟩],
    srcpos := ⟨1 / 2, 1 / 2, 1 / 2⟩, srcdir := ⟨0, 0, 1⟩,
    issavedet := true, isdumpmask := false }

/-- The configuration `columnCfg` is left in by lines 274-296: the top voxel
flagged, the source two steps up. -/
def columnPlaced : Config :=
  { columnCfg with vol := [0, 0, 129], srcpos := ⟨1 / 2, 1 / 2, 5 / 2⟩ }

/-- The same column as `columnCfg` with the source pointing down, out of the
domain. -/
def columnDownCfg : Config :=
  { columnCfg with srcdir := ⟨0, 0, -1⟩ }

/-! ### The scan as a list of sample points -/

/-- The values taken by the loop variable of `for(v=-w-1; v<=w+1; v+=0.5f)`. -/
def scanAxis (w : ℚ) : List ℚ :=
  (List.range (scanFuel w)).map (fun k : Nat => -w - 1 + (k : ℚ) / 2)

/-- The sample offsets `(x,y,z)` of one detector in the order the three nested
loops visit them. -/
def samplePoints (w : ℚ) : List (ℚ × ℚ × ℚ) :=
  (scanAxis w).flatMap (fun z => (scanAxis w).flatMap (fun y =>
    (scanAxis w).map (fun x => (x, y, z))))

/-- The samples of one detector for which lines 932-933 run. -/
def acceptedSamples (dim : uint3) (pv : List Nat) (det : float4) : List (ℚ × ℚ × ℚ) :=
  (samplePoints det.w).filter (fun p => sampleAccepted dim pv det p.1 p.2.1 p.2.2)

/-- The indices written by one detector, one entry per accepted sample. -/
def detHits (dim : uint3) (pv : List Nat) (det : float4) : List Nat :=
  (acceptedSamples dim pv det).map
    (fun p => volIdxOf dim (p.1 + det.x) (p.2.1 + det.y) (p.2.2 + det.z))

/-- The warnings of a run whose successive counters are `cs`, the first of them
belonging to detector number `base+1`. -/
def warnList (issavedet : Bool) : Nat → List Nat → List Nat
  | _, [] => []
  | base, c :: cs =>
    (if issavedet && decide (c = 0) then [base + 1] else []) ++ warnList issavedet (base + 1) cs

/-- Number of voxels whose byte differs between `before` and `after`. -/
def changedCount (before after : List Nat) : Nat :=
  ((List.range before.length).filter
    (fun i => decide (after.getD i 0 ≠ before.getD i 0))).length

/-- Smallest squared distance from the detector centre to the 8 corners of the
voxel `(vx,vy,vz)`. -/
def minCornerD2 (det : float4) (vx vy vz : ℤ) : ℚ :=
  (corners.map (cornerD2 det vx vy vz)).foldl min (cornerD2 det vx vy vz (0, 0, 0))

/-- Some one of the 26 neighbours of the voxel `(vx,vy,vz)` reads `0` in the
padded buffer `pv`; the neighbour at offset `(a-1,b-1,c-1)` has padded
coordinates `(vx+a,vy+b,vz+c)`. -/
def hasZeroNeighbour (pv : List Nat) (dx dy vx vy vz : Nat) : Prop :=
  ∃ a b c : Nat, a < 3 ∧ b < 3 ∧ c < 3 ∧ ¬ (a = 1 ∧ b = 1 ∧ c = 1) ∧
    pv.getD ((vz + c) * dy * dx + (vy + b) * dx + (vx + a)) 0 = 0

/-- The offsets `(a,b,c)` (each coordinate shifted by one, so `1` is "same
position") of the 26 reads of `neighbourIdx`, in the same order. -/
def neighbourOffsets : List (Nat × Nat × Nat) :=
  [(2, 1, 1), (0, 1, 1), (1, 2, 1), (1, 0, 1), (1, 1, 2), (1, 1, 0),
   (2, 2, 1), (0, 2, 1), (2, 0, 1), (0, 0, 1),
   (2, 1, 2), (0, 1, 2), (2, 1, 0), (0, 1, 0),
   (1, 2, 2), (1, 0, 2), (1, 2, 0), (1, 0, 0),
   (2, 2, 2), (0, 2, 2), (2, 0, 2), (0, 0, 2),
   (2, 2, 0), (0, 2, 0), (2, 0, 0), (0, 0, 0)]

/-- What justifies a raised detector flag at index `i` of the volume of `cfg`:
`i` is the index of a voxel `(vx,vy,vz)` of the domain, the byte of that voxel
before the call is nonzero, the padded copy holds that same byte at the shifted
position `(vx+1,vy+1,vz+1)`, one of the 26 padded neighbours of that position is
`0`, and for some detector the smallest squared corner distance of the voxel is
below `w*w`; moreover an accepted sample of that detector addresses this voxel
at line 932 and its shifted position at line 923. -/
def FlagJustified (cfg : Config) (i : Nat) : Prop :=
  ∃ vx vy vz : Nat, vx < cfg.dim.x ∧ vy < cfg.dim.y ∧ vz < cfg.dim.z ∧
    i = vz * cfg.dim.y * cfg.dim.x + vy * cfg.dim.x + vx ∧
    cfg.vol.getD i 0 ≠ 0 ∧
    (padvol cfg.dim cfg.vol).getD
      ((vz + 1) * (cfg.dim.y + 2) * (cfg.dim.x + 2) + (vy + 1) * (cfg.dim.x + 2) + (vx + 1)) 0
      = cfg.vol.getD i 0 ∧
    hasZeroNeighbour (padvol cfg.dim cfg.vol) (cfg.dim.x + 2) (cfg.dim.y + 2) vx vy vz ∧
    ∃ det ∈ cfg.detpos, minCornerD2 det vx vy vz < det.w * det.w ∧
      ∃ p ∈ samplePoints det.w,
        sampleAccepted cfg.dim (padvol cfg.dim cfg.vol) det p.1 p.2.1 p.2.2 = true ∧
        volIdxOf cfg.dim (p.1 + det.x) (p.2.1 + det.y) (p.2.2 + det.z) = i ∧
        padIdxOf cfg.dim (p.1 + det.x) (p.2.1 + det.y) (p.2.2 + det.z) =
          (vz + 1) * (cfg.dim.y + 2) * (cfg.dim.x + 2) + (vy + 1) * (cfg.dim.x + 2) + (vx + 1)

/-- A one-voxel volume with a detector of radius `1/4` on its corner. -/
def unitCfg : Config :=
  { dim := ⟨1, 1, 1⟩, vol := [1], detpos := [⟨0, 0, 0, 1 / 4⟩],
    srcpos := ⟨0, 0, 0⟩, srcdir := ⟨0, 0, 1⟩, issavedet := true, isdumpmask := false }

/-- Two detectors on the one-voxel volume, for the order-independence check. -/
def twoDetCfg : Config :=
  { dim := ⟨1, 1, 1⟩, vol := [1], detpos := [⟨0, 0, 0, 1 / 4⟩, ⟨5, 5, 5, 1⟩],
    srcpos := ⟨0, 0, 0⟩, srcdir := ⟨0, 0, 1⟩, issavedet := true, isdumpmask := false }

/-- Scenario A: dims `(10,10,10)`, the layer `z=0` of medium 1 and background
elsewhere, one detector of radius `0` on the corner of the surface voxel
`(5,5,0)`. -/
def scenarioA : Config :=
  { dim := ⟨10, 10, 10⟩, vol := List.replicate 100 1 ++ List.replicate 900 0,
    detpos := [⟨5, 5, 0, 0⟩],
    srcpos := ⟨0, 0, 0⟩, srcdir := ⟨0, 0, 1⟩, issavedet := true, isdumpmask := false }

/-- Scenario B: dims `(3,3,3)` filled with medium 1 (the background shell is
the halo), one detector of radius `1` at the centre of the face `z=0`. -/
def scenarioB : Config :=
  { dim := ⟨3, 3, 3⟩, vol := List.replicate 27 1, detpos := [⟨3 / 2, 3 / 2, 0, 1⟩],
    srcpos := ⟨0, 0, 0⟩, srcdir := ⟨0, 0, 1⟩, issavedet := true, isdumpmask := false }

/-- Scenario C with detector saving switched off: the one-voxel volume and a
detector whose scan stays outside the domain. -/
def scenarioC : Config :=
  { dim := ⟨1, 1, 1⟩, vol := [1], detpos := [⟨5, 5, 5, 1 / 4⟩],
    srcpos := ⟨0, 0, 0⟩, srcdir := ⟨0, 0, 1⟩, issavedet := false, isdumpmask := false }

/-! ## Loading and layout: `mcx_loadconfig`, `mcx_loadvolume`, `mcx_loadacoustics`, `mcx_convertrow2col` -/

/-- Largest value of `cfg->medianum` the configuration loader lets through. -/
def MAX_PROP : Nat := 255

/-- How a loading function ends: it returns a value, or `mcx_error(id,msg)`
ends the process. -/
inductive LoadResult (α : Type) where
  | ok (a : α)
  | error (id : Int) (msg : String)
deriving DecidableEq, Repr

/-- Lines 449-452 of `mcx_loadconfig`: `n` is the number read by `fscanf` into
the `unsigned int` field `medianum`, which is then incremented and compared
with `MAX_PROP`. -/
def mcx_loadconfig_medianum (n : Nat) : LoadResult Nat :=
  if MAX_PROP < (n + 1) % 2 ^ 32 then
    LoadResult.error (-4) "input media types exceed the maximum (255)"
  else LoadResult.ok ((n + 1) % 2 ^ 32)

/-- The loop of lines 791-794 of `mcx_loadvolume` over the bytes still to be
checked: `true` when `mcx_error` is reached. -/
def mediumExceeds (medianum : Nat) : List Nat → Bool
  | [] => false
  | b :: bs => if medianum ≤ b then true else mediumExceeds medianum bs

/-- The function `mcx_loadvolume`. `isjson` says whether the file name
contains ".json", in which case the outcome is `shapes`, the outcome of
`mcx_load_jsonshapes` (not part of the sources at hand); `file` is the content
of the binary file, `none` when it cannot be opened. `datalen` is an
`unsigned int`: the product of the dimensions modulo `2^32` (line 784).
`fread` delivers at most `datalen` bytes. -/
def mcx_loadvolume (isjson : Bool) (shapes : LoadResult (List Nat)) (file : Option (List Nat))
    (dim : uint3) (medianum : Nat) : LoadResult (List Nat) :=
  if isjson then shapes
  else
    match file with
    | none => LoadResult.error (-5) "the specified binary volume file does not exist"
    | some bytes =>
      if (bytes.take (dim.x * dim.y * dim.z % 2 ^ 32)).length ≠ dim.x * dim.y * dim.z % 2 ^ 32 then
        LoadResult.error (-6) "file size does not match specified dimensions"
      else if mediumExceeds medianum (bytes.take (dim.x * dim.y * dim.z % 2 ^ 32)) then
        LoadResult.error (-6) "medium index exceeds the specified medium types"
      else LoadResult.ok (bytes.take (dim.x * dim.y * dim.z % 2 ^ 32))

/-- One record of the pressure grid (`Acoustics`). -/
structure Acoustics where
  Px : ℚ
  Py : ℚ
  Pz : ℚ
  USphase : ℚ
deriving DecidableEq, Repr

/-- Body of the innermost loop of `mcx_loadacoustics` with the index
arithmetic done in the natural numbers: what lines 825-834 compute when no
`unsigned int` wraps and every read stays inside `my_data`. -/
def loadacoustics_body_nowrap (dim : uint3) (my_data : List ℚ) (k j i : Nat)
    (st : List Acoustics × Nat) : List Acoustics × Nat :=
  (st.1.set st.2
      { Px := my_data.getD (dim.x * dim.y * k + dim.x * j + i) 0
        Py := my_data.getD (dim.x * dim.y * dim.z + (dim.x * dim.y * k + dim.x * j + i)) 0
        Pz := my_data.getD (dim.x * dim.y * dim.z * 2 + (dim.x * dim.y * k + dim.x * j + i)) 0
        USphase :=
          my_data.getD (dim.x * dim.y * dim.z * 3 + (dim.x * dim.y * k + dim.x * j + i)) 0 },
    st.2 + 1)

/-- The triple loop with the body `loadacoustics_body_nowrap`. -/
def loadacoustics_loops_nowrap (dim : uint3) (my_data : List ℚ) : List Acoustics × Nat :=
  (List.range dim.z).foldl
    (fun st k => (List.range dim.y).foldl
      (fun st j => (List.range dim.x).foldl
        (fun st i => loadacoustics_body_nowrap dim my_data k j i st) st) st)
    (List.replicate (dim.x * dim.y * dim.z) ⟨0, 0, 0, 0⟩, 0)

/-- The read `my_data[i]`: one of the floats `fread` delivered or, when `i` is
past the end of the buffer, a float the buffer has no part in; `beyond i`
stands for that float. -/
def acoustics_read (beyond : Nat → ℚ) (my_data : List ℚ) (i : Nat) : ℚ :=
  if i < my_data.length then my_data.getD i 0 else beyond i

/-- Body of the innermost loop of `mcx_loadacoustics` (lines 825-834) on the
state `(cfg->pressure, current_pos)`. `index`, `datalen`, the sums
`datalen*p + index` and `current_pos` are `unsigned int`: every one is taken
modulo `2^32`. -/
def loadacoustics_body (beyond : Nat → ℚ) (dim : uint3) (my_data : List ℚ) (k j i : Nat)
    (st : List Acoustics × Nat) : List Acoustics × Nat :=
  (st.1.set st.2
      { Px := acoustics_read beyond my_data ((dim.x * dim.y * k + dim.x * j + i) % 2 ^ 32)
        Py := acoustics_read beyond my_data
          ((dim.x * dim.y * dim.z % 2 ^ 32 + (dim.x * dim.y * k + dim.x * j + i) % 2 ^ 32)
            % 2 ^ 32)
        Pz := acoustics_read beyond my_data
          ((dim.x * dim.y * dim.z % 2 ^ 32 * 2 + (dim.x * dim.y * k + dim.x * j + i) % 2 ^ 32)
            % 2 ^ 32)
        USphase := acoustics_read beyond my_data
          ((dim.x * dim.y * dim.z % 2 ^ 32 * 3 + (dim.x * dim.y * k + dim.x * j + i) % 2 ^ 32)
            % 2 ^ 32) },
    (st.2 + 1) % 2 ^ 32)

/-- The triple loop of lines 822-837, from a freshly allocated buffer of
`datalen` records and `current_pos = 0`. A store past the end of that buffer,
which the loop makes only when `dim.x*dim.y*dim.z` is `2^32` or more, is
dropped. -/
def loadacoustics_loops (beyond : Nat → ℚ) (dim : uint3) (my_data : List ℚ) :
    List Acoustics × Nat :=
  (List.range dim.z).foldl
    (fun st k => (List.range dim.y).foldl
      (fun st j => (List.range dim.x).foldl
        (fun st i => loadacoustics_body beyond dim my_data k j i st) st) st)
    (List.replicate (dim.x * dim.y * dim.z % 2 ^ 32) ⟨0, 0, 0, 0⟩, 0)

/-- The function `mcx_loadacoustics`. `file` is the content of the file as a
sequence of floats, `none` when it cannot be opened. `datalen` is the product
of the dimensions modulo `2^32` (line 813) and the count asked of `fread` is
`datalen*4` modulo `2^32` (line 817); `fread` delivers at most that many
floats. -/
def mcx_loadacoustics (beyond : Nat → ℚ) (file : Option (List ℚ)) (dim : uint3) :
    LoadResult (List Acoustics) :=
  match file with
  | none => LoadResult.error (-5) "the specified binary acoustics file does not exist"
  | some floats =>
    if (floats.take (dim.x * dim.y * dim.z % 2 ^ 32 * 4 % 2 ^ 32)).length ≠
        dim.x * dim.y * dim.z % 2 ^ 32 * 4 % 2 ^ 32 then
      LoadResult.error (-6) "file size does not match specified dimensions"
    else
      LoadResult.ok (loadacoustics_loops beyond dim
        (floats.take (dim.x * dim.y * dim.z % 2 ^ 32 * 4 % 2 ^ 32))).1

/-- The read `*vol[i]` of line 863. The subscript applies to `vol`, a pointer
to the one pointer `cfg->vol`, before the dereference: for `i = 0` the value is
the first byte of the buffer, for `i > 0` it is the byte found through the
`i`-th pointer-sized slot behind `cfg->vol`, which the buffer has no part in;
`beyond i` stands for that byte. -/
def convert_read (beyond : Nat → Nat) (buf : List Nat) (i : Nat) : Nat :=
  if i = 0 then buf.getD 0 0 else beyond i

/-- The three nested loops of lines 860-864 of `mcx_convertrow2col`, filling a
freshly allocated buffer; `read i` is the value of the right-hand side
`*vol[i]`. -/
def convert_loops (read : Nat → Nat) (dim : uint3) : List Nat :=
  (List.range dim.x).foldl
    (fun nv x => (List.range dim.y).foldl
      (fun nv y => (List.range dim.z).foldl
        (fun nv z => nv.set (z * (dim.x * dim.y) + y * dim.x + x)
          (read (x * (dim.y * dim.z) + y * dim.z + z))) nv) nv)
    (List.replicate (dim.x * dim.y * dim.z) 0)

/-- The function `mcx_convertrow2col`; `vol` is `*vol`, `none` for `NULL`. It
returns the new `*vol` and `*dim`. -/
def mcx_convertrow2col (beyond : Nat → Nat) (vol : Option (List Nat)) (dim : uint3) :
    Option (List Nat) × uint3 :=
  match vol with
  | none => (none, dim)
  | some buf =>
    if dim.x = 0 ∨ dim.y = 0 ∨ dim.z = 0 then (some buf, dim)
    else (some (convert_loops (convert_read beyond buf) dim), dim)

/-- The `(k,j,i)` of the iterations of the triple loop of `mcx_loadacoustics`,
in the order they are run. -/
def loadacoustics_order (dim : uint3) : List (Nat × Nat × Nat) :=
  (List.range dim.z).flatMap (fun k => (List.range dim.y).flatMap (fun j =>
    (List.range dim.x).map (fun i => (k, j, i))))

/-- Writing field `p` of record `idx` to position `p*N + idx`, `p = 0..3`: the
channel-planar buffer of `4*N` floats made from `N` records. -/
def reinterleave (N : Nat) (recs : List Acoustics) : List ℚ :=
  (List.range (4 * N)).map (fun t =>
    let r := recs.getD (t % N) ⟨0, 0, 0, 0⟩
    if t / N = 0 then r.Px else if t / N = 1 then r.Py else if t / N = 2 then r.Pz
    else r.USphase)

/-- The one-voxel background volume with the source at rest on it. -/
def emptyRestCfg : Config :=
  { dim := ⟨1, 1, 1⟩, vol := [0], detpos := [],
    srcpos := ⟨0, 0, 0⟩, srcdir := ⟨0, 0, 0⟩, issavedet := false, isdumpmask := false }

/-! ## Variants the specification compares the code with -/

/-- The corner loop of lines 911-921 with the early reject of lines 916-919
taken out: `mind2` is lowered by every corner that is nearer. -/
def cornerLoopPlain (det : float4) (vx vy vz : ℤ) : List (ℚ × ℚ × ℚ) → ℚ → ℚ
  | [], mind2 => mind2
  | c :: cs, mind2 =>
    cornerLoopPlain det vx vy vz cs
      (if cornerD2 det vx vy vz c < mind2 then cornerD2 det vx vy vz c else mind2)

/-- The test of line 922 (negated) on the outcome of `cornerLoopPlain`. -/
def cornerAcceptedPlain (det : float4) (ix iy iz : ℚ) : Bool :=
  decide (¬ (cornerLoopPlain det (cTrunc ix) (cTrunc iy) (cTrunc iz) corners VERY_BIG = VERY_BIG ∨
    det.w * det.w ≤ cornerLoopPlain det (cTrunc ix) (cTrunc iy) (cTrunc iz) corners VERY_BIG))

/-- The tests of `sampleAccepted` with the corner loop replaced by
`cornerLoopPlain`. -/
def sampleAcceptedPlain (dim : uint3) (pv : List Nat) (det : float4) (x y z : ℚ) : Bool :=
  !sampleRejected dim det x y z &&
    cornerAcceptedPlain det (x + det.x) (y + det.y) (z + det.z) &&
    exposed pv (dim.x + 2) (dim.y + 2) (padIdxOf dim (x + det.x) (y + det.y) (z + det.z))

/-- Body of the innermost loop with the early reject taken out. -/
def maskdet_samplePlain (dim : uint3) (pv : List Nat) (det : float4) (x y z : ℚ)
    (st : List Nat × Nat) : List Nat × Nat :=
  if sampleAcceptedPlain dim pv det x y z then
    (setFlag st.1 (volIdxOf dim (x + det.x) (y + det.y) (z + det.z)), (st.2 + 1) % 2 ^ 32)
  else st

/-- The three nested scan loops of one detector with the early reject taken
out. -/
def maskdet_detectorPlain (dim : uint3) (pv : List Nat) (det : float4) (vol : List Nat) :
    List Nat × Nat :=
  forHalf (det.w + 1)
    (fun z => forHalf (det.w + 1)
      (fun y => forHalf (det.w + 1) (fun x => maskdet_samplePlain dim pv det x y z)
        (scanFuel det.w) (-det.w - 1))
      (scanFuel det.w) (-det.w - 1))
    (scanFuel det.w) (-det.w - 1) (vol, 0)

/-- One iteration of the detector loop with the early reject taken out. -/
def maskdet_stepPlain (cfg : Config) (pv : List Nat) (acc : MaskOut) (det : float4) : MaskOut :=
  let r := maskdet_detectorPlain cfg.dim pv det acc.vol
  { vol := r.1
    counts := acc.counts ++ [r.2]
    warnings :=
      if cfg.issavedet && decide (r.2 = 0) then acc.warnings ++ [acc.counts.length + 1]
      else acc.warnings
    exited := acc.exited }

/-- The function `mcx_maskdet` with the early reject of lines 916-919 taken out
of the corner loop. -/
def mcx_maskdetPlain (cfg : Config) : MaskOut :=
  let r := cfg.detpos.foldl (maskdet_stepPlain cfg (padvol cfg.dim cfg.vol))
    { vol := cfg.vol, counts := [], warnings := [], exited := false }
  { r with exited := cfg.isdumpmask }

/-- The order of stages of the specification's control flow: source placement
on the volume as loaded, then the detector mask (when `issavedet` is set) on
the configuration placement returns. -/
def prepdomain_source_then_mask (fuel : Nat) (cfg : Config) : Option PrepResult :=
  match mcx_prepdomain_source fuel cfg with
  | some (PrepResult.ok cfg') =>
    if cfg'.issavedet then
      if (mcx_maskdet cfg').exited then some PrepResult.exited
      else some (PrepResult.ok { cfg' with vol := (mcx_maskdet cfg').vol })
    else some (PrepResult.ok cfg')
  | r => r

/-- The voxel `(vx,vy,vz)` is one a detector is meant to flag: it is in the
domain, its byte is nonzero, one of its 26 padded neighbours is `0`, and its
smallest squared corner distance to the detector centre is below `w*w`. -/
def Coverable (dim : uint3) (vol : List Nat) (det : float4) (vx vy vz : Nat) : Prop :=
  vx < dim.x ∧ vy < dim.y ∧ vz < dim.z ∧
    vol.getD (vz * dim.y * dim.x + vy * dim.x + vx) 0 ≠ 0 ∧
    hasZeroNeighbour (padvol dim vol) (dim.x + 2) (dim.y + 2) vx vy vz ∧
    minCornerD2 det vx vy vz < det.w * det.w

/-- The outcome `r` of source placement with the volume of the configuration
it returns replaced by `v`. -/
def withVol (v : List Nat) : PrepResult → PrepResult
  | PrepResult.ok c => PrepResult.ok { c with vol := v }
  | r => r

/-! ### A detector whose coverage counter comes back to zero -/

/-- Dimensions `(1024,1024,1024)`. -/
def wrapDim : uint3 := ⟨1024, 1024, 1024⟩

/-- A detector of radius `1000` at the centre `(512,512,512)` of `wrapDim`. -/
def wrapDet : float4 := ⟨512, 512, 512, 1000⟩

/-- A volume of `1024³` voxels, `x` running fastest, in which the voxels of
even `x` hold medium 1 and those of odd `x` are background. -/
def wrapVol : List Nat := (List.range (1024 * 1024 * 1024)).map (fun i => (i + 1) % 2)

/-- The volume `wrapVol` with the detector `wrapDet`: every voxel of even `x`
is exposed and within reach, and each holds 8 sample points of the scan. -/
def wrapCfg : Config :=
  { dim := wrapDim, vol := wrapVol, detpos := [wrapDet],
    srcpos := ⟨0, 0, 0⟩, srcdir := ⟨0, 0, 1⟩, issavedet := true, isdumpmask := false }

/-- The offset `t` of a sample of `wrapDet` falls inside `wrapDim` on its
axis. -/
def wrapIn (t : ℚ) : Bool := decide (0 ≤ t + 512 ∧ t + 512 < 1024)

/-- The offset `t` of a sample of `wrapDet` falls inside `wrapDim` on its axis,
in a voxel of even coordinate. -/
def wrapInEven (t : ℚ) : Bool :=
  decide ((0 ≤ t + 512 ∧ t + 512 < 1024) ∧ ⌊t + 512⌋ % 2 = 0)

/-! ## Binary32 arithmetic

The definitions above compute with exact rationals. The ones below follow the
same source lines with every `float` operation rounded as the machine rounds
it: to the nearest binary32 value, ties to even, one rounding per operation
(no fused multiply-add, no excess precision). A finite `float` is the rational
it denotes; infinities and NaN are not represented. -/

/-- Position of the leading binary digit of `n` (`0` for `n < 2`), found by
halving at most `fuel` times. -/
def log2Fuel : Nat → Nat → Nat
  | 0, _ => 0
  | fuel + 1, n => if n < 2 then 0 else log2Fuel fuel (n / 2) + 1

/-- The power `2^k` for an integer `k`. -/
def pow2 (k : ℤ) : ℚ :=
  if 0 ≤ k then ((2 ^ k.toNat : Nat) : ℚ) else 1 / ((2 ^ (-k).toNat : Nat) : ℚ)

/-- Binary exponent of a positive rational `a`: the `e` with
`2^e ≤ a < 2^(e+1)`. The difference of the digit counts of numerator and
denominator is `e` or `e + 1`. -/
def expo (a : ℚ) : ℤ :=
  if a < pow2 ((log2Fuel a.num.natAbs a.num.natAbs : ℤ) - (log2Fuel a.den a.den : ℤ)) then
    (log2Fuel a.num.natAbs a.num.natAbs : ℤ) - (log2Fuel a.den a.den : ℤ) - 1
  else (log2Fuel a.num.natAbs a.num.natAbs : ℤ) - (log2Fuel a.den a.den : ℤ)

/-- Rounding of a rational to the nearest integer, a half going to the even
neighbour. -/
def roundEven (r : ℚ) : ℤ :=
  if r - ⌊r⌋ < 1 / 2 then ⌊r⌋
  else if 1 / 2 < r - ⌊r⌋ then ⌊r⌋ + 1
  else if ⌊r⌋ % 2 = 0 then ⌊r⌋ else ⌊r⌋ + 1

/-- Rounding of a rational to the nearest binary32 value, ties to even: the
result is a multiple of `2^(e-23)` where `e` is the binary exponent of `q`,
taken as `-126` when it is smaller (subnormal range). Results beyond the
largest finite binary32 value, where the machine gives an infinity, are
outside the model. -/
def rnd32 (q : ℚ) : ℚ :=
  if q = 0 then 0
  else
    roundEven (q / pow2 (max (expo |q|) (-126) - 23)) * pow2 (max (expo |q|) (-126) - 23)

/-- The `float` sum `a + b`. -/
def fadd (a b : ℚ) : ℚ := rnd32 (a + b)

/-- The `float` difference `a - b`. -/
def fsub (a b : ℚ) : ℚ := rnd32 (a - b)

/-- The `float` product `a * b`. -/
def fmul (a b : ℚ) : ℚ := rnd32 (a * b)

/-! ## `mcx_maskdet` in binary32 -/

/-- The test of lines 907-908 in binary32: `ix = x + detpos.x` and its
companions are rounded sums, the dimensions are converted to `float` for the
comparison, and the squares and their sums are rounded one by one. -/
def sampleRejected_f32 (dim : uint3) (det : float4) (x y z : ℚ) : Bool :=
  decide (fadd z det.z < 0 ∨ fadd x det.x < 0 ∨ fadd y det.y < 0 ∨
    rnd32 dim.x ≤ fadd x det.x ∨ rnd32 dim.y ≤ fadd y det.y ∨ rnd32 dim.z ≤ fadd z det.z ∨
    fmul (fadd det.w 1) (fadd det.w 1) < fadd (fadd (fmul x x) (fmul y y)) (fmul z z))

/-- The value `d2` of lines 912-915 in binary32 for the voxel `(vx,vy,vz)`:
`rx = (int)ix - detpos.x + corners[c][0]`, the `int` converted to `float`. -/
def cornerD2_f32 (det : float4) (vx vy vz : ℤ) (c : ℚ × ℚ × ℚ) : ℚ :=
  fadd (fadd
    (fmul (fadd (fsub (rnd32 vx) det.x) c.1) (fadd (fsub (rnd32 vx) det.x) c.1))
    (fmul (fadd (fsub (rnd32 vy) det.y) c.2.1) (fadd (fsub (rnd32 vy) det.y) c.2.1)))
    (fmul (fadd (fsub (rnd32 vz) det.z) c.2.2) (fadd (fsub (rnd32 vz) det.z) c.2.2))

/-- The corner loop of lines 911-921 in binary32. -/
def cornerLoop_f32 (d2max : ℚ) (det : float4) (vx vy vz : ℤ) : List (ℚ × ℚ × ℚ) → ℚ → ℚ
  | [], mind2 => mind2
  | c :: cs, mind2 =>
    if d2max < cornerD2_f32 det vx vy vz c then VERY_BIG
    else cornerLoop_f32 d2max det vx vy vz cs
      (if cornerD2_f32 det vx vy vz c < mind2 then cornerD2_f32 det vx vy vz c else mind2)

/-- Value of `mind2` after the corner loop in binary32; `d2max` is the rounded
square of the rounded sum `w + 1.7321f` (line 899). -/
def mind2Of_f32 (det : float4) (ix iy iz : ℚ) : ℚ :=
  cornerLoop_f32
    (fmul (fadd det.w (rnd32 (17321 / 10000))) (fadd det.w (rnd32 (17321 / 10000)))) det
    (cTrunc ix) (cTrunc iy) (cTrunc iz) corners VERY_BIG

/-- The test of line 922 (negated) in binary32. -/
def cornerAccepted_f32 (det : float4) (ix iy iz : ℚ) : Bool :=
  decide (¬ (mind2Of_f32 det ix iy iz = VERY_BIG ∨ fmul det.w det.w ≤ mind2Of_f32 det ix iy iz))

/-- Index `idx1d` of line 923 in binary32: each of `iz+1.f`, `iy+1.f`,
`ix+1.f` is a rounded sum, truncated after the rounding. The integer
arithmetic is that of `padIdxOf`. -/
def padIdxOf_f32 (dim : uint3) (ix iy iz : ℚ) : Nat :=
  (cTrunc (fadd iz 1)).toNat * (dim.y + 2) * (dim.x + 2) +
    (cTrunc (fadd iy 1)).toNat * (dim.x + 2) + (cTrunc (fadd ix 1)).toNat

/-- All the tests a sample at offset `(x,y,z)` must pass for lines 932-933 to
run, in binary32. -/
def sampleAccepted_f32 (dim : uint3) (pv : List Nat) (det : float4) (x y z : ℚ) : Bool :=
  !sampleRejected_f32 dim det x y z &&
    cornerAccepted_f32 det (fadd x det.x) (fadd y det.y) (fadd z det.z) &&
    exposed pv (dim.x + 2) (dim.y + 2)
      (padIdxOf_f32 dim (fadd x det.x) (fadd y det.y) (fadd z det.z))

/-- Body of the innermost loop (lines 905-934) in binary32 on the state
`(vol, count)`; the flagged index is made of `(int)iz`, `(int)iy`, `(int)ix`
(line 932). -/
def maskdet_sample_f32 (dim : uint3) (pv : List Nat) (det : float4) (x y z : ℚ)
    (st : List Nat × Nat) : List Nat × Nat :=
  if sampleAccepted_f32 dim pv det x y z then
    (setFlag st.1 (volIdxOf dim (fadd x det.x) (fadd y det.y) (fadd z det.z)),
      (st.2 + 1) % 2 ^ 32)
  else st

/-- A loop `for(v=v0; v<=hi; v+=0.5f) body` in binary32, the increment being a
rounded sum, run for at most `fuel` iterations: `none` when the loop has not
ended by then, or when the body has not. -/
def forHalf_f32 {σ : Type} (hi : ℚ) (body : ℚ → σ → Option σ) : Nat → ℚ → σ → Option σ
  | 0, v, s => if v ≤ hi then none else some s
  | fuel + 1, v, s =>
    if v ≤ hi then
      match body v s with
      | some s' => forHalf_f32 hi body fuel (fadd v (1 / 2)) s'
      | none => none
    else some s

/-- The three nested scan loops of one detector (lines 898-937) in binary32,
from the volume `vol` and `count=0`; each loop starts at the rounded
`-w-1.f` and runs while the variable is at most the rounded `w+1.f`. -/
def maskdet_detector_f32 (fuel : Nat) (dim : uint3) (pv : List Nat) (det : float4)
    (vol : List Nat) : Option (List Nat × Nat) :=
  forHalf_f32 (fadd det.w 1)
    (fun z => forHalf_f32 (fadd det.w 1)
      (fun y => forHalf_f32 (fadd det.w 1)
        (fun x s => some (maskdet_sample_f32 dim pv det x y z s))
        fuel (fsub (-det.w) 1))
      fuel (fsub (-det.w) 1))
    fuel (fsub (-det.w) 1) (vol, 0)

/-- One iteration of the detector loop (lines 897-940) in binary32. -/
def maskdet_step_f32 (fuel : Nat) (cfg : Config) (pv : List Nat) (acc : Option MaskOut)
    (det : float4) : Option MaskOut :=
  match acc with
  | none => none
  | some a =>
    match maskdet_detector_f32 fuel cfg.dim pv det a.vol with
    | none => none
    | some r =>
      some { vol := r.1
             counts := a.counts ++ [r.2]
             warnings :=
               if cfg.issavedet && decide (r.2 = 0) then a.warnings ++ [a.counts.length + 1]
               else a.warnings
             exited := a.exited }

/-- The function `mcx_maskdet` (lines 871-963) in binary32; `none` when a scan
loop has not ended within `fuel` iterations. -/
def mcx_maskdet_f32 (fuel : Nat) (cfg : Config) : Option MaskOut :=
  match cfg.detpos.foldl (maskdet_step_f32 fuel cfg (padvol cfg.dim cfg.vol))
      (some { vol := cfg.vol, counts := [], warnings := [], exited := false }) with
  | none => none
  | some r => some { r with exited := cfg.isdumpmask }

/-- Value of a scan variable after `k` increments: `-w-1.f`, then `+= 0.5f`
`k` times. -/
def scanValue_f32 (w : ℚ) : Nat → ℚ
  | 0 => fsub (-w) 1
  | k + 1 => fadd (scanValue_f32 w k) (1 / 2)

/-! ## Source placement in binary32 -/

/-- The bounds test of lines 276-277 and 290-291: the `unsigned int`
dimensions are converted to `float` for the comparison. -/
def srcOutside_f32 (cfg : Config) : Bool :=
  decide (cfg.srcpos.x < 0 ∨ cfg.srcpos.y < 0 ∨ cfg.srcpos.z < 0 ∨
    rnd32 cfg.dim.x ≤ cfg.srcpos.x ∨ rnd32 cfg.dim.y ≤ cfg.srcpos.y ∨
    rnd32 cfg.dim.z ≤ cfg.srcpos.z)

/-- Lines 287-289 in binary32: each `+=` is a rounded sum. -/
def srcAdvance_f32 (cfg : Config) : Config :=
  { cfg with srcpos := ⟨fadd cfg.srcpos.x cfg.srcdir.x, fadd cfg.srcpos.y cfg.srcdir.y,
      fadd cfg.srcpos.z cfg.srcdir.z⟩ }

/-- The loop of lines 286-294 in binary32, run for at most `fuel` iterations.
The index is that of `srcIdx`: it is computed in `double` from `floor` values
and is exact as long as it fits an `int`. -/
def srcLoop_f32 : Nat → Config → Option PrepResult
  | 0, cfg => if cfg.vol.getD (srcIdx cfg) 0 = 0 then none else some (PrepResult.ok cfg)
  | fuel + 1, cfg =>
    if cfg.vol.getD (srcIdx cfg) 0 = 0 then
      if srcOutside_f32 (srcAdvance_f32 cfg) then
        some (PrepResult.error (-4) "searching non-zero voxel failed along the incident vector")
      else srcLoop_f32 fuel (srcAdvance_f32 cfg)
    else some (PrepResult.ok cfg)

/-- Source placement, lines 276-296 of `mcx_prepdomain`, in binary32. -/
def mcx_prepdomain_source_f32 (fuel : Nat) (cfg : Config) : Option PrepResult :=
  if srcOutside_f32 cfg then
    some (PrepResult.error (-4) "source position is outside of the volume")
  else if cfg.vol.getD (srcIdx cfg) 0 = 0 then srcLoop_f32 fuel cfg
  else some (PrepResult.ok cfg)

/-- Lines 274-296 of `mcx_prepdomain` in binary32: the detector mask when
`issavedet` is set, then source placement on the volume the mask leaves. -/
def mcx_prepdomain_tail_f32 (fuel : Nat) (cfg : Config) : Option PrepResult :=
  if cfg.issavedet then
    match mcx_maskdet_f32 fuel cfg with
    | none => none
    | some m =>
      if m.exited then some PrepResult.exited
      else mcx_prepdomain_source_f32 fuel { cfg with vol := m.vol }
  else mcx_prepdomain_source_f32 fuel cfg

/-- The order of stages of the specification's control flow, in binary32:
source placement on the volume as loaded, then the detector mask (when
`issavedet` is set) on the configuration placement returns. -/
def prepdomain_source_then_mask_f32 (fuel : Nat) (cfg : Config) : Option PrepResult :=
  match mcx_prepdomain_source_f32 fuel cfg with
  | some (PrepResult.ok cfg') =>
    if cfg'.issavedet then
      match mcx_maskdet_f32 fuel cfg' with
      | none => none
      | some m =>
        if m.exited then some PrepResult.exited
        else some (PrepResult.ok { cfg' with vol := m.vol })
    else some (PrepResult.ok cfg')
  | r => r

/-! ### Inputs on which rounding shows -/

/-- Dims `(1,1,2)`, background below medium 1, one detector of radius `0.7f`
centred at `(0, 0, 0.2f)`, the source in the background voxel pointing up. The
scan value `0.8f` gives `iz = 0.8f + 0.2f`, the float just below `1`. -/
def roundCfg : Config :=
  { dim := ⟨1, 1, 2⟩, vol := [0, 1], detpos := [⟨0, 0, rnd32 (1 / 5), rnd32 (7 / 10)⟩],
    srcpos := ⟨1 / 2, 1 / 2, 1 / 2⟩, srcdir := ⟨0, 0, 1⟩,
    issavedet := true, isdumpmask := false }

/-- Dims `(1,1,3)`, two background voxels below medium 1, one detector of
radius `1.5` centred at `(0, 0, -5/2^26)`. -/
def twiceCfg : Config :=
  { dim := ⟨1, 1, 3⟩, vol := [0, 0, 1], detpos := [⟨0, 0, -5 / 67108864, 3 / 2⟩],
    srcpos := ⟨1 / 2, 1 / 2, 5 / 2⟩, srcdir := ⟨0, 0, 1⟩,
    issavedet := true, isdumpmask := false }

/-- A one-voxel volume and a detector of radius `2^24` centred at
`(3*2^24, 0, 0)`, far outside the domain. -/
def absorbCfg : Config :=
  { dim := ⟨1, 1, 1⟩, vol := [1], detpos := [⟨50331648, 0, 0, 16777216⟩],
    srcpos := ⟨0, 0, 0⟩, srcdir := ⟨0, 0, 1⟩, issavedet := true, isdumpmask := false }

/-- Dims `(16777217,1,1)` with the source at `x = 16777216`, in the last voxel
of the `x` axis. -/
def edgeCfg (vol : List Nat) : Config :=
  { dim := ⟨16777217, 1, 1⟩, vol := vol, detpos := [],
    srcpos := ⟨16777216, 0, 0⟩, srcdir := ⟨1, 0, 0⟩, issavedet := false, isdumpmask := false }

/-! ## Lemmas: buffers -/

theorem setFlag_length (vol : List Nat) (i : Nat) : (setFlag vol i).length = vol.length := by
  simp [setFlag]

theorem foldl_setFlag_length (is : List Nat) (vol : List Nat) :
    (is.foldl setFlag vol).length = vol.length := by
  induction is generalizing vol with
  | nil => rfl
  | cons a t ih => simp [ih, setFlag_length]

theorem getD_setFlag (vol : List Nat) (i j : Nat) :
    (setFlag vol i).getD j 0 =
      if j = i ∧ j < vol.length then vol.getD j 0 ||| DET_MASK else vol.getD j 0 := by
  unfold setFlag
  simp only [List.getD_eq_getElem?_getD, List.getElem?_set]
  by_cases hji : i = j
  · subst hji
    by_cases hlt : i < vol.length
    · simp [hlt]
    · simp [hlt, List.getElem?_eq_none (Nat.le_of_not_lt hlt)]
  · have : ¬ j = i := fun h => hji h.symm
    simp [hji, this]

theorem lor_mask_idem (b : Nat) : (b ||| DET_MASK) ||| DET_MASK = b ||| DET_MASK := by
  rw [Nat.lor_assoc]; rfl

theorem getD_foldl_setFlag (is : List Nat) (vol : List Nat) (j : Nat) :
    (is.foldl setFlag vol).getD j 0 =
      if j ∈ is ∧ j < vol.length then vol.getD j 0 ||| DET_MASK else vol.getD j 0 := by
  induction is generalizing vol with
  | nil => simp
  | cons a t ih =>
    rw [List.foldl_cons, ih, setFlag_length, getD_setFlag]
    by_cases hja : j = a
    · subst hja
      by_cases hlt : j < vol.length
      · by_cases hjt : j ∈ t <;> simp [hlt, hjt, lor_mask_idem]
      · simp [hlt]
    · by_cases hjt : j ∈ t <;> simp [hja, hjt]

/-! ## Lemmas: the loops -/

theorem forHalf_eq_foldl {σ : Type} (hi : ℚ) (body : ℚ → σ → σ) :
    ∀ (K n : Nat) (v : ℚ) (s : σ), K ≤ n →
      (∀ k : Nat, k < K → v + (k : ℚ) / 2 ≤ hi) → hi < v + (K : ℚ) / 2 →
      forHalf hi body n v s =
        ((List.range K).map (fun k : Nat => v + (k : ℚ) / 2)).foldl (fun s v => body v s) s := by
  intro K
  induction K with
  | zero =>
    intro n v s _ _ hK
    have hv : ¬ v ≤ hi := by
      simp at hK
      exact not_le.mpr hK
    cases n with
    | zero => simp [forHalf]
    | succ n => simp [forHalf, hv]
  | succ K ih =>
    intro n v s hn hle hK
    cases n with
    | zero => omega
    | succ n =>
      have hv : v ≤ hi := by simpa using hle 0 (Nat.succ_pos K)
      have e : ∀ k : Nat, v + 1 / 2 + (k : ℚ) / 2 = v + ((k + 1 : Nat) : ℚ) / 2 := by
        intro k; push_cast; ring
      rw [forHalf, if_pos hv, ih n (v + 1 / 2) (body v s) (Nat.le_of_succ_le_succ hn)
        (fun k hk => by rw [e]; exact hle (k + 1) (Nat.succ_lt_succ hk))
        (by rw [e]; exact hK)]
      rw [List.range_succ_eq_map, List.map_cons, List.foldl_cons, List.map_map]
      simp only [Nat.cast_zero, zero_div, add_zero]
      congr 1
      apply List.map_congr_left
      intro k _
      simp only [Function.comp, e]

theorem scanFuel_le (w : ℚ) (k : Nat) (hk : k < scanFuel w) :
    -w - 1 + (k : ℚ) / 2 ≤ w + 1 := by
  unfold scanFuel at hk
  have h1 : (k : ℤ) < ⌊4 * (w + 1)⌋ + 1 := by omega
  have h2 : (k : ℤ) ≤ ⌊4 * (w + 1)⌋ := by omega
  have h3 : ((k : ℤ) : ℚ) ≤ 4 * (w + 1) := Int.le_floor.mp h2
  have h4 : (k : ℚ) ≤ 4 * (w + 1) := by exact_mod_cast h3
  linarith

theorem scanFuel_gt (w : ℚ) : w + 1 < -w - 1 + (scanFuel w : ℚ) / 2 := by
  have h1 : 4 * (w + 1) < ((⌊4 * (w + 1)⌋ + 1 : ℤ) : ℚ) := by
    have := Int.lt_floor_add_one (4 * (w + 1))
    push_cast
    exact this
  have h2 : ((⌊4 * (w + 1)⌋ + 1 : ℤ) : ℚ) ≤ (scanFuel w : ℚ) := by
    unfold scanFuel
    have : (⌊4 * (w + 1)⌋ + 1 : ℤ) ≤ (((⌊4 * (w + 1)⌋ + 1).toNat : ℕ) : ℤ) := Int.self_le_toNat _
    exact_mod_cast this
  linarith

/-- The scan loop of the source run with any fuel `n ≥ scanFuel w` is the fold
over `scanAxis w`: the loop ends on its own condition. -/
theorem forHalf_scan {σ : Type} (w : ℚ) (body : ℚ → σ → σ) (n : Nat) (hn : scanFuel w ≤ n)
    (s : σ) :
    forHalf (w + 1) body n (-w - 1) s = (scanAxis w).foldl (fun s v => body v s) s :=
  forHalf_eq_foldl (w + 1) body (scanFuel w) n (-w - 1) s hn (scanFuel_le w) (scanFuel_gt w)

theorem foldl_flatMap_eq {α β σ : Type} (f : σ → β → σ) (g : α → List β) (l : List α) (s : σ) :
    (l.flatMap g).foldl f s = l.foldl (fun acc a => (g a).foldl f acc) s := by
  induction l generalizing s with
  | nil => rfl
  | cons a t ih => simp [List.flatMap_cons, List.foldl_append, ih]

theorem maskdet_detector_eq_foldl (dim : uint3) (pv : List Nat) (det : float4)
    (vol : List Nat) :
    maskdet_detector dim pv det vol =
      (samplePoints det.w).foldl
        (fun s p => maskdet_sample dim pv det p.1 p.2.1 p.2.2 s) (vol, 0) := by
  unfold maskdet_detector samplePoints
  rw [forHalf_scan _ _ _ (le_refl _), foldl_flatMap_eq]
  congr 1
  funext s z
  rw [forHalf_scan _ _ _ (le_refl _), foldl_flatMap_eq]
  congr 1
  funext s y
  rw [forHalf_scan _ _ _ (le_refl _), List.foldl_map]

theorem foldl_sample_eq (dim : uint3) (pv : List Nat) (det : float4)
    (ps : List (ℚ × ℚ × ℚ)) (st : List Nat × Nat) (hst : st.2 < 2 ^ 32) :
    ps.foldl (fun s p => maskdet_sample dim pv det p.1 p.2.1 p.2.2 s) st =
      (((ps.filter (fun p => sampleAccepted dim pv det p.1 p.2.1 p.2.2)).map
          (fun p => volIdxOf dim (p.1 + det.x) (p.2.1 + det.y) (p.2.2 + det.z))).foldl
          setFlag st.1,
        (st.2 + (ps.filter (fun p => sampleAccepted dim pv det p.1 p.2.1 p.2.2)).length)
          % 2 ^ 32) := by
  induction ps generalizing st with
  | nil =>
    simp only [List.foldl_nil, List.filter_nil, List.map_nil, List.length_nil, add_zero]
    rw [Nat.mod_eq_of_lt hst]
  | cons p t ih =>
    rw [List.foldl_cons]
    by_cases hacc : sampleAccepted dim pv det p.1 p.2.1 p.2.2 = true
    · rw [ih _ (by simp only [maskdet_sample, hacc, if_true]; exact Nat.mod_lt _ (by norm_num))]
      simp only [maskdet_sample, hacc, if_true, List.filter_cons_of_pos, List.map_cons,
        List.foldl_cons, List.length_cons]
      congr 1
      omega
    · have hacc' : sampleAccepted dim pv det p.1 p.2.1 p.2.2 = false := by
        simpa using hacc
      rw [ih _ (by simp only [maskdet_sample, hacc']; exact hst)]
      simp [maskdet_sample, hacc']

/-- One detector: the volume gets the flag at every hit and `count` is the
number of accepted samples modulo `2^32`. -/
theorem maskdet_detector_eq (dim : uint3) (pv : List Nat) (det : float4) (vol : List Nat) :
    maskdet_detector dim pv det vol =
      ((detHits dim pv det).foldl setFlag vol, (acceptedSamples dim pv det).length % 2 ^ 32) := by
  rw [maskdet_detector_eq_foldl, foldl_sample_eq _ _ _ _ _ (by norm_num)]
  simp [detHits, acceptedSamples]

theorem foldl_maskdet_step (cfg : Config) (pv : List Nat) (dets : List float4) (acc : MaskOut) :
    dets.foldl (maskdet_step cfg pv) acc =
      { vol := (dets.flatMap (detHits cfg.dim pv)).foldl setFlag acc.vol
        counts := acc.counts ++
          dets.map (fun d => (acceptedSamples cfg.dim pv d).length % 2 ^ 32)
        warnings := acc.warnings ++ warnList cfg.issavedet acc.counts.length
          (dets.map (fun d => (acceptedSamples cfg.dim pv d).length % 2 ^ 32))
        exited := acc.exited } := by
  induction dets generalizing acc with
  | nil => simp [warnList]
  | cons d t ih =>
    rw [List.foldl_cons, ih]
    simp only [maskdet_step, maskdet_detector_eq, List.flatMap_cons, List.foldl_append,
      List.map_cons, List.append_assoc, List.singleton_append, List.length_append,
      List.length_singleton, warnList]
    split_ifs <;> simp

/-- Closed form of `mcx_maskdet`: the flags are raised at the hits of all
detectors, each counter is the number of accepted samples of its detector
modulo `2^32`. -/
theorem mcx_maskdet_eq (cfg : Config) :
    mcx_maskdet cfg =
      { vol := (cfg.detpos.flatMap (detHits cfg.dim (padvol cfg.dim cfg.vol))).foldl
          setFlag cfg.vol
        counts := cfg.detpos.map
          (fun d => (acceptedSamples cfg.dim (padvol cfg.dim cfg.vol) d).length % 2 ^ 32)
        warnings := warnList cfg.issavedet 0 (cfg.detpos.map
          (fun d => (acceptedSamples cfg.dim (padvol cfg.dim cfg.vol) d).length % 2 ^ 32))
        exited := cfg.isdumpmask } := by
  unfold mcx_maskdet
  rw [foldl_maskdet_step]
  simp

theorem mcx_maskdet_vol_length (cfg : Config) :
    (mcx_maskdet cfg).vol.length = cfg.vol.length := by
  rw [mcx_maskdet_eq]
  exact foldl_setFlag_length _ _

/-! ## Lemmas: the padded copy -/

theorem memcpy_length (dst : List Nat) (doff : Nat) (src : List Nat) (soff n : Nat) :
    (memcpy dst doff src soff n).length = dst.length := by
  unfold memcpy
  induction n with
  | zero => simp
  | succ n ih =>
    rw [List.range_succ, List.foldl_append]
    simp only [List.foldl_cons, List.foldl_nil, List.length_set]
    exact ih

theorem memcpy_getD (dst : List Nat) (doff : Nat) (src : List Nat) (soff n j : Nat) :
    (memcpy dst doff src soff n).getD j 0 =
      if doff ≤ j ∧ j < doff + n ∧ j < dst.length then src.getD (soff + (j - doff)) 0
      else dst.getD j 0 := by
  induction n with
  | zero =>
    have : ¬ (doff ≤ j ∧ j < doff + 0 ∧ j < dst.length) := by omega
    rw [if_neg this]
    rfl
  | succ n ih =>
    have hstep : memcpy dst doff src soff (n + 1) =
        (memcpy dst doff src soff n).set (doff + n) (src.getD (soff + n) 0) := by
      unfold memcpy
      rw [List.range_succ, List.foldl_append]
      rfl
    rw [hstep, List.getD_eq_getElem?_getD, List.getElem?_set, memcpy_length]
    by_cases hj : doff + n = j
    · subst hj
      by_cases hlt : doff + n < dst.length
      · have hc : doff ≤ doff + n ∧ doff + n < doff + (n + 1) ∧ doff + n < dst.length := by
          omega
        rw [if_pos rfl, if_pos hlt, if_pos hc]
        simp
      · have hc : ¬ (doff ≤ doff + n ∧ doff + n < doff + (n + 1) ∧ doff + n < dst.length) := by
          omega
        rw [if_pos rfl, if_neg hlt, if_neg hc]
        simp [List.getElem?_eq_none (Nat.le_of_not_lt hlt)]
    · rw [if_neg hj, ← List.getD_eq_getElem?_getD, ih]
      by_cases hc : doff ≤ j ∧ j < doff + n ∧ j < dst.length
      · have hc' : doff ≤ j ∧ j < doff + (n + 1) ∧ j < dst.length := by omega
        rw [if_pos hc, if_pos hc']
      · have hc' : ¬ (doff ≤ j ∧ j < doff + (n + 1) ∧ j < dst.length) := by omega
        rw [if_neg hc, if_neg hc']

theorem mul_add_unique (m a b a' b' : Nat) (hb : b < m) (hb' : b' < m)
    (h : a * m + b = a' * m + b') : a = a' ∧ b = b' := by
  rcases Nat.lt_trichotomy a a' with hlt | heq | hgt
  · have := Nat.mul_le_mul_right m (Nat.succ_le_of_lt hlt)
    rw [Nat.succ_mul] at this
    omega
  · subst heq
    omega
  · have := Nat.mul_le_mul_right m (Nat.succ_le_of_lt hgt)
    rw [Nat.succ_mul] at this
    omega

theorem row_mem_iff (dx dy n zi yi pz py px : Nat) (hn : n + 2 ≤ dx) (hpx : px < dx)
    (hpy : py < dy) (hyi : yi < dy) :
    (zi * dy * dx + yi * dx + 1 ≤ pz * dy * dx + py * dx + px ∧
      pz * dy * dx + py * dx + px < zi * dy * dx + yi * dx + 1 + n) ↔
    (pz = zi ∧ py = yi ∧ 1 ≤ px ∧ px ≤ n) := by
  have eA : zi * dy * dx + yi * dx = (zi * dy + yi) * dx := by ring
  have eB : pz * dy * dx + py * dx = (pz * dy + py) * dx := by ring
  constructor
  · rintro ⟨h1, h2⟩
    rw [eA] at h1 h2
    rw [eB] at h1 h2
    have hAB : pz * dy + py = zi * dy + yi := by
      rcases Nat.lt_trichotomy (pz * dy + py) (zi * dy + yi) with hlt | heq | hgt
      · have := Nat.mul_le_mul_right dx (Nat.succ_le_of_lt hlt)
        rw [Nat.succ_mul] at this
        omega
      · exact heq
      · have := Nat.mul_le_mul_right dx (Nat.succ_le_of_lt hgt)
        rw [Nat.succ_mul] at this
        omega
    obtain ⟨hz, hy⟩ := mul_add_unique dy pz py zi yi hpy hyi hAB
    rw [hAB] at h1 h2
    exact ⟨hz, hy, by omega, by omega⟩
  · rintro ⟨rfl, rfl, h1, h2⟩
    omega

theorem idx3_lt (dx dy dz px py pz : Nat) (hx : px < dx) (hy : py < dy) (hz : pz < dz) :
    pz * dy * dx + py * dx + px < dx * dy * dz := by
  have h1 : pz * dy + py + 1 ≤ dz * dy := by
    have := Nat.mul_le_mul_right dy (Nat.succ_le_of_lt hz)
    rw [Nat.succ_mul] at this
    omega
  have h2 := Nat.mul_le_mul_right dx h1
  have e1 : (pz * dy + py + 1) * dx = pz * dy * dx + py * dx + dx := by ring
  have e2 : dz * dy * dx = dx * dy * dz := by ring
  rw [e1, e2] at h2
  omega

theorem padRows_aux (dim : uint3) (vol : List Nat) (zi : Nat) (ys : List Nat)
    (hys : ∀ y ∈ ys, y < dim.y + 2) (pv : List Nat) (px py pz : Nat)
    (hpx : px < dim.x + 2) (hpy : py < dim.y + 2) :
    (ys.foldl
      (fun acc yi =>
        memcpy acc (zi * (dim.y + 2) * (dim.x + 2) + yi * (dim.x + 2) + 1) vol
          ((zi - 1) * dim.y * dim.x + (yi - 1) * dim.x) dim.x) pv).getD
        (pz * (dim.y + 2) * (dim.x + 2) + py * (dim.x + 2) + px) 0 =
      if pz = zi ∧ py ∈ ys ∧ 1 ≤ px ∧ px ≤ dim.x ∧
          pz * (dim.y + 2) * (dim.x + 2) + py * (dim.x + 2) + px < pv.length then
        vol.getD ((zi - 1) * dim.y * dim.x + (py - 1) * dim.x + (px - 1)) 0
      else pv.getD (pz * (dim.y + 2) * (dim.x + 2) + py * (dim.x + 2) + px) 0 := by
  induction ys generalizing pv with
  | nil => simp
  | cons yi t ih =>
    have hyi : yi < dim.y + 2 := hys yi (List.mem_cons_self _ _)
    rw [List.foldl_cons, ih (fun y hy => hys y (List.mem_cons_of_mem _ hy)), memcpy_length,
      memcpy_getD]
    have hrow := row_mem_iff (dim.x + 2) (dim.y + 2) dim.x zi yi pz py px (le_refl _) hpx hpy hyi
    by_cases hlen : pz * (dim.y + 2) * (dim.x + 2) + py * (dim.x + 2) + px < pv.length
    · by_cases hz : pz = zi
      · by_cases hpxr : 1 ≤ px ∧ px ≤ dim.x
        · by_cases hpt : py ∈ t
          · have c1 : pz = zi ∧ py ∈ t ∧ 1 ≤ px ∧ px ≤ dim.x ∧
                pz * (dim.y + 2) * (dim.x + 2) + py * (dim.x + 2) + px < pv.length :=
              ⟨hz, hpt, hpxr.1, hpxr.2, hlen⟩
            have c2 : pz = zi ∧ py ∈ yi :: t ∧ 1 ≤ px ∧ px ≤ dim.x ∧
                pz * (dim.y + 2) * (dim.x + 2) + py * (dim.x + 2) + px < pv.length :=
              ⟨hz, List.mem_cons_of_mem _ hpt, hpxr.1, hpxr.2, hlen⟩
            rw [if_pos c1, if_pos c2]
          · have c1 : ¬ (pz = zi ∧ py ∈ t ∧ 1 ≤ px ∧ px ≤ dim.x ∧
                pz * (dim.y + 2) * (dim.x + 2) + py * (dim.x + 2) + px < pv.length) :=
              fun h => hpt h.2.1
            rw [if_neg c1]
            by_cases hy : py = yi
            · have c2 : pz = zi ∧ py ∈ yi :: t ∧ 1 ≤ px ∧ px ≤ dim.x ∧
                  pz * (dim.y + 2) * (dim.x + 2) + py * (dim.x + 2) + px < pv.length :=
                ⟨hz, by rw [hy]; exact List.mem_cons_self _ _, hpxr.1, hpxr.2, hlen⟩
              have c3 := hrow.mpr ⟨hz, hy, hpxr.1, hpxr.2⟩
              rw [if_pos c2, if_pos ⟨c3.1, c3.2, hlen⟩]
              subst hz
              subst hy
              congr 1
              omega
            · have c2 : ¬ (pz = zi ∧ py ∈ yi :: t ∧ 1 ≤ px ∧ px ≤ dim.x ∧
                  pz * (dim.y + 2) * (dim.x + 2) + py * (dim.x + 2) + px < pv.length) := by
                rintro ⟨_, h, _⟩
                rcases List.mem_cons.mp h with h | h
                · exact hy h
                · exact hpt h
              have c3 : ¬ (zi * (dim.y + 2) * (dim.x + 2) + yi * (dim.x + 2) + 1 ≤
                  pz * (dim.y + 2) * (dim.x + 2) + py * (dim.x + 2) + px ∧
                  pz * (dim.y + 2) * (dim.x + 2) + py * (dim.x + 2) + px <
                    zi * (dim.y + 2) * (dim.x + 2) + yi * (dim.x + 2) + 1 + dim.x ∧
                  pz * (dim.y + 2) * (dim.x + 2) + py * (dim.x + 2) + px < pv.length) :=
                fun h => hy (hrow.mp ⟨h.1, h.2.1⟩).2.1
              rw [if_neg c2, if_neg c3]
        · have c1 : ¬ (pz = zi ∧ py ∈ t ∧ 1 ≤ px ∧ px ≤ dim.x ∧
              pz * (dim.y + 2) * (dim.x + 2) + py * (dim.x + 2) + px < pv.length) :=
            fun h => hpxr ⟨h.2.2.1, h.2.2.2.1⟩
          have c2 : ¬ (pz = zi ∧ py ∈ yi :: t ∧ 1 ≤ px ∧ px ≤ dim.x ∧
              pz * (dim.y + 2) * (dim.x + 2) + py * (dim.x + 2) + px < pv.length) :=
            fun h => hpxr ⟨h.2.2.1, h.2.2.2.1⟩
          have c3 : ¬ (zi * (dim.y + 2) * (dim.x + 2) + yi * (dim.x + 2) + 1 ≤
              pz * (dim.y + 2) * (dim.x + 2) + py * (dim.x + 2) + px ∧
              pz * (dim.y + 2) * (dim.x + 2) + py * (dim.x + 2) + px <
                zi * (dim.y + 2) * (dim.x + 2) + yi * (dim.x + 2) + 1 + dim.x ∧
              pz * (dim.y + 2) * (dim.x + 2) + py * (dim.x + 2) + px < pv.length) :=
            fun h => hpxr (hrow.mp ⟨h.1, h.2.1⟩).2.2
          rw [if_neg c1, if_neg c2, if_neg c3]
      · have c1 : ¬ (pz = zi ∧ py ∈ t ∧ 1 ≤ px ∧ px ≤ dim.x ∧
            pz * (dim.y + 2) * (dim.x + 2) + py * (dim.x + 2) + px < pv.length) :=
          fun h => hz h.1
        have c2 : ¬ (pz = zi ∧ py ∈ yi :: t ∧ 1 ≤ px ∧ px ≤ dim.x ∧
            pz * (dim.y + 2) * (dim.x + 2) + py * (dim.x + 2) + px < pv.length) :=
          fun h => hz h.1
        have c3 : ¬ (zi * (dim.y + 2) * (dim.x + 2) + yi * (dim.x + 2) + 1 ≤
            pz * (dim.y + 2) * (dim.x + 2) + py * (dim.x + 2) + px ∧
            pz * (dim.y + 2) * (dim.x + 2) + py * (dim.x + 2) + px <
              zi * (dim.y + 2) * (dim.x + 2) + yi * (dim.x + 2) + 1 + dim.x ∧
            pz * (dim.y + 2) * (dim.x + 2) + py * (dim.x + 2) + px < pv.length) :=
          fun h => hz (hrow.mp ⟨h.1, h.2.1⟩).1
        rw [if_neg c1, if_neg c2, if_neg c3]
    · have c1 : ¬ (pz = zi ∧ py ∈ t ∧ 1 ≤ px ∧ px ≤ dim.x ∧
          pz * (dim.y + 2) * (dim.x + 2) + py * (dim.x + 2) + px < pv.length) :=
        fun h => hlen h.2.2.2.2
      have c2 : ¬ (pz = zi ∧ py ∈ yi :: t ∧ 1 ≤ px ∧ px ≤ dim.x ∧
          pz * (dim.y + 2) * (dim.x + 2) + py * (dim.x + 2) + px < pv.length) :=
        fun h => hlen h.2.2.2.2
      have c3 : ¬ (zi * (dim.y + 2) * (dim.x + 2) + yi * (dim.x + 2) + 1 ≤
          pz * (dim.y + 2) * (dim.x + 2) + py * (dim.x + 2) + px ∧
          pz * (dim.y + 2) * (dim.x + 2) + py * (dim.x + 2) + px <
            zi * (dim.y + 2) * (dim.x + 2) + yi * (dim.x + 2) + 1 + dim.x ∧
          pz * (dim.y + 2) * (dim.x + 2) + py * (dim.x + 2) + px < pv.length) :=
        fun h => hlen h.2.2
      rw [if_neg c1, if_neg c2, if_neg c3]

theorem padRows_length (dim : uint3) (vol : List Nat) (zi : Nat) (pv : List Nat) :
    (padRows dim vol zi pv).length = pv.length := by
  unfold padRows
  generalize List.range' 1 dim.y = ys
  induction ys generalizing pv with
  | nil => rfl
  | cons y t ih => rw [List.foldl_cons, ih, memcpy_length]

theorem padRows_getD (dim : uint3) (vol : List Nat) (zi : Nat) (pv : List Nat)
    (px py pz : Nat) (hpx : px < dim.x + 2) (hpy : py < dim.y + 2) :
    (padRows dim vol zi pv).getD (pz * (dim.y + 2) * (dim.x + 2) + py * (dim.x + 2) + px) 0 =
      if pz = zi ∧ (1 ≤ py ∧ py ≤ dim.y) ∧ (1 ≤ px ∧ px ≤ dim.x) ∧
          pz * (dim.y + 2) * (dim.x + 2) + py * (dim.x + 2) + px < pv.length then
        vol.getD ((zi - 1) * dim.y * dim.x + (py - 1) * dim.x + (px - 1)) 0
      else pv.getD (pz * (dim.y + 2) * (dim.x + 2) + py * (dim.x + 2) + px) 0 := by
  unfold padRows
  rw [padRows_aux dim vol zi (List.range' 1 dim.y)
    (fun y hy => by rw [List.mem_range'_1] at hy; omega) pv px py pz hpx hpy]
  simp only [List.mem_range'_1]
  split_ifs with h1 h2 h2
  · rfl
  · exfalso; apply h2; refine ⟨h1.1, ⟨h1.2.1.1, by omega⟩, ⟨h1.2.2.1, h1.2.2.2.1⟩, h1.2.2.2.2⟩
  · exfalso; apply h1; refine ⟨h2.1, ⟨h2.2.1.1, by omega⟩, h2.2.2.1.1, h2.2.2.1.2, h2.2.2.2⟩
  · rfl

theorem padvol_aux (dim : uint3) (vol : List Nat) (zs : List Nat) (pv : List Nat)
    (px py pz : Nat) (hpx : px < dim.x + 2) (hpy : py < dim.y + 2) :
    (zs.foldl (fun acc zi => padRows dim vol zi acc) pv).getD
        (pz * (dim.y + 2) * (dim.x + 2) + py * (dim.x + 2) + px) 0 =
      if pz ∈ zs ∧ (1 ≤ py ∧ py ≤ dim.y) ∧ (1 ≤ px ∧ px ≤ dim.x) ∧
          pz * (dim.y + 2) * (dim.x + 2) + py * (dim.x + 2) + px < pv.length then
        vol.getD ((pz - 1) * dim.y * dim.x + (py - 1) * dim.x + (px - 1)) 0
      else pv.getD (pz * (dim.y + 2) * (dim.x + 2) + py * (dim.x + 2) + px) 0 := by
  induction zs generalizing pv with
  | nil => simp
  | cons zi t ih =>
    rw [List.foldl_cons, ih, padRows_length, padRows_getD dim vol zi pv px py pz hpx hpy]
    simp only [List.mem_cons]
    split_ifs with h1 h2 h3 h4 h5
    · rfl
    · exfalso; exact h2 ⟨Or.inr h1.1, h1.2⟩
    · obtain ⟨rfl, _⟩ := h3; rfl
    · exfalso; exact h4 ⟨Or.inl h3.1, h3.2⟩
    · exfalso
      rcases h5.1 with h | h
      · exact h3 ⟨h, h5.2⟩
      · exact h1 ⟨h, h5.2⟩
    · rfl

/-- Contents of the padded copy: the volume in the interior, shifted by one
voxel on every axis, and `0` on the halo. -/
theorem padvol_getD (dim : uint3) (vol : List Nat) (px py pz : Nat)
    (hpx : px < dim.x + 2) (hpy : py < dim.y + 2) (hpz : pz < dim.z + 2) :
    (padvol dim vol).getD (pz * (dim.y + 2) * (dim.x + 2) + py * (dim.x + 2) + px) 0 =
      if (1 ≤ pz ∧ pz ≤ dim.z) ∧ (1 ≤ py ∧ py ≤ dim.y) ∧ (1 ≤ px ∧ px ≤ dim.x) then
        vol.getD ((pz - 1) * dim.y * dim.x + (py - 1) * dim.x + (px - 1)) 0
      else 0 := by
  unfold padvol
  rw [padvol_aux dim vol _ _ px py pz hpx hpy, List.length_replicate]
  have hlt := idx3_lt (dim.x + 2) (dim.y + 2) (dim.z + 2) px py pz hpx hpy hpz
  have h0 : (List.replicate ((dim.x + 2) * (dim.y + 2) * (dim.z + 2)) 0).getD
      (pz * (dim.y + 2) * (dim.x + 2) + py * (dim.x + 2) + px) 0 = 0 := by
    rw [List.getD_eq_getElem?_getD, List.getElem?_replicate]
    split_ifs
    rfl
  rw [h0]
  simp only [List.mem_range'_1]
  split_ifs with h1 h2 h2
  · rfl
  · exfalso; apply h2; exact ⟨⟨h1.1.1, by omega⟩, h1.2.1, h1.2.2.1⟩
  · exfalso; apply h1; exact ⟨⟨h2.1.1, by omega⟩, h2.2.1, h2.2.2, hlt⟩
  · rfl

/-- The voxel `(vx,vy,vz)` of the volume sits at `(vx+1,vy+1,vz+1)` in the
padded copy. -/
theorem padvol_interior (dim : uint3) (vol : List Nat) (vx vy vz : Nat)
    (hx : vx < dim.x) (hy : vy < dim.y) (hz : vz < dim.z) :
    (padvol dim vol).getD
        ((vz + 1) * (dim.y + 2) * (dim.x + 2) + (vy + 1) * (dim.x + 2) + (vx + 1)) 0 =
      vol.getD (vz * dim.y * dim.x + vy * dim.x + vx) 0 := by
  rw [padvol_getD dim vol (vx + 1) (vy + 1) (vz + 1) (by omega) (by omega) (by omega)]
  rw [if_pos (by omega)]
  simp

/-! ## Lemmas: geometry of a sample -/

theorem cTrunc_voxel (q : ℚ) (n : Nat) (h0 : 0 ≤ q) (h1 : q < n) :
    ∃ v : Nat, v < n ∧ cTrunc q = (v : ℤ) ∧ cTrunc (q + 1) = (v : ℤ) + 1 ∧
      (cTrunc q).toNat = v ∧ (cTrunc (q + 1)).toNat = v + 1 := by
  have hf0 : 0 ≤ ⌊q⌋ := Int.floor_nonneg.mpr h0
  have hfn : ⌊q⌋ < (n : ℤ) := Int.floor_lt.mpr (by exact_mod_cast h1)
  have e1 : cTrunc q = ⌊q⌋ := by simp [cTrunc, h0]
  have e2 : cTrunc (q + 1) = ⌊q⌋ + 1 := by
    have : 0 ≤ q + 1 := by linarith
    simp [cTrunc, this]
  refine ⟨⌊q⌋.toNat, by omega, ?_, ?_, ?_, ?_⟩
  · rw [e1]; omega
  · rw [e2]; omega
  · rw [e1]
  · rw [e2]; omega

/-- A sample that passes the test of lines 907-908 lies in a voxel of the
domain; lines 923 and 932 address that voxel, in the padded copy and in the
volume. -/
theorem sample_voxel (dim : uint3) (det : float4) (x y z : ℚ)
    (h : sampleRejected dim det x y z = false) :
    ∃ vx vy vz : Nat, vx < dim.x ∧ vy < dim.y ∧ vz < dim.z ∧
      cTrunc (x + det.x) = (vx : ℤ) ∧ cTrunc (y + det.y) = (vy : ℤ) ∧
      cTrunc (z + det.z) = (vz : ℤ) ∧
      volIdxOf dim (x + det.x) (y + det.y) (z + det.z) = vz * dim.y * dim.x + vy * dim.x + vx ∧
      padIdxOf dim (x + det.x) (y + det.y) (z + det.z) =
        (vz + 1) * (dim.y + 2) * (dim.x + 2) + (vy + 1) * (dim.x + 2) + (vx + 1) := by
  simp only [sampleRejected, decide_eq_false_iff_not, not_or, not_lt, not_le] at h
  obtain ⟨hz0, hx0, hy0, hx1, hy1, hz1, _⟩ := h
  obtain ⟨vx, hvx, ex, _, tx, tx1⟩ := cTrunc_voxel (x + det.x) dim.x hx0 hx1
  obtain ⟨vy, hvy, ey, _, ty, ty1⟩ := cTrunc_voxel (y + det.y) dim.y hy0 hy1
  obtain ⟨vz, hvz, ez, _, tz, tz1⟩ := cTrunc_voxel (z + det.z) dim.z hz0 hz1
  refine ⟨vx, vy, vz, hvx, hvy, hvz, ex, ey, ez, ?_, ?_⟩
  · simp only [volIdxOf, tx, ty, tz]
  · simp only [padIdxOf, tx1, ty1, tz1]

theorem cornerLoop_cases (d2max : ℚ) (det : float4) (vx vy vz : ℤ)
    (cs : List (ℚ × ℚ × ℚ)) (m : ℚ) :
    cornerLoop d2max det vx vy vz cs m = VERY_BIG ∨
      cornerLoop d2max det vx vy vz cs m = m ∨
      ∃ c ∈ cs, cornerLoop d2max det vx vy vz cs m = cornerD2 det vx vy vz c := by
  induction cs generalizing m with
  | nil => right; left; rfl
  | cons c t ih =>
    unfold cornerLoop
    split_ifs with h1 h2
    · left; rfl
    · rcases ih (cornerD2 det vx vy vz c) with h | h | ⟨c', hc', h⟩
      · left; exact h
      · right; right; exact ⟨c, List.mem_cons_self _ _, h⟩
      · right; right; exact ⟨c', List.mem_cons_of_mem _ hc', h⟩
    · rcases ih m with h | h | ⟨c', hc', h⟩
      · left; exact h
      · right; left; exact h
      · right; right; exact ⟨c', List.mem_cons_of_mem _ hc', h⟩

theorem cornerAccepted_exists (det : float4) (ix iy iz : ℚ)
    (h : cornerAccepted det ix iy iz = true) :
    ∃ c ∈ corners, cornerD2 det (cTrunc ix) (cTrunc iy) (cTrunc iz) c < det.w * det.w := by
  simp only [cornerAccepted, decide_eq_true_eq, not_or, not_le] at h
  obtain ⟨hne, hlt⟩ := h
  unfold mind2Of at hne hlt
  rcases cornerLoop_cases ((det.w + 17321 / 10000) * (det.w + 17321 / 10000)) det
    (cTrunc ix) (cTrunc iy) (cTrunc iz) corners VERY_BIG with h | h | ⟨c, hc, h⟩
  · exact absurd h hne
  · exact absurd h hne
  · exact ⟨c, hc, by rw [← h]; exact hlt⟩

theorem foldl_min_lt_iff (l : List ℚ) (a t : ℚ) :
    l.foldl min a < t ↔ a < t ∨ ∃ x ∈ l, x < t := by
  induction l generalizing a with
  | nil => simp
  | cons x l ih =>
    rw [List.foldl_cons, ih, min_lt_iff]
    constructor
    · rintro ((h | h) | ⟨y, hy, h⟩)
      · exact Or.inl h
      · exact Or.inr ⟨x, List.mem_cons_self _ _, h⟩
      · exact Or.inr ⟨y, List.mem_cons_of_mem _ hy, h⟩
    · rintro (h | ⟨y, hy, h⟩)
      · exact Or.inl (Or.inl h)
      · rcases List.mem_cons.mp hy with rfl | hy
        · exact Or.inl (Or.inr h)
        · exact Or.inr ⟨y, hy, h⟩

theorem minCornerD2_lt_iff (det : float4) (vx vy vz : ℤ) (t : ℚ) :
    minCornerD2 det vx vy vz < t ↔ ∃ c ∈ corners, cornerD2 det vx vy vz c < t := by
  unfold minCornerD2
  rw [foldl_min_lt_iff]
  constructor
  · rintro (h | ⟨x, hx, h⟩)
    · exact ⟨(0, 0, 0), by simp [corners], h⟩
    · obtain ⟨c, hc, rfl⟩ := List.mem_map.mp hx
      exact ⟨c, hc, h⟩
  · rintro ⟨c, hc, h⟩
    exact Or.inr ⟨_, List.mem_map.mpr ⟨c, hc, rfl⟩, h⟩

/-! ## Lemmas: the interface test -/

theorem neighbourIdx_eq (dx dy vx vy vz : Nat) :
    neighbourIdx dx dy ((vz + 1) * dy * dx + (vy + 1) * dx + (vx + 1)) =
      neighbourOffsets.map
        (fun p => (vz + p.2.2) * dy * dx + (vy + p.2.1) * dx + (vx + p.1)) := by
  have z0 : (vz + 0) * dy * dx = vz * dy * dx := by ring
  have z1 : (vz + 1) * dy * dx = vz * dy * dx + dy * dx := by ring
  have z2 : (vz + 2) * dy * dx = vz * dy * dx + 2 * (dy * dx) := by ring
  have y0 : (vy + 0) * dx = vy * dx := by ring
  have y1 : (vy + 1) * dx = vy * dx + dx := by ring
  have y2 : (vy + 2) * dx = vy * dx + 2 * dx := by ring
  simp only [neighbourIdx, neighbourOffsets, List.map_cons, List.map_nil, z0, z1, z2, y0, y1, y2]
  generalize vz * dy * dx = P
  generalize vy * dx = Q
  generalize dy * dx = m
  simp only [List.cons.injEq, and_true]
  refine ⟨?_, ?_, ?_, ?_, ?_, ?_, ?_, ?_, ?_, ?_, ?_, ?_, ?_, ?_, ?_, ?_, ?_, ?_, ?_, ?_,
    ?_, ?_, ?_, ?_, ?_, ?_⟩ <;> omega

theorem mem_neighbourOffsets (a b c : Nat) :
    (a, b, c) ∈ neighbourOffsets ↔ a < 3 ∧ b < 3 ∧ c < 3 ∧ ¬ (a = 1 ∧ b = 1 ∧ c = 1) := by
  constructor
  · intro h
    simp only [neighbourOffsets, List.mem_cons, Prod.mk.injEq, List.mem_singleton,
      List.not_mem_nil, or_false] at h
    omega
  · rintro ⟨ha, hb, hc, hne⟩
    interval_cases a <;> interval_cases b <;> interval_cases c <;>
      first
        | (exfalso; exact hne ⟨rfl, rfl, rfl⟩)
        | simp [neighbourOffsets]

/-- The interface test of the source on the padded position of the voxel
`(vx,vy,vz)`: the voxel is nonzero and one of its 26 neighbours is zero. -/
theorem exposed_iff (pv : List Nat) (dx dy vx vy vz : Nat) :
    exposed pv dx dy ((vz + 1) * dy * dx + (vy + 1) * dx + (vx + 1)) = true ↔
      pv.getD ((vz + 1) * dy * dx + (vy + 1) * dx + (vx + 1)) 0 ≠ 0 ∧
        hasZeroNeighbour pv dx dy vx vy vz := by
  unfold exposed hasZeroNeighbour
  rw [neighbourIdx_eq]
  simp only [Bool.and_eq_true, decide_eq_true_eq, Bool.not_eq_true', List.all_eq_false,
    List.mem_map, ne_eq, Decidable.not_not]
  constructor
  · rintro ⟨h0, n, ⟨⟨a, b, c⟩, hp, rfl⟩, hn⟩
    obtain ⟨ha, hb, hc, hne⟩ := (mem_neighbourOffsets a b c).mp hp
    exact ⟨h0, a, b, c, ha, hb, hc, hne, hn⟩
  · rintro ⟨h0, a, b, c, ha, hb, hc, hne, hn⟩
    exact ⟨h0, _, ⟨(a, b, c), (mem_neighbourOffsets a b c).mpr ⟨ha, hb, hc, hne⟩, rfl⟩, hn⟩

/-! ## Lemmas: hits -/

/-- What an accepted sample says about the voxel it addresses. -/
theorem accepted_spec (dim : uint3) (vol : List Nat) (det : float4) (x y z : ℚ)
    (h : sampleAccepted dim (padvol dim vol) det x y z = true) :
    ∃ vx vy vz : Nat, vx < dim.x ∧ vy < dim.y ∧ vz < dim.z ∧
      volIdxOf dim (x + det.x) (y + det.y) (z + det.z) = vz * dim.y * dim.x + vy * dim.x + vx ∧
      padIdxOf dim (x + det.x) (y + det.y) (z + det.z) =
        (vz + 1) * (dim.y + 2) * (dim.x + 2) + (vy + 1) * (dim.x + 2) + (vx + 1) ∧
      vol.getD (vz * dim.y * dim.x + vy * dim.x + vx) 0 ≠ 0 ∧
      hasZeroNeighbour (padvol dim vol) (dim.x + 2) (dim.y + 2) vx vy vz ∧
      minCornerD2 det vx vy vz < det.w * det.w := by
  simp only [sampleAccepted, Bool.and_eq_true, Bool.not_eq_true'] at h
  obtain ⟨⟨hrej, hcorner⟩, hexp⟩ := h
  obtain ⟨vx, vy, vz, hx, hy, hz, ex, ey, ez, evol, epad⟩ := sample_voxel dim det x y z hrej
  rw [epad, exposed_iff, padvol_interior dim vol vx vy vz hx hy hz] at hexp
  have hmin := cornerAccepted_exists det _ _ _ hcorner
  rw [ex, ey, ez] at hmin
  exact ⟨vx, vy, vz, hx, hy, hz, evol, epad, hexp.1, hexp.2,
    (minCornerD2_lt_iff det vx vy vz _).mpr hmin⟩

theorem mem_detHits (dim : uint3) (pv : List Nat) (det : float4) (i : Nat) :
    i ∈ detHits dim pv det ↔
      ∃ p ∈ samplePoints det.w, sampleAccepted dim pv det p.1 p.2.1 p.2.2 = true ∧
        volIdxOf dim (p.1 + det.x) (p.2.1 + det.y) (p.2.2 + det.z) = i := by
  simp only [detHits, acceptedSamples, List.mem_map, List.mem_filter]
  constructor
  · rintro ⟨p, ⟨hp, ha⟩, rfl⟩
    exact ⟨p, hp, ha, rfl⟩
  · rintro ⟨p, hp, ha, rfl⟩
    exact ⟨p, ⟨hp, ha⟩, rfl⟩

/-- Every hit is a nonzero byte of the volume, hence inside the buffer. -/
theorem detHits_nonzero (dim : uint3) (vol : List Nat) (det : float4) (i : Nat)
    (h : i ∈ detHits dim (padvol dim vol) det) : vol.getD i 0 ≠ 0 ∧ i < vol.length := by
  obtain ⟨p, _, ha, rfl⟩ := (mem_detHits _ _ _ _).mp h
  obtain ⟨vx, vy, vz, _, _, _, evol, _, hne, _⟩ := accepted_spec dim vol det _ _ _ ha
  rw [evol]
  refine ⟨hne, ?_⟩
  by_contra hlt
  apply hne
  rw [List.getD_eq_getElem?_getD, List.getElem?_eq_none (Nat.le_of_not_lt hlt)]
  rfl

/-- All hits of a run, detector by detector. -/
theorem mcx_maskdet_getD (cfg : Config) (i : Nat) :
    (mcx_maskdet cfg).vol.getD i 0 =
      if ∃ det ∈ cfg.detpos, i ∈ detHits cfg.dim (padvol cfg.dim cfg.vol) det then
        cfg.vol.getD i 0 ||| DET_MASK
      else cfg.vol.getD i 0 := by
  rw [mcx_maskdet_eq]
  simp only
  rw [getD_foldl_setFlag]
  by_cases hex : ∃ det ∈ cfg.detpos, i ∈ detHits cfg.dim (padvol cfg.dim cfg.vol) det
  · obtain ⟨det, hdet, hi⟩ := hex
    have hlt := (detHits_nonzero cfg.dim cfg.vol det i hi).2
    rw [if_pos ⟨List.mem_flatMap.mpr ⟨det, hdet, hi⟩, hlt⟩, if_pos ⟨det, hdet, hi⟩]
  · rw [if_neg hex, if_neg]
    rintro ⟨hm, _⟩
    exact hex (List.mem_flatMap.mp hm)

theorem lor_mask_ne_zero (b : Nat) : b ||| DET_MASK ≠ 0 := by
  intro h
  have h7 : (b ||| DET_MASK).testBit 7 = true := by
    rw [Nat.testBit_or, Bool.or_eq_true]
    exact Or.inr (by decide)
  rw [h] at h7
  simp at h7

theorem list_ext_getD (l l' : List Nat) (hlen : l.length = l'.length)
    (h : ∀ i, l.getD i 0 = l'.getD i 0) : l = l' := by
  apply List.ext_getElem hlen
  intro i h1 h2
  have := h i
  simp only [List.getD_eq_getElem?_getD, List.getElem?_eq_getElem h1,
    List.getElem?_eq_getElem h2, Option.getD_some] at this
  exact this

/-- Masking keeps the zero bytes zero and the nonzero bytes nonzero. -/
theorem mcx_maskdet_zero_iff (cfg : Config) (i : Nat) :
    (mcx_maskdet cfg).vol.getD i 0 = 0 ↔ cfg.vol.getD i 0 = 0 := by
  rw [mcx_maskdet_getD]
  split_ifs with hex
  · obtain ⟨det, _, hi⟩ := hex
    have hne := (detHits_nonzero cfg.dim cfg.vol det i hi).1
    constructor
    · intro h; exact absurd h (lor_mask_ne_zero _)
    · intro h; exact absurd h hne
  · rfl

/-! ## Lemmas: the padded copy depends on the zero pattern only -/

theorem memcpy_zero_congr (dst dst' src src' : List Nat) (doff soff n : Nat)
    (hlen : dst'.length = dst.length)
    (hdst : ∀ j, dst'.getD j 0 = 0 ↔ dst.getD j 0 = 0)
    (hsrc : ∀ j, src'.getD j 0 = 0 ↔ src.getD j 0 = 0) (j : Nat) :
    (memcpy dst' doff src' soff n).getD j 0 = 0 ↔ (memcpy dst doff src soff n).getD j 0 = 0 := by
  rw [memcpy_getD, memcpy_getD, hlen]
  split_ifs
  · exact hsrc _
  · exact hdst _

theorem padRows_zero_congr (dim : uint3) (vol vol' : List Nat) (zi : Nat) (pv pv' : List Nat)
    (hlen : pv'.length = pv.length)
    (hpv : ∀ j, pv'.getD j 0 = 0 ↔ pv.getD j 0 = 0)
    (hvol : ∀ j, vol'.getD j 0 = 0 ↔ vol.getD j 0 = 0) :
    (padRows dim vol' zi pv').length = (padRows dim vol zi pv).length ∧
      ∀ j, (padRows dim vol' zi pv').getD j 0 = 0 ↔ (padRows dim vol zi pv).getD j 0 = 0 := by
  refine ⟨by rw [padRows_length, padRows_length, hlen], ?_⟩
  unfold padRows
  generalize List.range' 1 dim.y = ys
  induction ys generalizing pv pv' with
  | nil => exact hpv
  | cons y t ih =>
    rw [List.foldl_cons, List.foldl_cons]
    exact ih _ _ (by rw [memcpy_length, memcpy_length, hlen])
      (memcpy_zero_congr pv pv' vol vol' _ _ _ hlen hpv hvol)

theorem padvol_zero_congr (dim : uint3) (vol vol' : List Nat)
    (hvol : ∀ j, vol'.getD j 0 = 0 ↔ vol.getD j 0 = 0) (j : Nat) :
    (padvol dim vol').getD j 0 = 0 ↔ (padvol dim vol).getD j 0 = 0 := by
  unfold padvol
  generalize List.range' 1 dim.z = zs
  generalize List.replicate ((dim.x + 2) * (dim.y + 2) * (dim.z + 2)) 0 = init
  have key : ∀ (pv pv' : List Nat), pv'.length = pv.length →
      (∀ j, pv'.getD j 0 = 0 ↔ pv.getD j 0 = 0) →
      ∀ j, (zs.foldl (fun acc zi => padRows dim vol' zi acc) pv').getD j 0 = 0 ↔
        (zs.foldl (fun acc zi => padRows dim vol zi acc) pv).getD j 0 = 0 := by
    induction zs with
    | nil => intro pv pv' _ h; exact h
    | cons z t ih =>
      intro pv pv' hlen h
      rw [List.foldl_cons, List.foldl_cons]
      have := padRows_zero_congr dim vol vol' z pv pv' hlen h hvol
      exact ih _ _ this.1 this.2
  exact key init init rfl (fun _ => Iff.rfl) j

theorem exposed_zero_congr (pv pv' : List Nat) (dx dy idx1d : Nat)
    (h : ∀ j, pv'.getD j 0 = 0 ↔ pv.getD j 0 = 0) :
    exposed pv' dx dy idx1d = exposed pv dx dy idx1d := by
  unfold exposed
  have e : (fun n => decide (pv'.getD n 0 ≠ 0)) = (fun n => decide (pv.getD n 0 ≠ 0)) := by
    funext n
    simp only [ne_eq, h n]
  rw [e]
  simp only [ne_eq, h idx1d]

theorem detHits_zero_congr (dim : uint3) (vol vol' : List Nat) (det : float4)
    (hvol : ∀ j, vol'.getD j 0 = 0 ↔ vol.getD j 0 = 0) :
    detHits dim (padvol dim vol') det = detHits dim (padvol dim vol) det := by
  have e : ∀ x y z, sampleAccepted dim (padvol dim vol') det x y z =
      sampleAccepted dim (padvol dim vol) det x y z := by
    intro x y z
    unfold sampleAccepted
    rw [exposed_zero_congr _ _ _ _ _ (padvol_zero_congr dim vol vol' hvol)]
  simp only [detHits, acceptedSamples, e]

/-! ## The detector mask: soundness, idempotence, order independence -/

/-- Soundness of the detector mask in exact arithmetic. Whenever `mcx_maskdet`,
computed with exact rationals, changes the
byte at index `i`, the change is the raising of bit 7, `i` is the index of a
voxel inside the domain whose byte before the call is nonzero, one of the 26
neighbours of that voxel in the zero-padded copy is `0`, some detector has its
smallest squared corner distance to that voxel below `w*w`, and the position
tested in the padded copy is the halo-shifted position of the voxel that is
flagged. -/
theorem mcx_maskdet_sound (cfg : Config) (i : Nat)
    (h : (mcx_maskdet cfg).vol.getD i 0 ≠ cfg.vol.getD i 0) :
    (mcx_maskdet cfg).vol.getD i 0 = cfg.vol.getD i 0 ||| DET_MASK ∧ FlagJustified cfg i := by
  rw [mcx_maskdet_getD] at h ⊢
  by_cases hex : ∃ det ∈ cfg.detpos, i ∈ detHits cfg.dim (padvol cfg.dim cfg.vol) det
  · rw [if_pos hex]
    refine ⟨rfl, ?_⟩
    obtain ⟨det, hdet, hi⟩ := hex
    obtain ⟨p, hp, ha, hidx⟩ := (mem_detHits _ _ _ _).mp hi
    obtain ⟨vx, vy, vz, hx, hy, hz, evol, epad, hne, hnb, hmin⟩ :=
      accepted_spec cfg.dim cfg.vol det _ _ _ ha
    have hi' : i = vz * cfg.dim.y * cfg.dim.x + vy * cfg.dim.x + vx := by rw [← hidx, evol]
    refine ⟨vx, vy, vz, hx, hy, hz, hi', ?_, ?_, hnb, det, hdet, hmin, p, hp, ha, hidx, epad⟩
    · rw [hi']; exact hne
    · rw [hi']; exact padvol_interior cfg.dim cfg.vol vx vy vz hx hy hz
  · rw [if_neg hex] at h
    exact absurd rfl h

/-- Soundness at work: on the one-voxel volume the detector on its corner
flags voxel `0`. -/
theorem mcx_maskdet_sound_witness :
    (mcx_maskdet unitCfg).vol.getD 0 0 ≠ unitCfg.vol.getD 0 0 ∧
      ((mcx_maskdet unitCfg).vol.getD 0 0 = unitCfg.vol.getD 0 0 ||| DET_MASK ∧
        FlagJustified unitCfg 0) :=
  ⟨by decide, mcx_maskdet_sound unitCfg 0 (by decide)⟩

/-- Idempotence in exact arithmetic. Running `mcx_maskdet`, computed with exact
rationals, again on the volume left by a first run, with the same detectors,
changes no byte. -/
theorem mcx_maskdet_idempotent (cfg : Config) :
    (mcx_maskdet { cfg with vol := (mcx_maskdet cfg).vol }).vol = (mcx_maskdet cfg).vol := by
  apply list_ext_getD
  · rw [mcx_maskdet_vol_length]
  · intro i
    rw [mcx_maskdet_getD]
    simp only
    have e : ∀ det, detHits cfg.dim (padvol cfg.dim (mcx_maskdet cfg).vol) det =
        detHits cfg.dim (padvol cfg.dim cfg.vol) det :=
      fun det => detHits_zero_congr cfg.dim cfg.vol _ det (mcx_maskdet_zero_iff cfg)
    simp only [e]
    split_ifs with hex
    · rw [mcx_maskdet_getD, if_pos hex, lor_mask_idem]
    · rfl

/-- C3 (order independence). Permuting the detector list does not change the
volume left by `mcx_maskdet`, and a byte is changed by the run exactly when it
is changed by the run of some single detector of the list on the original
volume. -/
theorem mcx_maskdet_perm (cfg : Config) (dets : List float4) (hp : dets.Perm cfg.detpos) :
    (mcx_maskdet { cfg with detpos := dets }).vol = (mcx_maskdet cfg).vol ∧
      ∀ i, (mcx_maskdet cfg).vol.getD i 0 ≠ cfg.vol.getD i 0 ↔
        ∃ det ∈ cfg.detpos,
          (mcx_maskdet { cfg with detpos := [det] }).vol.getD i 0 ≠ cfg.vol.getD i 0 := by
  constructor
  · apply list_ext_getD
    · rw [mcx_maskdet_vol_length, mcx_maskdet_vol_length]
    · intro i
      rw [mcx_maskdet_getD, mcx_maskdet_getD]
      simp only
      have e : (∃ det ∈ dets, i ∈ detHits cfg.dim (padvol cfg.dim cfg.vol) det) ↔
          ∃ det ∈ cfg.detpos, i ∈ detHits cfg.dim (padvol cfg.dim cfg.vol) det := by
        constructor
        · rintro ⟨d, hd, h⟩; exact ⟨d, hp.mem_iff.mp hd, h⟩
        · rintro ⟨d, hd, h⟩; exact ⟨d, hp.mem_iff.mpr hd, h⟩
      simp only [e]
  · intro i
    rw [mcx_maskdet_getD]
    constructor
    · intro h
      by_cases hex : ∃ det ∈ cfg.detpos, i ∈ detHits cfg.dim (padvol cfg.dim cfg.vol) det
      · rw [if_pos hex] at h
        obtain ⟨det, hdet, hi⟩ := hex
        refine ⟨det, hdet, ?_⟩
        rw [mcx_maskdet_getD]
        simp only
        rw [if_pos ⟨det, List.mem_singleton.mpr rfl, hi⟩]
        exact h
      · rw [if_neg hex] at h
        exact absurd rfl h
    · rintro ⟨det, hdet, h⟩
      rw [mcx_maskdet_getD] at h
      simp only at h
      by_cases hi : i ∈ detHits cfg.dim (padvol cfg.dim cfg.vol) det
      · rw [if_pos ⟨det, List.mem_singleton.mpr rfl, hi⟩] at h
        rw [if_pos ⟨det, hdet, hi⟩]
        exact h
      · rw [if_neg] at h
        · exact absurd rfl h
        · rintro ⟨d, hd, hd'⟩
          rw [List.mem_singleton.mp hd] at hd'
          exact hi hd'

/-- Witness for C3: the two detectors of `twoDetCfg` in the other order. -/
theorem mcx_maskdet_perm_witness :
    ([⟨5, 5, 5, 1⟩, ⟨0, 0, 0, 1 / 4⟩] : List float4).Perm twoDetCfg.detpos ∧
      ((mcx_maskdet { twoDetCfg with detpos := [⟨5, 5, 5, 1⟩, ⟨0, 0, 0, 1 / 4⟩] }).vol =
          (mcx_maskdet twoDetCfg).vol ∧
        ∀ i, (mcx_maskdet twoDetCfg).vol.getD i 0 ≠ twoDetCfg.vol.getD i 0 ↔
          ∃ det ∈ twoDetCfg.detpos,
            (mcx_maskdet { twoDetCfg with detpos := [det] }).vol.getD i 0 ≠
              twoDetCfg.vol.getD i 0) :=
  ⟨List.Perm.swap _ _ _,
    mcx_maskdet_perm twoDetCfg [⟨5, 5, 5, 1⟩, ⟨0, 0, 0, 1 / 4⟩] (List.Perm.swap _ _ _)⟩

/-! ## The coverage counter -/

theorem cornerD2_nonneg (det : float4) (vx vy vz : ℤ) (c : ℚ × ℚ × ℚ) :
    0 ≤ cornerD2 det vx vy vz c := by
  unfold cornerD2
  nlinarith [mul_self_nonneg ((vx : ℚ) - det.x + c.1), mul_self_nonneg ((vy : ℚ) - det.y + c.2.1),
    mul_self_nonneg ((vz : ℚ) - det.z + c.2.2)]

theorem mind2Of_nonneg (det : float4) (ix iy iz : ℚ) : 0 ≤ mind2Of det ix iy iz := by
  unfold mind2Of
  have hbig : (0 : ℚ) ≤ VERY_BIG := by unfold VERY_BIG; norm_num
  rcases cornerLoop_cases ((det.w + 17321 / 10000) * (det.w + 17321 / 10000)) det
    (cTrunc ix) (cTrunc iy) (cTrunc iz) corners VERY_BIG with h | h | ⟨c, _, h⟩
  · rw [h]; exact hbig
  · rw [h]; exact hbig
  · rw [h]; exact cornerD2_nonneg _ _ _ _ _

theorem acceptedSamples_radius_zero (dim : uint3) (pv : List Nat) (x y z : ℚ) :
    acceptedSamples dim pv ⟨x, y, z, 0⟩ = [] := by
  unfold acceptedSamples
  rw [List.filter_eq_nil_iff]
  intro p _
  have h : cornerAccepted ⟨x, y, z, 0⟩ (p.1 + x) (p.2.1 + y) (p.2.2 + z) = false := by
    unfold cornerAccepted
    rw [decide_eq_false_iff_not, not_not]
    right
    simpa using mind2Of_nonneg ⟨x, y, z, 0⟩ (p.1 + x) (p.2.1 + y) (p.2.2 + z)
  simp [sampleAccepted, h]

theorem acceptedSamples_all_rejected (dim : uint3) (pv : List Nat) (det : float4)
    (hrej : ∀ p ∈ samplePoints det.w, sampleRejected dim det p.1 p.2.1 p.2.2 = true) :
    acceptedSamples dim pv det = [] := by
  unfold acceptedSamples
  rw [List.filter_eq_nil_iff]
  intro p hp
  simp [sampleAccepted, hrej p hp]

theorem mem_warnList (b : Bool) (cs : List Nat) (base n : Nat) :
    n ∈ warnList b base cs ↔ b = true ∧ ∃ k, cs[k]? = some 0 ∧ n = base + k + 1 := by
  induction cs generalizing base with
  | nil => simp [warnList]
  | cons c t ih =>
    rw [warnList, List.mem_append, ih]
    constructor
    · rintro (h | ⟨hb, k, hk, hn⟩)
      · split_ifs at h with hc
        · simp only [Bool.and_eq_true, decide_eq_true_eq] at hc
          rw [List.mem_singleton] at h
          exact ⟨hc.1, 0, by simp [hc.2], by omega⟩
        · simp at h
      · exact ⟨hb, k + 1, by simpa using hk, by omega⟩
    · rintro ⟨hb, k, hk, hn⟩
      cases k with
      | zero =>
        left
        simp only [List.getElem?_cons_zero, Option.some.injEq] at hk
        simp [hb, hk, hn]
      | succ k =>
        right
        exact ⟨hb, k, by simpa using hk, by omega⟩

theorem changedCount_le_hits (cfg : Config) (det : float4) (hdet : cfg.detpos = [det]) :
    changedCount cfg.vol (mcx_maskdet cfg).vol ≤
      (acceptedSamples cfg.dim (padvol cfg.dim cfg.vol) det).length := by
  have hsub : (List.range cfg.vol.length).filter
      (fun i => decide ((mcx_maskdet cfg).vol.getD i 0 ≠ cfg.vol.getD i 0)) ⊆
      detHits cfg.dim (padvol cfg.dim cfg.vol) det := by
    intro i hi
    rw [List.mem_filter, decide_eq_true_eq, mcx_maskdet_getD] at hi
    by_cases hex : ∃ d ∈ cfg.detpos, i ∈ detHits cfg.dim (padvol cfg.dim cfg.vol) d
    · obtain ⟨d, hd, h⟩ := hex
      rw [hdet, List.mem_singleton] at hd
      rw [← hd]; exact h
    · rw [if_neg hex] at hi
      exact absurd rfl hi.2
  have hnd : ((List.range cfg.vol.length).filter
      (fun i => decide ((mcx_maskdet cfg).vol.getD i 0 ≠ cfg.vol.getD i 0))).Nodup :=
    (List.nodup_range _).filter _
  have := (List.subperm_of_subset hnd hsub).length_le
  simpa [changedCount, detHits] using this

/-- C4, as the code behaves (Scenario A, radius 0). A detector of radius `0`,
wherever it is centred and whatever the volume, flags no voxel: the volume is
left unchanged, its coverage counter is `0`, and the warning for detector 1 is
written exactly when `issavedet` is set. -/
theorem mcx_maskdet_radius_zero (cfg : Config) (x y z : ℚ) :
    mcx_maskdet { cfg with detpos := [⟨x, y, z, 0⟩] } =
      { vol := cfg.vol
        counts := [0]
        warnings := if cfg.issavedet then [1] else []
        exited := cfg.isdumpmask } := by
  rw [mcx_maskdet_eq]
  simp only [detHits, acceptedSamples_radius_zero, List.flatMap_cons, List.flatMap_nil,
    List.map_nil, List.append_nil, List.foldl_nil, List.map_cons, List.length_nil,
    Nat.zero_mod, warnList]
  cases cfg.issavedet <;> simp

/-- C4 fails on Scenario A: the voxel `(5,5,0)` (index 55) under the detector
keeps its byte `1`, the coverage counter is `0` and the warning for detector 1
is written. -/
theorem scenarioA_not_flagged :
    (mcx_maskdet scenarioA).vol.getD 55 0 = 1 ∧ (mcx_maskdet scenarioA).counts = [0] ∧
      (mcx_maskdet scenarioA).warnings = [1] := by
  decide

/-- C5, as the code behaves. For a single detector the coverage counter is the
number of accepted samples of the 0.5-step scan modulo `2^32`, one per sample
that reaches line 933, and that number of samples is at least the number of
voxels whose byte the run changes. -/
theorem mcx_maskdet_count (cfg : Config) (det : float4) (hdet : cfg.detpos = [det]) :
    (mcx_maskdet cfg).counts =
        [(acceptedSamples cfg.dim (padvol cfg.dim cfg.vol) det).length % 2 ^ 32] ∧
      changedCount cfg.vol (mcx_maskdet cfg).vol ≤
        (acceptedSamples cfg.dim (padvol cfg.dim cfg.vol) det).length := by
  refine ⟨?_, changedCount_le_hits cfg det hdet⟩
  rw [mcx_maskdet_eq, hdet]
  rfl

/-- Witness for C5: the one-voxel volume with its single detector. -/
theorem mcx_maskdet_count_witness :
    unitCfg.detpos = [⟨0, 0, 0, 1 / 4⟩] ∧
      ((mcx_maskdet unitCfg).counts =
          [(acceptedSamples unitCfg.dim (padvol unitCfg.dim unitCfg.vol)
            ⟨0, 0, 0, 1 / 4⟩).length % 2 ^ 32] ∧
        changedCount unitCfg.vol (mcx_maskdet unitCfg).vol ≤
          (acceptedSamples unitCfg.dim (padvol unitCfg.dim unitCfg.vol)
            ⟨0, 0, 0, 1 / 4⟩).length) :=
  ⟨rfl, mcx_maskdet_count unitCfg ⟨0, 0, 0, 1 / 4⟩ rfl⟩

/-- C5 fails on Scenario B: the run flags 9 voxels (the face `z=0`) and leaves
the coverage counter at 70. -/
theorem scenarioB_count_not_flagged_count :
    (mcx_maskdet scenarioB).counts = [70] ∧
      changedCount scenarioB.vol (mcx_maskdet scenarioB).vol = 9 := by
  decide

theorem detHits_all_rejected (dim : uint3) (pv : List Nat) (det : float4)
    (hrej : ∀ p ∈ samplePoints det.w, sampleRejected dim det p.1 p.2.1 p.2.2 = true) :
    detHits dim pv det = [] := by
  simp [detHits, acceptedSamples_all_rejected dim pv det hrej]

/-- Zero coverage in exact arithmetic. If every sample of the scan of a
detector is outside the domain or farther than `w+1` from its centre, then the
coverage counter of that detector is `0`, the volume is the one the run leaves
without that detector, the warning for that detector is written exactly when
`issavedet` is set, and the function returns unless a mask dump was asked
for: zero coverage is never an error. -/
theorem mcx_maskdet_zero_coverage (cfg : Config) (l1 l2 : List float4) (det : float4)
    (hdets : cfg.detpos = l1 ++ det :: l2)
    (hrej : ∀ p ∈ samplePoints det.w, sampleRejected cfg.dim det p.1 p.2.1 p.2.2 = true) :
    (mcx_maskdet cfg).counts[l1.length]? = some 0 ∧
      (mcx_maskdet cfg).vol = (mcx_maskdet { cfg with detpos := l1 ++ l2 }).vol ∧
      (l1.length + 1 ∈ (mcx_maskdet cfg).warnings ↔ cfg.issavedet = true) ∧
      (cfg.isdumpmask = false → (mcx_maskdet cfg).exited = false) := by
  have hacc := acceptedSamples_all_rejected cfg.dim (padvol cfg.dim cfg.vol) det hrej
  have hhit := detHits_all_rejected cfg.dim (padvol cfg.dim cfg.vol) det hrej
  have hc : (cfg.detpos.map (fun d =>
      (acceptedSamples cfg.dim (padvol cfg.dim cfg.vol) d).length % 2 ^ 32))[l1.length]?
      = some 0 := by
    rw [hdets, List.getElem?_map, List.getElem?_append_right (le_refl _)]
    simp [hacc]
  rw [mcx_maskdet_eq, mcx_maskdet_eq]
  refine ⟨hc, ?_, ?_, fun h => h⟩
  · simp only [hdets, List.flatMap_append, List.flatMap_cons, hhit, List.nil_append]
  · simp only
    rw [mem_warnList]
    constructor
    · intro h; exact h.1
    · intro h; exact ⟨h, l1.length, hc, by omega⟩

/-- Zero coverage at work: the far detector of `scenarioC`, alone in its
list. -/
theorem mcx_maskdet_zero_coverage_witness :
    scenarioC.detpos = [] ++ (⟨5, 5, 5, 1 / 4⟩ : float4) :: [] ∧
      (∀ p ∈ samplePoints (1 / 4),
        sampleRejected scenarioC.dim ⟨5, 5, 5, 1 / 4⟩ p.1 p.2.1 p.2.2 = true) ∧
      ((mcx_maskdet scenarioC).counts[0]? = some 0 ∧
        (mcx_maskdet scenarioC).vol = (mcx_maskdet { scenarioC with detpos := [] }).vol ∧
        (0 + 1 ∈ (mcx_maskdet scenarioC).warnings ↔ scenarioC.issavedet = true) ∧
        (scenarioC.isdumpmask = false → (mcx_maskdet scenarioC).exited = false)) :=
  ⟨rfl, by decide,
    mcx_maskdet_zero_coverage scenarioC [] [] ⟨5, 5, 5, 1 / 4⟩ rfl (by decide)⟩

/-- With `issavedet` off, a state in which `mcx_prepdomain` does not call
`mcx_maskdet`: every sample of the detector of `scenarioC` is rejected at lines
907-908 and its counter is `0`, and no warning is written. -/
theorem scenarioC_no_warning :
    (∀ p ∈ samplePoints (1 / 4),
        sampleRejected scenarioC.dim ⟨5, 5, 5, 1 / 4⟩ p.1 p.2.1 p.2.2 = true) ∧
      (mcx_maskdet scenarioC).counts = [0] ∧ (mcx_maskdet scenarioC).warnings = [] := by
  decide

/-! ## Source placement -/

theorem srcOutside_false_iff (cfg : Config) :
    srcOutside cfg = false ↔
      (0 ≤ cfg.srcpos.x ∧ cfg.srcpos.x < cfg.dim.x) ∧
      (0 ≤ cfg.srcpos.y ∧ cfg.srcpos.y < cfg.dim.y) ∧
      (0 ≤ cfg.srcpos.z ∧ cfg.srcpos.z < cfg.dim.z) := by
  simp only [srcOutside, decide_eq_false_iff_not, not_or, not_lt, not_le]
  tauto

theorem srcLoop_of_nonzero (fuel : Nat) (cfg : Config)
    (h : cfg.vol.getD (srcIdx cfg) 0 ≠ 0) : srcLoop fuel cfg = some (PrepResult.ok cfg) := by
  cases fuel with
  | zero => simp only [srcLoop, if_neg h]
  | succ n => simp only [srcLoop, if_neg h]

/-- What the relocation loop guarantees when it ends on a voxel. -/
theorem srcLoop_ok (fuel : Nat) (cfg cfg' : Config)
    (h : srcLoop fuel cfg = some (PrepResult.ok cfg')) :
    cfg'.dim = cfg.dim ∧ cfg'.vol = cfg.vol ∧ cfg'.srcdir = cfg.srcdir ∧
      cfg'.vol.getD (srcIdx cfg') 0 ≠ 0 ∧ (srcOutside cfg = false → srcOutside cfg' = false) := by
  induction fuel generalizing cfg with
  | zero =>
    unfold srcLoop at h
    by_cases h0 : cfg.vol.getD (srcIdx cfg) 0 = 0
    · rw [if_pos h0] at h
      exact absurd h (by simp)
    · rw [if_neg h0] at h
      simp only [Option.some.injEq, PrepResult.ok.injEq] at h
      subst h
      exact ⟨rfl, rfl, rfl, h0, fun h => h⟩
  | succ n ih =>
    unfold srcLoop at h
    by_cases h0 : cfg.vol.getD (srcIdx cfg) 0 = 0
    · rw [if_pos h0] at h
      by_cases hout : srcOutside (srcAdvance cfg) = true
      · rw [if_pos hout] at h
        exact absurd h (by simp)
      · rw [if_neg hout] at h
        obtain ⟨h1, h2, h3, h4, h5⟩ := ih (srcAdvance cfg) h
        exact ⟨h1, h2, h3, h4, fun _ => h5 (by simpa using hout)⟩
    · rw [if_neg h0] at h
      simp only [Option.some.injEq, PrepResult.ok.injEq] at h
      subst h
      exact ⟨rfl, rfl, rfl, h0, fun h => h⟩

theorem srcLoop_ne_outside_error (fuel : Nat) (cfg : Config) :
    srcLoop fuel cfg ≠
      some (PrepResult.error (-4) "source position is outside of the volume") := by
  induction fuel generalizing cfg with
  | zero =>
    unfold srcLoop
    split_ifs <;> simp
  | succ n ih =>
    unfold srcLoop
    split_ifs
    · simp
    · exact ih _
    · simp

theorem mcx_prepdomain_source_ok (fuel : Nat) (cfg cfg' : Config)
    (h : mcx_prepdomain_source fuel cfg = some (PrepResult.ok cfg')) :
    cfg'.dim = cfg.dim ∧ cfg'.vol = cfg.vol ∧ cfg'.srcdir = cfg.srcdir ∧
      cfg'.vol.getD (srcIdx cfg') 0 ≠ 0 ∧ srcOutside cfg' = false := by
  unfold mcx_prepdomain_source at h
  by_cases hout : srcOutside cfg = true
  · rw [if_pos hout] at h
    exact absurd h (by simp)
  · rw [if_neg hout] at h
    have hin : srcOutside cfg = false := by simpa using hout
    by_cases h0 : cfg.vol.getD (srcIdx cfg) 0 = 0
    · rw [if_pos h0] at h
      obtain ⟨h1, h2, h3, h4, h5⟩ := srcLoop_ok fuel cfg cfg' h
      exact ⟨h1, h2, h3, h4, h5 hin⟩
    · rw [if_neg h0] at h
      simp only [Option.some.injEq, PrepResult.ok.injEq] at h
      subst h
      exact ⟨rfl, rfl, rfl, h0, hin⟩

theorem medium_ne_zero : ∀ v : Nat, v ≤ 127 → v ≠ 0 →
    v &&& MED_MASK ≠ 0 ∧ (v ||| DET_MASK) &&& MED_MASK ≠ 0 := by
  decide

theorem getD_le_of_forall (l : List Nat) (n : Nat) (h : ∀ b ∈ l, b ≤ n) (i : Nat) :
    l.getD i 0 ≤ n := by
  rw [List.getD_eq_getElem?_getD]
  by_cases hi : i < l.length
  · rw [List.getElem?_eq_getElem hi]
    exact h _ (List.getElem_mem hi)
  · rw [List.getElem?_eq_none (Nat.le_of_not_lt hi)]
    exact Nat.zero_le n

/-- The source placement guarantee in exact arithmetic. If every byte of the
loaded volume is a
medium index in `[0,127]` and lines 274-296 of `mcx_prepdomain` (detector mask,
then source placement) return, then the final source position lies in
`[0,dim.x) x [0,dim.y) x [0,dim.z)` and the voxel at index
`floor(z)*dim.y*dim.x + floor(y)*dim.x + floor(x)` of the final volume has a
nonzero medium index. -/
theorem source_placement_guarantee (cfg cfg' : Config) (fuel : Nat)
    (hbytes : ∀ b ∈ cfg.vol, b ≤ 127)
    (h : mcx_prepdomain_tail fuel cfg = some (PrepResult.ok cfg')) :
    cfg'.dim = cfg.dim ∧
      (0 ≤ cfg'.srcpos.x ∧ cfg'.srcpos.x < cfg.dim.x) ∧
      (0 ≤ cfg'.srcpos.y ∧ cfg'.srcpos.y < cfg.dim.y) ∧
      (0 ≤ cfg'.srcpos.z ∧ cfg'.srcpos.z < cfg.dim.z) ∧
      cfg'.vol.getD
          (⌊cfg'.srcpos.z⌋ * (cfg.dim.y : ℤ) * (cfg.dim.x : ℤ) +
            ⌊cfg'.srcpos.y⌋ * (cfg.dim.x : ℤ) + ⌊cfg'.srcpos.x⌋).toNat 0
        &&& MED_MASK ≠ 0 := by
  have hle := getD_le_of_forall cfg.vol 127 hbytes
  unfold mcx_prepdomain_tail at h
  by_cases hsave : cfg.issavedet = true
  · rw [if_pos hsave] at h
    by_cases hexit : (mcx_maskdet cfg).exited = true
    · rw [if_pos hexit] at h
      exact absurd h (by simp)
    · rw [if_neg hexit] at h
      obtain ⟨h1, h2, _, h4, h5⟩ := mcx_prepdomain_source_ok fuel _ cfg' h
      simp only at h1 h2
      have hin := (srcOutside_false_iff cfg').mp h5
      rw [h1] at hin
      refine ⟨h1, hin.1, hin.2.1, hin.2.2, ?_⟩
      unfold srcIdx at h4
      rw [h1] at h4
      rw [h2] at h4 ⊢
      generalize (⌊cfg'.srcpos.z⌋ * (cfg.dim.y : ℤ) * (cfg.dim.x : ℤ) +
        ⌊cfg'.srcpos.y⌋ * (cfg.dim.x : ℤ) + ⌊cfg'.srcpos.x⌋).toNat = i at h4 ⊢
      have hnz : cfg.vol.getD i 0 ≠ 0 := fun h0 => h4 ((mcx_maskdet_zero_iff cfg i).mpr h0)
      have hm := medium_ne_zero (cfg.vol.getD i 0) (hle i) hnz
      rw [mcx_maskdet_getD]
      split_ifs
      · exact hm.2
      · exact hm.1
  · rw [if_neg hsave] at h
    obtain ⟨h1, h2, _, h4, h5⟩ := mcx_prepdomain_source_ok fuel cfg cfg' h
    have hin := (srcOutside_false_iff cfg').mp h5
    rw [h1] at hin
    refine ⟨h1, hin.1, hin.2.1, hin.2.2, ?_⟩
    unfold srcIdx at h4
    rw [h1] at h4
    rw [h2] at h4 ⊢
    generalize (⌊cfg'.srcpos.z⌋ * (cfg.dim.y : ℤ) * (cfg.dim.x : ℤ) +
      ⌊cfg'.srcpos.y⌋ * (cfg.dim.x : ℤ) + ⌊cfg'.srcpos.x⌋).toNat = i at h4 ⊢
    exact (medium_ne_zero (cfg.vol.getD i 0) (hle i) h4).1

/-- The guarantee at work: on `columnCfg` the mask runs, the source walks two
steps up and placement returns `columnPlaced`. -/
theorem source_placement_guarantee_witness :
    (∀ b ∈ columnCfg.vol, b ≤ 127) ∧
      mcx_prepdomain_tail 2 columnCfg = some (PrepResult.ok columnPlaced) ∧
      (columnPlaced.dim = columnCfg.dim ∧
        (0 ≤ columnPlaced.srcpos.x ∧ columnPlaced.srcpos.x < columnCfg.dim.x) ∧
        (0 ≤ columnPlaced.srcpos.y ∧ columnPlaced.srcpos.y < columnCfg.dim.y) ∧
        (0 ≤ columnPlaced.srcpos.z ∧ columnPlaced.srcpos.z < columnCfg.dim.z) ∧
        columnPlaced.vol.getD
            (⌊columnPlaced.srcpos.z⌋ * (columnCfg.dim.y : ℤ) * (columnCfg.dim.x : ℤ) +
              ⌊columnPlaced.srcpos.y⌋ * (columnCfg.dim.x : ℤ) + ⌊columnPlaced.srcpos.x⌋).toNat 0
          &&& MED_MASK ≠ 0) :=
  ⟨by decide, by decide,
    source_placement_guarantee columnCfg columnPlaced 2 (by decide) (by decide)⟩

/-- Out-of-domain starts with the dimensions taken exactly. Source placement,
with the bounds test `srcOutside` that compares with the dimensions as integers,
ends with
`mcx_error(-4,"source position is outside of the volume")` if and only if the
initial position has `x<0`, `y<0`, `z<0`, `x>=dim.x`, `y>=dim.y` or `z>=dim.z`:
the test is half-open, a coordinate `0` passes and a coordinate equal to the
dimension does not. -/
theorem source_outside_iff (cfg : Config) (fuel : Nat) :
    mcx_prepdomain_source fuel cfg =
        some (PrepResult.error (-4) "source position is outside of the volume") ↔
      (cfg.srcpos.x < 0 ∨ cfg.srcpos.y < 0 ∨ cfg.srcpos.z < 0 ∨
        (cfg.dim.x : ℚ) ≤ cfg.srcpos.x ∨ (cfg.dim.y : ℚ) ≤ cfg.srcpos.y ∨
        (cfg.dim.z : ℚ) ≤ cfg.srcpos.z) := by
  have hdec : srcOutside cfg = true ↔
      (cfg.srcpos.x < 0 ∨ cfg.srcpos.y < 0 ∨ cfg.srcpos.z < 0 ∨
        (cfg.dim.x : ℚ) ≤ cfg.srcpos.x ∨ (cfg.dim.y : ℚ) ≤ cfg.srcpos.y ∨
        (cfg.dim.z : ℚ) ≤ cfg.srcpos.z) := by
    simp only [srcOutside, decide_eq_true_eq]
  rw [← hdec]
  unfold mcx_prepdomain_source
  by_cases hout : srcOutside cfg = true
  · rw [if_pos hout]
    exact ⟨fun _ => hout, fun _ => rfl⟩
  · rw [if_neg hout]
    constructor
    · intro h
      exfalso
      by_cases h0 : cfg.vol.getD (srcIdx cfg) 0 = 0
      · rw [if_pos h0] at h
        exact srcLoop_ne_outside_error fuel cfg h
      · rw [if_neg h0] at h
        exact absurd h (by simp)
    · intro h
      exact absurd h hout

theorem srcAt_zero (cfg : Config) : srcAt cfg 0 = cfg := by
  simp [srcAt]

theorem srcAt_advance (cfg : Config) (j : Nat) : srcAt (srcAdvance cfg) j = srcAt cfg (j + 1) := by
  simp only [srcAt, srcAdvance, Nat.cast_add, Nat.cast_one]
  congr 2 <;> ring

theorem srcAdvance_eq (cfg : Config) : srcAdvance cfg = srcAt cfg 1 := by
  rw [← srcAt_zero (srcAdvance cfg), srcAt_advance]

/-- The relocation loop followed for `k+1` steps: on background all the way,
it stops at the first step that leaves the domain or lands on a nonzero
voxel. -/
theorem srcLoop_run (k : Nat) : ∀ (fuel : Nat) (cfg : Config), k + 1 ≤ fuel →
    cfg.vol.getD (srcIdx cfg) 0 = 0 →
    (∀ j, 1 ≤ j → j < k + 1 →
      srcOutside (srcAt cfg j) = false ∧ cfg.vol.getD (srcIdx (srcAt cfg j)) 0 = 0) →
    (srcOutside (srcAt cfg (k + 1)) = true ∨
      cfg.vol.getD (srcIdx (srcAt cfg (k + 1))) 0 ≠ 0) →
    srcLoop fuel cfg =
      some (if srcOutside (srcAt cfg (k + 1)) = true then
          PrepResult.error (-4) "searching non-zero voxel failed along the incident vector"
        else PrepResult.ok (srcAt cfg (k + 1))) := by
  induction k with
  | zero =>
    intro fuel cfg hfuel h0 _ hend
    obtain ⟨n, rfl⟩ : ∃ n, fuel = n + 1 := ⟨fuel - 1, by omega⟩
    unfold srcLoop
    rw [if_pos h0, srcAdvance_eq]
    by_cases hout : srcOutside (srcAt cfg (0 + 1)) = true
    · rw [if_pos hout, if_pos hout]
    · rw [if_neg hout, if_neg hout]
      rcases hend with h | h
      · exact absurd h hout
      · exact srcLoop_of_nonzero n _ h
  | succ k ih =>
    intro fuel cfg hfuel h0 hbefore hend
    obtain ⟨n, rfl⟩ : ∃ n, fuel = n + 1 := ⟨fuel - 1, by omega⟩
    have h1 := hbefore 1 (le_refl _) (by omega)
    unfold srcLoop
    rw [if_pos h0, srcAdvance_eq, if_neg (by rw [h1.1]; simp)]
    have hvol : (srcAt cfg 1).vol = cfg.vol := rfl
    have e : ∀ j, srcAt (srcAt cfg 1) j = srcAt cfg (j + 1) := by
      intro j; rw [← srcAdvance_eq, srcAt_advance]
    have := ih n (srcAt cfg 1) (by omega) (by rw [hvol]; exact h1.2)
      (fun j hj1 hj2 => by rw [e, hvol]; exact hbefore (j + 1) (by omega) (by omega))
      (by rw [e, hvol]; exact hend)
    rw [this, e]

/-- C9 (source relocation). Start in the domain on a voxel with byte `0` and
let `k >= 1` be such that all of `pos+j*dir`, `1 <= j < k`, are in the domain on
voxels with byte `0`. With fuel for `k` iterations: if `pos+k*dir` is in the
domain on a nonzero voxel, placement returns with the source at exactly
`pos+k*dir` and nothing else changed; if `pos+k*dir` is outside the domain,
placement ends with the error "searching non-zero voxel failed along the
incident vector". -/
theorem source_relocation (cfg : Config) (k fuel : Nat) (hk : 1 ≤ k) (hfuel : k ≤ fuel)
    (hin : srcOutside cfg = false) (h0 : cfg.vol.getD (srcIdx cfg) 0 = 0)
    (hbefore : ∀ j, 1 ≤ j → j < k →
      srcOutside (srcAt cfg j) = false ∧ cfg.vol.getD (srcIdx (srcAt cfg j)) 0 = 0) :
    (srcOutside (srcAt cfg k) = false → cfg.vol.getD (srcIdx (srcAt cfg k)) 0 ≠ 0 →
        mcx_prepdomain_source fuel cfg = some (PrepResult.ok (srcAt cfg k))) ∧
      (srcOutside (srcAt cfg k) = true →
        mcx_prepdomain_source fuel cfg = some (PrepResult.error (-4)
          "searching non-zero voxel failed along the incident vector")) := by
  obtain ⟨m, rfl⟩ : ∃ m, k = m + 1 := ⟨k - 1, by omega⟩
  have hsrc : mcx_prepdomain_source fuel cfg = srcLoop fuel cfg := by
    unfold mcx_prepdomain_source
    rw [if_neg (by rw [hin]; simp), if_pos h0]
  rw [hsrc]
  constructor
  · intro hkin hknz
    rw [srcLoop_run m fuel cfg hfuel h0 hbefore (Or.inr hknz), if_neg (by rw [hkin]; simp)]
  · intro hkout
    rw [srcLoop_run m fuel cfg hfuel h0 hbefore (Or.inl hkout), if_pos hkout]

/-- Witness for C9: in `columnCfg` the source reaches the nonzero voxel after
two steps; in `columnDownCfg` the first step leaves the domain. -/
theorem source_relocation_witness :
    (srcOutside columnCfg = false ∧ columnCfg.vol.getD (srcIdx columnCfg) 0 = 0 ∧
        srcOutside (srcAt columnCfg 2) = false ∧
        columnCfg.vol.getD (srcIdx (srcAt columnCfg 2)) 0 ≠ 0) ∧
      mcx_prepdomain_source 2 columnCfg = some (PrepResult.ok (srcAt columnCfg 2)) ∧
      (srcOutside columnDownCfg = false ∧
        columnDownCfg.vol.getD (srcIdx columnDownCfg) 0 = 0 ∧
        srcOutside (srcAt columnDownCfg 1) = true) ∧
      mcx_prepdomain_source 1 columnDownCfg = some (PrepResult.error (-4)
        "searching non-zero voxel failed along the incident vector") :=
  ⟨by decide,
    (source_relocation columnCfg 2 2 (by decide) (by decide) (by decide) (by decide)
      (fun j h1 h2 => by
        obtain rfl : j = 1 := by omega
        decide)).1 (by decide) (by decide),
    by decide,
    (source_relocation columnDownCfg 1 1 (by decide) (by decide) (by decide) (by decide)
      (fun j h1 h2 => by omega)).2 (by decide)⟩

theorem srcIdx_lt (cfg : Config) (hin : srcOutside cfg = false) :
    srcIdx cfg < cfg.dim.x * cfg.dim.y * cfg.dim.z := by
  obtain ⟨⟨hx0, hx1⟩, ⟨hy0, hy1⟩, ⟨hz0, hz1⟩⟩ := (srcOutside_false_iff cfg).mp hin
  have fx0 : 0 ≤ ⌊cfg.srcpos.x⌋ := Int.floor_nonneg.mpr hx0
  have fy0 : 0 ≤ ⌊cfg.srcpos.y⌋ := Int.floor_nonneg.mpr hy0
  have fz0 : 0 ≤ ⌊cfg.srcpos.z⌋ := Int.floor_nonneg.mpr hz0
  have fx1 : ⌊cfg.srcpos.x⌋ < (cfg.dim.x : ℤ) := Int.floor_lt.mpr (by exact_mod_cast hx1)
  have fy1 : ⌊cfg.srcpos.y⌋ < (cfg.dim.y : ℤ) := Int.floor_lt.mpr (by exact_mod_cast hy1)
  have fz1 : ⌊cfg.srcpos.z⌋ < (cfg.dim.z : ℤ) := Int.floor_lt.mpr (by exact_mod_cast hz1)
  obtain ⟨vx, hvx⟩ := Int.eq_ofNat_of_zero_le fx0
  obtain ⟨vy, hvy⟩ := Int.eq_ofNat_of_zero_le fy0
  obtain ⟨vz, hvz⟩ := Int.eq_ofNat_of_zero_le fz0
  have e : srcIdx cfg = vz * cfg.dim.y * cfg.dim.x + vy * cfg.dim.x + vx := by
    unfold srcIdx
    rw [hvx, hvy, hvz]
    have : ((vz : ℤ) * (cfg.dim.y : ℤ) * (cfg.dim.x : ℤ) + (vy : ℤ) * (cfg.dim.x : ℤ) + (vx : ℤ))
        = ((vz * cfg.dim.y * cfg.dim.x + vy * cfg.dim.x + vx : ℕ) : ℤ) := by push_cast; ring
    rw [this, Int.toNat_ofNat]
  rw [e]
  exact idx3_lt cfg.dim.x cfg.dim.y cfg.dim.z vx vy vz (by omega) (by omega) (by omega)

theorem srcAdvance_zero_dir (cfg : Config) (hdir : cfg.srcdir = ⟨0, 0, 0⟩) :
    srcAdvance cfg = cfg := by
  cases cfg with
  | mk dim vol detpos srcpos srcdir issavedet isdumpmask =>
    simp only at hdir
    subst hdir
    simp [srcAdvance]

/-- With a zero direction the relocation loop stays where it is: on a
background voxel of the domain no amount of fuel lets it end. -/
theorem srcLoop_zero_dir (fuel : Nat) (cfg : Config) (hdir : cfg.srcdir = ⟨0, 0, 0⟩)
    (hin : srcOutside cfg = false) (h0 : cfg.vol.getD (srcIdx cfg) 0 = 0) :
    srcLoop fuel cfg = none := by
  induction fuel with
  | zero => simp only [srcLoop, if_pos h0]
  | succ n ih =>
    unfold srcLoop
    rw [if_pos h0, srcAdvance_zero_dir cfg hdir, if_neg (by rw [hin]; simp)]
    exact ih

theorem step_leaves_interval (p d : ℚ) (n : Nat) (hd : d ≠ 0) :
    ∃ j : Nat, 1 ≤ j ∧ (p + (j : ℚ) * d < 0 ∨ (n : ℚ) ≤ p + (j : ℚ) * d) := by
  rcases lt_or_gt_of_ne hd with hneg | hpos
  · obtain ⟨j, hj⟩ := exists_nat_gt (p / (-d))
    refine ⟨j + 1, by omega, Or.inl ?_⟩
    have hd' : 0 < -d := by linarith
    have h1 : p < (j : ℚ) * (-d) := by
      rw [div_lt_iff₀ hd'] at hj
      exact hj
    push_cast
    nlinarith
  · obtain ⟨j, hj⟩ := exists_nat_gt (((n : ℚ) - p) / d)
    refine ⟨j + 1, by omega, Or.inr ?_⟩
    have h1 : (n : ℚ) - p < (j : ℚ) * d := by
      rw [div_lt_iff₀ hpos] at hj
      exact hj
    push_cast
    nlinarith

theorem exists_step_outside (cfg : Config)
    (hdir : cfg.srcdir.x ≠ 0 ∨ cfg.srcdir.y ≠ 0 ∨ cfg.srcdir.z ≠ 0) :
    ∃ j : Nat, 1 ≤ j ∧ srcOutside (srcAt cfg j) = true := by
  rcases hdir with h | h | h
  · obtain ⟨j, hj, hout⟩ := step_leaves_interval cfg.srcpos.x cfg.srcdir.x cfg.dim.x h
    refine ⟨j, hj, ?_⟩
    simp only [srcOutside, srcAt, decide_eq_true_eq]
    rcases hout with h1 | h1
    · exact Or.inl h1
    · exact Or.inr (Or.inr (Or.inr (Or.inl h1)))
  · obtain ⟨j, hj, hout⟩ := step_leaves_interval cfg.srcpos.y cfg.srcdir.y cfg.dim.y h
    refine ⟨j, hj, ?_⟩
    simp only [srcOutside, srcAt, decide_eq_true_eq]
    rcases hout with h1 | h1
    · exact Or.inr (Or.inl h1)
    · exact Or.inr (Or.inr (Or.inr (Or.inr (Or.inl h1))))
  · obtain ⟨j, hj, hout⟩ := step_leaves_interval cfg.srcpos.z cfg.srcdir.z cfg.dim.z h
    refine ⟨j, hj, ?_⟩
    simp only [srcOutside, srcAt, decide_eq_true_eq]
    rcases hout with h1 | h1
    · exact Or.inr (Or.inr (Or.inl h1))
    · exact Or.inr (Or.inr (Or.inr (Or.inr (Or.inr h1))))

/-- On a volume of background only, from a start in the domain and with a
direction that has a nonzero component, source placement ends with the error
of line 292 as soon as it has fuel for the steps that lead out of the
domain. -/
theorem source_background_error (cfg : Config) (hzero : ∀ i, cfg.vol.getD i 0 = 0)
    (hin : srcOutside cfg = false)
    (hdir : cfg.srcdir.x ≠ 0 ∨ cfg.srcdir.y ≠ 0 ∨ cfg.srcdir.z ≠ 0) :
    ∃ k : Nat, 1 ≤ k ∧ srcOutside (srcAt cfg k) = true ∧
      (∀ j, j < k → srcOutside (srcAt cfg j) = false) ∧
      ∀ fuel, k ≤ fuel →
        mcx_prepdomain_source fuel cfg = some (PrepResult.error (-4)
          "searching non-zero voxel failed along the incident vector") := by
  have hex := exists_step_outside cfg hdir
  have hk := Nat.find_spec hex
  have hmin : ∀ j, j < Nat.find hex → srcOutside (srcAt cfg j) = false := by
    intro j hj
    by_cases hj0 : j = 0
    · rw [hj0, srcAt_zero]; exact hin
    · have := Nat.find_min hex hj
      simp only [not_and, Bool.not_eq_true] at this
      exact this (by omega)
  refine ⟨Nat.find hex, hk.1, hk.2, hmin, ?_⟩
  intro fuel hfuel
  obtain ⟨m, hm⟩ : ∃ m, Nat.find hex = m + 1 := ⟨Nat.find hex - 1, by omega⟩
  have hsrc : mcx_prepdomain_source fuel cfg = srcLoop fuel cfg := by
    unfold mcx_prepdomain_source
    rw [if_neg (by rw [hin]; simp), if_pos (hzero _)]
  rw [hsrc, srcLoop_run m fuel cfg (by omega) (hzero _)
    (fun j _ hj2 => ⟨hmin j (by omega), hzero _⟩)
    (Or.inl (by rw [← hm]; exact hk.2)), if_pos (by rw [← hm]; exact hk.2)]

/-- C11, at the failing input. On the one-voxel background volume with the
source at rest (direction `(0,0,0)`) source placement never ends: whatever the
fuel, the loop of lines 286-294 is still running when it is used up. -/
theorem source_zero_direction_never_ends (fuel : Nat) :
    mcx_prepdomain_source fuel emptyRestCfg = none := by
  have h : mcx_prepdomain_source fuel emptyRestCfg = srcLoop fuel emptyRestCfg := by
    unfold mcx_prepdomain_source
    rw [if_neg (by decide), if_pos (by decide)]
  rw [h]
  exact srcLoop_zero_dir fuel emptyRestCfg rfl (by decide) (by decide)

/-! ## Lemmas: loops that fill a buffer -/

theorem foldl_set_length {τ : Type} (T : List τ) (d v : τ → Nat) (init : List Nat) :
    (T.foldl (fun nv t => nv.set (d t) (v t)) init).length = init.length := by
  induction T generalizing init with
  | nil => rfl
  | cons t T ih => rw [List.foldl_cons, ih, List.length_set]

theorem foldl_set_getD_not_mem {τ : Type} (T : List τ) (d v : τ → Nat) (init : List Nat)
    (j : Nat) (h : ∀ t ∈ T, d t ≠ j) :
    (T.foldl (fun nv t => nv.set (d t) (v t)) init).getD j 0 = init.getD j 0 := by
  induction T generalizing init with
  | nil => rfl
  | cons t T ih =>
    rw [List.foldl_cons, ih _ (fun t' ht' => h t' (List.mem_cons_of_mem _ ht'))]
    simp only [List.getD_eq_getElem?_getD]
    rw [List.getElem?_set_ne (h t (List.mem_cons_self _ _))]

theorem foldl_set_getD_mem {τ : Type} (T : List τ) (d v : τ → Nat) (init : List Nat)
    (j w : Nat) (hmem : ∃ t ∈ T, d t = j) (hsame : ∀ t ∈ T, d t = j → v t = w)
    (hlt : j < init.length) :
    (T.foldl (fun nv t => nv.set (d t) (v t)) init).getD j 0 = w := by
  induction T generalizing init with
  | nil =>
    obtain ⟨t, ht, _⟩ := hmem
    exact absurd ht (List.not_mem_nil _)
  | cons t0 T ih =>
    rw [List.foldl_cons]
    by_cases hex : ∃ t' ∈ T, d t' = j
    · exact ih (init.set (d t0) (v t0)) hex
        (fun t ht hd => hsame t (List.mem_cons_of_mem _ ht) hd)
        (by rw [List.length_set]; exact hlt)
    · have hnot : ∀ t' ∈ T, d t' ≠ j := fun t' ht' hd => hex ⟨t', ht', hd⟩
      rw [foldl_set_getD_not_mem T d v _ j hnot]
      obtain ⟨t, ht, hd⟩ := hmem
      have ht0 : t = t0 := by
        rcases List.mem_cons.mp ht with h | h
        · exact h
        · exact absurd hd (hnot t h)
      subst ht0
      have hw := hsame t (List.mem_cons_self _ _) hd
      subst hd
      simp only [List.getD_eq_getElem?_getD, List.getElem?_set_self hlt, Option.getD_some]
      exact hw

/-- The triples `(x,y,z)` of the iterations of `convert_loops`, in order. -/
theorem convert_loops_eq (read : Nat → Nat) (dim : uint3) :
    convert_loops read dim =
      ((List.range dim.x).flatMap (fun x => (List.range dim.y).flatMap (fun y =>
        (List.range dim.z).map (fun z => (x, y, z))))).foldl
        (fun nv t => nv.set (t.2.2 * (dim.x * dim.y) + t.2.1 * dim.x + t.1)
          (read (t.1 * (dim.y * dim.z) + t.2.1 * dim.z + t.2.2)))
        (List.replicate (dim.x * dim.y * dim.z) 0) := by
  unfold convert_loops
  rw [foldl_flatMap_eq]
  congr 1
  funext nv x
  rw [foldl_flatMap_eq]
  congr 1
  funext nv y
  rw [List.foldl_map]

theorem convert_loops_length (read : Nat → Nat) (dim : uint3) :
    (convert_loops read dim).length = dim.x * dim.y * dim.z := by
  rw [convert_loops_eq, foldl_set_length, List.length_replicate]

theorem idx3_unique (dx dy x y z x' y' z' : Nat) (hx : x < dx) (hx' : x' < dx)
    (hy : y < dy) (hy' : y' < dy)
    (h : z * (dx * dy) + y * dx + x = z' * (dx * dy) + y' * dx + x') :
    x = x' ∧ y = y' ∧ z = z' := by
  have e1 : z * (dx * dy) + y * dx + x = (z * dy + y) * dx + x := by ring
  have e2 : z' * (dx * dy) + y' * dx + x' = (z' * dy + y') * dx + x' := by ring
  rw [e1, e2] at h
  obtain ⟨h1, h2⟩ := mul_add_unique dx _ _ _ _ hx hx' h
  obtain ⟨h3, h4⟩ := mul_add_unique dy _ _ _ _ hy hy' h1
  exact ⟨h2, h4, h3⟩

/-- What the loops of `mcx_convertrow2col` store: position `z*dx*dy + y*dx + x`
of the new buffer receives the value read for index `x*dy*dz + y*dz + z`. -/
theorem convert_loops_getD (read : Nat → Nat) (dim : uint3) (x y z : Nat)
    (hx : x < dim.x) (hy : y < dim.y) (hz : z < dim.z) :
    (convert_loops read dim).getD (z * (dim.x * dim.y) + y * dim.x + x) 0 =
      read (x * (dim.y * dim.z) + y * dim.z + z) := by
  rw [convert_loops_eq]
  have hmem : ∀ t : Nat × Nat × Nat,
      t ∈ (List.range dim.x).flatMap (fun x => (List.range dim.y).flatMap (fun y =>
        (List.range dim.z).map (fun z => (x, y, z)))) ↔
      t.1 < dim.x ∧ t.2.1 < dim.y ∧ t.2.2 < dim.z := by
    rintro ⟨a, b, c⟩
    simp only [List.mem_flatMap, List.mem_map, List.mem_range, Prod.mk.injEq]
    constructor
    · rintro ⟨a', ha', b', hb', c', hc', rfl, rfl, rfl⟩
      exact ⟨ha', hb', hc'⟩
    · rintro ⟨ha, hb, hc⟩
      exact ⟨a, ha, b, hb, c, hc, rfl, rfl, rfl⟩
  have hlt : z * (dim.x * dim.y) + y * dim.x + x <
      (List.replicate (dim.x * dim.y * dim.z) 0).length := by
    rw [List.length_replicate]
    have := idx3_lt dim.x dim.y dim.z x y z hx hy hz
    have e : z * (dim.x * dim.y) + y * dim.x + x = z * dim.y * dim.x + y * dim.x + x := by ring
    rw [e]; exact this
  exact foldl_set_getD_mem
    ((List.range dim.x).flatMap (fun x => (List.range dim.y).flatMap (fun y =>
        (List.range dim.z).map (fun z => (x, y, z)))))
    (fun t : Nat × Nat × Nat => t.2.2 * (dim.x * dim.y) + t.2.1 * dim.x + t.1)
    (fun t : Nat × Nat × Nat => read (t.1 * (dim.y * dim.z) + t.2.1 * dim.z + t.2.2))
    (List.replicate (dim.x * dim.y * dim.z) 0) _ _
    ⟨(x, y, z), (hmem _).mpr ⟨hx, hy, hz⟩, rfl⟩
    (fun t' ht' hd => by
      obtain ⟨h1, h2, _⟩ := (hmem t').mp ht'
      obtain ⟨e1, e2, e3⟩ := idx3_unique dim.x dim.y _ _ _ _ _ _ h1 hx h2 hy hd
      simp only [e1, e2, e3])
    hlt

/-! ## `mcx_convertrow2col` -/

/-- What `mcx_convertrow2col` returns on a buffer with all dimensions nonzero:
a buffer of `dx*dy*dz` bytes whose position `z*dx*dy + y*dx + x` holds the
value of `*vol[x*dy*dz + y*dz + z]`. -/
theorem mcx_convertrow2col_getD (beyond : Nat → Nat) (buf : List Nat) (dim : uint3)
    (x y z : Nat) (hx : x < dim.x) (hy : y < dim.y) (hz : z < dim.z) :
    ∃ out, mcx_convertrow2col beyond (some buf) dim = (some out, dim) ∧
      out.length = dim.x * dim.y * dim.z ∧
      out.getD (z * (dim.x * dim.y) + y * dim.x + x) 0 =
        convert_read beyond buf (x * (dim.y * dim.z) + y * dim.z + z) := by
  refine ⟨convert_loops (convert_read beyond buf) dim, ?_, convert_loops_length _ _,
    convert_loops_getD _ _ x y z hx hy hz⟩
  unfold mcx_convertrow2col
  simp only
  rw [if_neg (by omega)]

/-- C12, at the failing input. For dims `(1,1,2)` and the buffer `[1,2]` the
transposed buffer should be `[1,2]` again; the function returns `[1, b]` where
`b` is the byte read through the pointer slot behind `cfg->vol`, whatever the
second byte of the buffer is. -/
theorem mcx_convertrow2col_reads_pointer_slots (beyond : Nat → Nat) (b : Nat) :
    mcx_convertrow2col beyond (some [1, b]) ⟨1, 1, 2⟩ = (some [1, beyond 1], ⟨1, 1, 2⟩) := by
  rfl

/-- C13 (no-op on degenerate input). When the buffer is absent or one of the
dimensions is `0`, `mcx_convertrow2col` returns the buffer and the dimensions
as they were. -/
theorem mcx_convertrow2col_degenerate (beyond : Nat → Nat) (vol : Option (List Nat))
    (dim : uint3) (h : vol = none ∨ dim.x = 0 ∨ dim.y = 0 ∨ dim.z = 0) :
    mcx_convertrow2col beyond vol dim = (vol, dim) := by
  unfold mcx_convertrow2col
  cases vol with
  | none => rfl
  | some buf =>
    have h' : dim.x = 0 ∨ dim.y = 0 ∨ dim.z = 0 := by
      rcases h with h | h
      · exact absurd h (by simp)
      · exact h
    simp only [if_pos h']

/-- Witness for C13: an absent buffer with dims `(2,2,2)`, and a buffer with
`dim.y = 0`. -/
theorem mcx_convertrow2col_degenerate_witness :
    ((none : Option (List Nat)) = none ∨ (2 : Nat) = 0 ∨ (2 : Nat) = 0 ∨ (2 : Nat) = 0) ∧
      mcx_convertrow2col (fun _ => 0) none ⟨2, 2, 2⟩ = (none, ⟨2, 2, 2⟩) ∧
      mcx_convertrow2col (fun _ => 0) (some [5, 6]) ⟨2, 0, 1⟩ = (some [5, 6], ⟨2, 0, 1⟩) :=
  ⟨Or.inl rfl,
    mcx_convertrow2col_degenerate (fun _ => 0) none ⟨2, 2, 2⟩ (Or.inl rfl),
    mcx_convertrow2col_degenerate (fun _ => 0) (some [5, 6]) ⟨2, 0, 1⟩ (Or.inr (Or.inr (Or.inl rfl)))⟩

/-! ## `mcx_loadacoustics` -/

theorem range_flatMap_map (n m : Nat) :
    (List.range m).flatMap (fun a => (List.range n).map (fun b => n * a + b)) =
      List.range (n * m) := by
  induction m with
  | zero => simp
  | succ m ih =>
    rw [List.range_succ, List.flatMap_append, ih, Nat.mul_succ, List.range_add]
    simp

/-- In the order of the triple loop the value of `index` runs through
`0, 1, 2, ...`: it is the number of iterations already made. -/
theorem loadacoustics_order_index (dim : uint3) :
    (loadacoustics_order dim).map (fun t => dim.x * dim.y * t.1 + dim.x * t.2.1 + t.2.2) =
      List.range (dim.x * dim.y * dim.z) := by
  unfold loadacoustics_order
  rw [← range_flatMap_map (dim.x * dim.y) dim.z, List.map_flatMap]
  congr 1
  funext k
  rw [← range_flatMap_map dim.x dim.y, List.map_flatMap, List.map_flatMap]
  congr 1
  funext j
  simp only [List.map_map]
  apply List.map_congr_left
  intro i _
  simp only [Function.comp]
  ring

theorem loadacoustics_loops_nowrap_eq (dim : uint3) (my_data : List ℚ) :
    loadacoustics_loops_nowrap dim my_data =
      (loadacoustics_order dim).foldl
        (fun st t => loadacoustics_body_nowrap dim my_data t.1 t.2.1 t.2.2 st)
        (List.replicate (dim.x * dim.y * dim.z) ⟨0, 0, 0, 0⟩, 0) := by
  unfold loadacoustics_loops_nowrap loadacoustics_order
  rw [foldl_flatMap_eq]
  congr 1
  funext st k
  rw [foldl_flatMap_eq]
  congr 1
  funext st j
  rw [List.foldl_map]

theorem set_length_append {α : Type} (pre : List α) (s0 a : α) (suf : List α) :
    (pre ++ s0 :: suf).set pre.length a = pre ++ a :: suf := by
  induction pre with
  | nil => rfl
  | cons p pre ih => simp [ih]

/-- A loop that stores one value per iteration at a running position fills the
buffer with the values in the order of the iterations. -/
theorem foldl_fill {τ α : Type} (r : τ → α) (T : List τ) :
    ∀ (pre suf : List α), T.length ≤ suf.length →
      T.foldl (fun st t => (st.1.set st.2 (r t), st.2 + 1)) (pre ++ suf, pre.length) =
        (pre ++ T.map r ++ suf.drop T.length, pre.length + T.length) := by
  induction T with
  | nil => intro pre suf _; simp
  | cons t T ih =>
    intro pre suf hlen
    cases suf with
    | nil => simp at hlen
    | cons s0 suf =>
      rw [List.foldl_cons]
      simp only
      rw [set_length_append]
      have e : pre ++ r t :: suf = (pre ++ [r t]) ++ suf := by simp
      have e2 : pre.length + 1 = (pre ++ [r t]).length := by simp
      rw [e, e2, ih (pre ++ [r t]) suf (by simpa using hlen)]
      simp [Nat.add_assoc, Nat.add_comm 1]

/-- The record built for `index = idx` from the channel-planar data. -/
theorem loadacoustics_loops_nowrap_result (dim : uint3) (my_data : List ℚ) :
    loadacoustics_loops_nowrap dim my_data =
      ((List.range (dim.x * dim.y * dim.z)).map (fun idx =>
        ({ Px := my_data.getD idx 0
           Py := my_data.getD (dim.x * dim.y * dim.z + idx) 0
           Pz := my_data.getD (dim.x * dim.y * dim.z * 2 + idx) 0
           USphase := my_data.getD (dim.x * dim.y * dim.z * 3 + idx) 0 } : Acoustics)),
        dim.x * dim.y * dim.z) := by
  rw [loadacoustics_loops_nowrap_eq]
  have hlen : (loadacoustics_order dim).length = dim.x * dim.y * dim.z := by
    have := congrArg List.length (loadacoustics_order_index dim)
    simpa using this
  have h := foldl_fill
    (fun t : Nat × Nat × Nat =>
      ({ Px := my_data.getD (dim.x * dim.y * t.1 + dim.x * t.2.1 + t.2.2) 0
         Py := my_data.getD (dim.x * dim.y * dim.z +
           (dim.x * dim.y * t.1 + dim.x * t.2.1 + t.2.2)) 0
         Pz := my_data.getD (dim.x * dim.y * dim.z * 2 +
           (dim.x * dim.y * t.1 + dim.x * t.2.1 + t.2.2)) 0
         USphase := my_data.getD (dim.x * dim.y * dim.z * 3 +
           (dim.x * dim.y * t.1 + dim.x * t.2.1 + t.2.2)) 0 } : Acoustics))
    (loadacoustics_order dim) []
    (List.replicate (dim.x * dim.y * dim.z) ⟨0, 0, 0, 0⟩)
    (by rw [hlen, List.length_replicate])
  simp only [List.nil_append, List.length_nil, Nat.zero_add] at h
  unfold loadacoustics_body_nowrap
  rw [h, hlen]
  congr 1
  rw [List.drop_eq_nil_of_le (by rw [List.length_replicate]), List.append_nil,
    ← loadacoustics_order_index dim, List.map_map]
  rfl

theorem loadacoustics_loops_eq (beyond : Nat → ℚ) (dim : uint3) (my_data : List ℚ) :
    loadacoustics_loops beyond dim my_data =
      (loadacoustics_order dim).foldl
        (fun st t => loadacoustics_body beyond dim my_data t.1 t.2.1 t.2.2 st)
        (List.replicate (dim.x * dim.y * dim.z % 2 ^ 32) ⟨0, 0, 0, 0⟩, 0) := by
  unfold loadacoustics_loops loadacoustics_order
  rw [foldl_flatMap_eq]
  congr 1
  funext st k
  rw [foldl_flatMap_eq]
  congr 1
  funext st j
  rw [List.foldl_map]

theorem mem_loadacoustics_order (dim : uint3) (t : Nat × Nat × Nat) :
    t ∈ loadacoustics_order dim ↔ t.1 < dim.z ∧ t.2.1 < dim.y ∧ t.2.2 < dim.x := by
  obtain ⟨k, j, i⟩ := t
  unfold loadacoustics_order
  simp only [List.mem_flatMap, List.mem_map, List.mem_range, Prod.mk.injEq]
  constructor
  · rintro ⟨k', hk, j', hj, i', hi, rfl, rfl, rfl⟩
    exact ⟨hk, hj, hi⟩
  · rintro ⟨hk, hj, hi⟩
    exact ⟨k, hk, j, hj, i, hi, rfl, rfl, rfl⟩

theorem acoustics_read_inside (beyond : Nat → ℚ) (my_data : List ℚ) (i : Nat)
    (h : i < my_data.length) : acoustics_read beyond my_data i = my_data.getD i 0 := by
  unfold acoustics_read
  rw [if_pos h]

/-- As long as `4*dimx*dimy*dimz` is below `2^32` and the buffer holds that
many floats, no index of the loop body wraps and no read leaves the buffer. -/
theorem loadacoustics_body_small (beyond : Nat → ℚ) (dim : uint3) (my_data : List ℚ)
    (k j i : Nat) (st : List Acoustics × Nat)
    (hN : dim.x * dim.y * dim.z * 4 < 2 ^ 32)
    (hlen : my_data.length = dim.x * dim.y * dim.z * 4)
    (hk : k < dim.z) (hj : j < dim.y) (hi : i < dim.x) (hst : st.2 + 1 < 2 ^ 32) :
    loadacoustics_body beyond dim my_data k j i st =
      loadacoustics_body_nowrap dim my_data k j i st := by
  have hidx : dim.x * dim.y * k + dim.x * j + i < dim.x * dim.y * dim.z := by
    have h := idx3_lt dim.x dim.y dim.z i j k hi hj hk
    have e : dim.x * dim.y * k + dim.x * j + i = k * dim.y * dim.x + j * dim.x + i := by ring
    rw [e]
    exact h
  unfold loadacoustics_body loadacoustics_body_nowrap
  generalize dim.x * dim.y * k + dim.x * j + i = idx at hidx ⊢
  generalize dim.x * dim.y * dim.z = N at hN hlen hidx ⊢
  have m0 : idx % 2 ^ 32 = idx := Nat.mod_eq_of_lt (by omega)
  have mN : N % 2 ^ 32 = N := Nat.mod_eq_of_lt (by omega)
  have m1 : (N + idx) % 2 ^ 32 = N + idx := Nat.mod_eq_of_lt (by omega)
  have m2 : (N * 2 + idx) % 2 ^ 32 = N * 2 + idx := Nat.mod_eq_of_lt (by omega)
  have m3 : (N * 3 + idx) % 2 ^ 32 = N * 3 + idx := Nat.mod_eq_of_lt (by omega)
  have ms : (st.2 + 1) % 2 ^ 32 = st.2 + 1 := Nat.mod_eq_of_lt hst
  rw [m0, mN, m1, m2, m3, ms,
    acoustics_read_inside beyond my_data idx (by omega),
    acoustics_read_inside beyond my_data (N + idx) (by omega),
    acoustics_read_inside beyond my_data (N * 2 + idx) (by omega),
    acoustics_read_inside beyond my_data (N * 3 + idx) (by omega)]

theorem foldl_body_small (beyond : Nat → ℚ) (dim : uint3) (my_data : List ℚ)
    (hN : dim.x * dim.y * dim.z * 4 < 2 ^ 32)
    (hlen : my_data.length = dim.x * dim.y * dim.z * 4) (T : List (Nat × Nat × Nat)) :
    ∀ st : List Acoustics × Nat, (∀ t ∈ T, t.1 < dim.z ∧ t.2.1 < dim.y ∧ t.2.2 < dim.x) →
      st.2 + T.length < 2 ^ 32 →
      T.foldl (fun st t => loadacoustics_body beyond dim my_data t.1 t.2.1 t.2.2 st) st =
        T.foldl (fun st t => loadacoustics_body_nowrap dim my_data t.1 t.2.1 t.2.2 st) st := by
  induction T with
  | nil => intro st _ _; rw [List.foldl_nil, List.foldl_nil]
  | cons t T ih =>
    intro st hT hst
    obtain ⟨hk, hj, hi⟩ := hT t (List.mem_cons_self _ _)
    rw [List.length_cons] at hst
    rw [List.foldl_cons, List.foldl_cons,
      loadacoustics_body_small beyond dim my_data t.1 t.2.1 t.2.2 st hN hlen hk hj hi
        (by omega)]
    apply ih _ (fun t' ht' => hT t' (List.mem_cons_of_mem _ ht'))
    have e : (loadacoustics_body_nowrap dim my_data t.1 t.2.1 t.2.2 st).2 = st.2 + 1 := rfl
    rw [e]
    omega

/-- Below the wrap the triple loop of the source computes what it computes in
the natural numbers. -/
theorem loadacoustics_loops_small (beyond : Nat → ℚ) (dim : uint3) (my_data : List ℚ)
    (hN : dim.x * dim.y * dim.z * 4 < 2 ^ 32)
    (hlen : my_data.length = dim.x * dim.y * dim.z * 4) :
    loadacoustics_loops beyond dim my_data = loadacoustics_loops_nowrap dim my_data := by
  rw [loadacoustics_loops_eq, loadacoustics_loops_nowrap_eq,
    Nat.mod_eq_of_lt (show dim.x * dim.y * dim.z < 2 ^ 32 by omega)]
  have hlen' : (loadacoustics_order dim).length = dim.x * dim.y * dim.z := by
    have := congrArg List.length (loadacoustics_order_index dim)
    simpa using this
  exact foldl_body_small beyond dim my_data hN hlen (loadacoustics_order dim) _
    (fun t ht => (mem_loadacoustics_order dim t).mp ht)
    (by rw [hlen']; show 0 + dim.x * dim.y * dim.z < 2 ^ 32; omega)

theorem mcx_loadacoustics_ok (beyond : Nat → ℚ) (dim : uint3) (floats : List ℚ)
    (hN : dim.x * dim.y * dim.z * 4 < 2 ^ 32)
    (hlen : dim.x * dim.y * dim.z * 4 ≤ floats.length) :
    mcx_loadacoustics beyond (some floats) dim =
      LoadResult.ok ((List.range (dim.x * dim.y * dim.z)).map (fun idx =>
        ({ Px := floats.getD idx 0
           Py := floats.getD (dim.x * dim.y * dim.z + idx) 0
           Pz := floats.getD (dim.x * dim.y * dim.z * 2 + idx) 0
           USphase := floats.getD (dim.x * dim.y * dim.z * 3 + idx) 0 } : Acoustics))) := by
  have e4 : dim.x * dim.y * dim.z % 2 ^ 32 * 4 % 2 ^ 32 = dim.x * dim.y * dim.z * 4 := by
    rw [Nat.mod_eq_of_lt (show dim.x * dim.y * dim.z < 2 ^ 32 by omega), Nat.mod_eq_of_lt hN]
  unfold mcx_loadacoustics
  simp only [e4]
  rw [if_neg (by rw [List.length_take]; omega),
    loadacoustics_loops_small beyond dim _ hN (by rw [List.length_take]; omega),
    loadacoustics_loops_nowrap_result]
  simp only [LoadResult.ok.injEq]
  apply List.map_congr_left
  intro idx hidx
  rw [List.mem_range] at hidx
  have hget : ∀ i, i < dim.x * dim.y * dim.z * 4 →
      (floats.take (dim.x * dim.y * dim.z * 4)).getD i 0 = floats.getD i 0 := by
    intro i hi
    simp only [List.getD_eq_getElem?_getD, List.getElem?_take, if_pos hi]
  rw [hget _ (by omega), hget _ (by omega), hget _ (by omega), hget _ (by omega)]

/-- The deinterleave layout below the wrap. For dimensions with
`4N < 2^32`, `N = dx*dy*dz`, and a raw buffer of exactly `4N` floats,
`mcx_loadacoustics` returns `N` records, the record at
`idx = dx*dy*z + dx*y + x` being `(raw[idx], raw[N+idx], raw[2N+idx],
raw[3N+idx])` for every voxel `(x,y,z)` of the grid; and in the order of the
triple loop `index` takes the values `0, 1, ..., N-1`, that is, `current_pos`
equals `index` at every iteration. -/
theorem mcx_loadacoustics_layout (beyond : Nat → ℚ) (dim : uint3) (raw : List ℚ)
    (hN : dim.x * dim.y * dim.z * 4 < 2 ^ 32)
    (hlen : raw.length = dim.x * dim.y * dim.z * 4) :
    ∃ recs, mcx_loadacoustics beyond (some raw) dim = LoadResult.ok recs ∧
      recs.length = dim.x * dim.y * dim.z ∧
      (∀ x y z, x < dim.x → y < dim.y → z < dim.z →
        recs.getD (dim.x * dim.y * z + dim.x * y + x) ⟨0, 0, 0, 0⟩ =
          { Px := raw.getD (dim.x * dim.y * z + dim.x * y + x) 0
            Py := raw.getD (dim.x * dim.y * dim.z + (dim.x * dim.y * z + dim.x * y + x)) 0
            Pz := raw.getD (dim.x * dim.y * dim.z * 2 + (dim.x * dim.y * z + dim.x * y + x)) 0
            USphase :=
              raw.getD (dim.x * dim.y * dim.z * 3 + (dim.x * dim.y * z + dim.x * y + x)) 0 }) ∧
      (loadacoustics_order dim).map (fun t => dim.x * dim.y * t.1 + dim.x * t.2.1 + t.2.2) =
        List.range (dim.x * dim.y * dim.z) := by
  refine ⟨_, mcx_loadacoustics_ok beyond dim raw hN (by omega), by simp, ?_,
    loadacoustics_order_index dim⟩
  intro x y z hx hy hz
  have hlt : dim.x * dim.y * z + dim.x * y + x < dim.x * dim.y * dim.z := by
    have := idx3_lt dim.x dim.y dim.z x y z hx hy hz
    have e : dim.x * dim.y * z + dim.x * y + x = z * dim.y * dim.x + y * dim.x + x := by ring
    rw [e]; exact this
  simp only [List.getD_eq_getElem?_getD, List.getElem?_map, List.getElem?_range hlt,
    Option.map_some', Option.getD_some]

/-- The layout on dims `(1,1,2)` and the raw buffer `1,...,8`. -/
theorem mcx_loadacoustics_layout_example :
    mcx_loadacoustics (fun _ => 0) (some [1, 2, 3, 4, 5, 6, 7, 8]) ⟨1, 1, 2⟩ =
      LoadResult.ok [⟨1, 3, 5, 7⟩, ⟨2, 4, 6, 8⟩] := by
  decide

theorem reinterleave_load (dim : uint3) (raw : List ℚ)
    (hlen : raw.length = dim.x * dim.y * dim.z * 4) :
    reinterleave (dim.x * dim.y * dim.z)
      ((List.range (dim.x * dim.y * dim.z)).map (fun idx =>
        ({ Px := raw.getD idx 0
           Py := raw.getD (dim.x * dim.y * dim.z + idx) 0
           Pz := raw.getD (dim.x * dim.y * dim.z * 2 + idx) 0
           USphase := raw.getD (dim.x * dim.y * dim.z * 3 + idx) 0 } : Acoustics))) = raw := by
  generalize dim.x * dim.y * dim.z = N at hlen ⊢
  apply List.ext_getElem
  · simp [reinterleave, hlen, Nat.mul_comm]
  · intro t h1 h2
    have ht : t < 4 * N := by simpa [reinterleave] using h1
    have hN : 0 < N := by omega
    have hmod : t % N < N := Nat.mod_lt _ hN
    have hdiv : t / N < 4 := by
      rw [Nat.div_lt_iff_lt_mul hN]; omega
    have hdm : N * (t / N) + t % N = t := Nat.div_add_mod t N
    simp only [reinterleave, List.getElem_map, List.getElem_range,
      List.getD_eq_getElem?_getD, List.getElem?_map, List.getElem?_range hmod,
      Option.map_some', Option.getD_some]
    have hget : ∀ i, i = t → raw[i]?.getD 0 = raw[t] := by
      intro i hi
      subst hi
      rw [List.getElem?_eq_getElem h2]; rfl
    generalize t / N = q at hdiv hdm ⊢
    generalize t % N = r at hmod hdm ⊢
    have h4 : q = 0 ∨ q = 1 ∨ q = 2 ∨ q = 3 := by omega
    rcases h4 with h | h | h | h
    · subst h; rw [if_pos rfl]; exact hget _ (by omega)
    · subst h; rw [if_neg (by omega), if_pos rfl]; exact hget _ (by omega)
    · subst h; rw [if_neg (by omega), if_neg (by omega), if_pos rfl]
      exact hget _ (by omega)
    · subst h; rw [if_neg (by omega), if_neg (by omega), if_neg (by omega)]
      exact hget _ (by omega)

/-- The deinterleave is one-to-one below the wrap. For dimensions with
`4N < 2^32` and a raw buffer `raw` of `4N` floats, writing field `p` of record
`idx` of the result of `mcx_loadacoustics` to position `p*N + idx` gives `raw`
back; hence another raw buffer of `4N` floats with the same records is the
same buffer. -/
theorem mcx_loadacoustics_bijection (beyond : Nat → ℚ) (dim : uint3) (raw : List ℚ)
    (hN : dim.x * dim.y * dim.z * 4 < 2 ^ 32)
    (hlen : raw.length = dim.x * dim.y * dim.z * 4) :
    (∃ recs, mcx_loadacoustics beyond (some raw) dim = LoadResult.ok recs ∧
        reinterleave (dim.x * dim.y * dim.z) recs = raw) ∧
      ∀ raw' : List ℚ, raw'.length = dim.x * dim.y * dim.z * 4 →
        mcx_loadacoustics beyond (some raw') dim = mcx_loadacoustics beyond (some raw) dim →
        raw' = raw := by
  refine ⟨⟨_, mcx_loadacoustics_ok beyond dim raw hN (by omega),
    reinterleave_load dim raw hlen⟩, ?_⟩
  intro raw' hlen' heq
  rw [mcx_loadacoustics_ok beyond dim raw hN (by omega),
    mcx_loadacoustics_ok beyond dim raw' hN (by omega), LoadResult.ok.injEq] at heq
  rw [← reinterleave_load dim raw hlen, ← reinterleave_load dim raw' hlen', heq]

/-- The count that `mcx_loadacoustics` asks of `fread` for dims
`(1024,1024,1024)`: `datalen` is `2^30` and `datalen*4` wraps to `0`. -/
theorem acoustics_count_wraps :
    1024 * 1024 * 1024 % 2 ^ 32 * 4 % 2 ^ 32 = 0 := by
  norm_num

/-- For dims `(1024,1024,1024)` the loader takes no float from the file: it
asks `fread` for `0` floats, the size test passes on every file, and the
records are built from reads past the end of an empty buffer. -/
theorem acoustics_wrap_result (beyond : Nat → ℚ) (file : List ℚ) :
    mcx_loadacoustics beyond (some file) ⟨1024, 1024, 1024⟩ =
      LoadResult.ok (loadacoustics_loops beyond ⟨1024, 1024, 1024⟩ []).1 := by
  unfold mcx_loadacoustics
  simp only [acoustics_count_wraps, List.take_zero, List.length_nil, ne_eq, not_true_eq_false,
    if_false]

/-- Claim C14, where it fails. For dims `(1024,1024,1024)`, `N = 2^30`, and
every raw buffer, one of exactly `4N = 2^32` floats included, the count
`datalen*4` is `0` in 32 bits: `mcx_loadacoustics` reads no float, raises no
error, and returns records that are the same for every file, built from reads
past the end of an empty buffer; they are not the floats of the raw buffer. -/
theorem acoustics_file_unread_at_wrap (beyond : Nat → ℚ) (raw : List ℚ) :
    1024 * 1024 * 1024 % 2 ^ 32 * 4 % 2 ^ 32 = 0 ∧
      mcx_loadacoustics beyond (some raw) ⟨1024, 1024, 1024⟩ =
        LoadResult.ok (loadacoustics_loops beyond ⟨1024, 1024, 1024⟩ []).1 ∧
      mcx_loadacoustics beyond (some raw) ⟨1024, 1024, 1024⟩ =
        mcx_loadacoustics beyond (some []) ⟨1024, 1024, 1024⟩ ∧
      (∀ i, acoustics_read beyond [] i = beyond i) :=
  ⟨acoustics_count_wraps, acoustics_wrap_result beyond raw,
    (acoustics_wrap_result beyond raw).trans (acoustics_wrap_result beyond []).symm,
    fun _ => rfl⟩

/-- Claim C15, where it fails. For dims `(1024,1024,1024)` the raw buffer of
`2^32` floats `0` and the raw buffer of `2^32` floats `1` are two different
buffers of `4N` floats, and `mcx_loadacoustics` returns the same records for
both. -/
theorem acoustics_same_records_at_wrap (beyond : Nat → ℚ) :
    (List.replicate 4294967296 (0 : ℚ)).length = 1024 * 1024 * 1024 * 4 ∧
      (List.replicate 4294967296 (1 : ℚ)).length = 1024 * 1024 * 1024 * 4 ∧
      (List.replicate 4294967296 (0 : ℚ)).head? = some 0 ∧
      (List.replicate 4294967296 (1 : ℚ)).head? = some 1 ∧
      mcx_loadacoustics beyond (some (List.replicate 4294967296 (0 : ℚ))) ⟨1024, 1024, 1024⟩ =
        mcx_loadacoustics beyond (some (List.replicate 4294967296 (1 : ℚ)))
          ⟨1024, 1024, 1024⟩ := by
  refine ⟨by rw [List.length_replicate], by rw [List.length_replicate], ?_, ?_, ?_⟩
  · rw [List.head?_replicate]
    rfl
  · rw [List.head?_replicate]
    rfl
  · rw [acoustics_wrap_result, acoustics_wrap_result]

theorem mediumExceeds_iff (medianum : Nat) (bytes : List Nat) :
    mediumExceeds medianum bytes = true ↔ ∃ b ∈ bytes, medianum ≤ b := by
  induction bytes with
  | nil => simp [mediumExceeds]
  | cons b bs ih =>
    unfold mediumExceeds
    by_cases hb : medianum ≤ b
    · rw [if_pos hb]
      exact ⟨fun _ => ⟨b, List.mem_cons_self _ _, hb⟩, fun _ => rfl⟩
    · rw [if_neg hb, ih]
      constructor
      · rintro ⟨c, hc, h⟩
        exact ⟨c, List.mem_cons_of_mem _ hc, h⟩
      · rintro ⟨c, hc, h⟩
        rcases List.mem_cons.mp hc with rfl | hc
        · exact absurd h hb
        · exact ⟨c, hc, h⟩

/-- Medium-index validation below the wrap. For dimensions with
`N = dx*dy*dz < 2^32` and a raw volume file of exactly `N` bytes,
`mcx_loadvolume` ends with error -6 "medium index exceeds the specified medium
types" if and only if some byte is `>= medianum`; when it returns, the volume
is the file and every byte is below `medianum`. -/
theorem mcx_loadvolume_medium_check (shapes : LoadResult (List Nat)) (bytes : List Nat)
    (dim : uint3) (medianum : Nat) (hN : dim.x * dim.y * dim.z < 2 ^ 32)
    (hlen : bytes.length = dim.x * dim.y * dim.z) :
    (mcx_loadvolume false shapes (some bytes) dim medianum =
        LoadResult.error (-6) "medium index exceeds the specified medium types" ↔
      ∃ b ∈ bytes, medianum ≤ b) ∧
    (∀ vol, mcx_loadvolume false shapes (some bytes) dim medianum = LoadResult.ok vol →
      vol = bytes ∧ ∀ b ∈ vol, b < medianum) ∧
    ((∀ b ∈ bytes, b < medianum) →
      mcx_loadvolume false shapes (some bytes) dim medianum = LoadResult.ok bytes) := by
  have hmod : dim.x * dim.y * dim.z % 2 ^ 32 = dim.x * dim.y * dim.z := Nat.mod_eq_of_lt hN
  have htake : bytes.take (dim.x * dim.y * dim.z) = bytes := by
    rw [← hlen]; exact List.take_length _
  have hval : mcx_loadvolume false shapes (some bytes) dim medianum =
      if mediumExceeds medianum bytes then
        LoadResult.error (-6) "medium index exceeds the specified medium types"
      else LoadResult.ok bytes := by
    unfold mcx_loadvolume
    simp only [Bool.false_eq_true, if_false, hmod, htake]
    rw [if_neg (by rw [hlen]; simp)]
  rw [hval]
  by_cases hex : mediumExceeds medianum bytes = true
  · rw [if_pos hex]
    refine ⟨⟨fun _ => (mediumExceeds_iff _ _).mp hex, fun _ => rfl⟩, ?_, ?_⟩
    · intro vol h
      exact absurd h (by simp)
    · intro hall
      obtain ⟨b, hb, hle⟩ := (mediumExceeds_iff _ _).mp hex
      exact absurd (hall b hb) (by omega)
  · rw [if_neg hex]
    have hall : ∀ b ∈ bytes, b < medianum := by
      intro b hb
      by_contra hge
      exact hex ((mediumExceeds_iff _ _).mpr ⟨b, hb, by omega⟩)
    refine ⟨⟨fun h => absurd h (by simp), fun h => ?_⟩, ?_, fun _ => rfl⟩
    · obtain ⟨b, hb, hle⟩ := h
      exact absurd (hall b hb) (by omega)
    · intro vol h
      simp only [LoadResult.ok.injEq] at h
      subst h
      exact ⟨rfl, hall⟩

/-- The check on dims `(3,1,1)` with three media: the file `0,1,2` is loaded,
the file `0,1,3` is refused. -/
theorem mcx_loadvolume_medium_check_example :
    mcx_loadvolume false (LoadResult.ok []) (some [0, 1, 2]) ⟨3, 1, 1⟩ 3 =
        LoadResult.ok [0, 1, 2] ∧
      mcx_loadvolume false (LoadResult.ok []) (some [0, 1, 3]) ⟨3, 1, 1⟩ 3 =
        LoadResult.error (-6) "medium index exceeds the specified medium types" := by
  decide

/-- Claim C17, where it fails. For dims `(65536,65536,1)`, `N = 2^32`,
`datalen` is `0` in 32 bits: `mcx_loadvolume` reads no byte, runs no check and
returns an empty volume whatever the file holds, a file of `N` bytes `200`
with `medianum = 2` included. -/
theorem volume_unchecked_at_wrap (shapes : LoadResult (List Nat)) (file : List Nat)
    (medianum : Nat) :
    65536 * 65536 * 1 % 2 ^ 32 = 0 ∧
      mcx_loadvolume false shapes (some file) ⟨65536, 65536, 1⟩ medianum = LoadResult.ok [] ∧
      (List.replicate 4294967296 200).length = 65536 * 65536 * 1 ∧
      (List.replicate 4294967296 200).head? = some 200 ∧
      mcx_loadvolume false shapes (some (List.replicate 4294967296 200)) ⟨65536, 65536, 1⟩ 2 =
        LoadResult.ok [] := by
  have h0 : 65536 * 65536 * 1 % 2 ^ 32 = 0 := by norm_num
  have hres : ∀ (f : List Nat) (m : Nat),
      mcx_loadvolume false shapes (some f) ⟨65536, 65536, 1⟩ m = LoadResult.ok [] := by
    intro f m
    unfold mcx_loadvolume
    simp only [h0, List.take_zero, List.length_nil, ne_eq, not_true_eq_false, if_false,
      Bool.false_eq_true, mediumExceeds]
  refine ⟨h0, hres file medianum, by rw [List.length_replicate], ?_, hres _ 2⟩
  rw [List.head?_replicate]
  rfl

/-- C18, at the failing input. A configuration file that declares 254 media
passes the loader with `medianum = 255`; a one-voxel volume file holding the
byte 200 is then accepted by `mcx_loadvolume`; that byte is above `MED_MASK`
and has the detector bit set although no detector has flagged it, and
`mcx_maskdet` without any detector leaves it so. -/
theorem loaded_byte_above_med_mask :
    mcx_loadconfig_medianum 254 = LoadResult.ok 255 ∧
      mcx_loadvolume false (LoadResult.ok []) (some [200]) ⟨1, 1, 1⟩ 255 = LoadResult.ok [200] ∧
      MED_MASK < 200 ∧ 200 &&& DET_MASK = DET_MASK ∧
      (mcx_maskdet { emptyRestCfg with vol := [200], issavedet := true }).vol = [200] := by
  decide

/-- The bound the two loaders do enforce: after `mcx_loadconfig` has accepted
the medium count and `mcx_loadvolume` the volume, every byte is at most 254. -/
theorem loaded_bytes_le (n : Nat) (medianum : Nat) (shapes : LoadResult (List Nat))
    (file : Option (List Nat)) (dim : uint3) (vol : List Nat)
    (hcfg : mcx_loadconfig_medianum n = LoadResult.ok medianum)
    (hvol : mcx_loadvolume false shapes file dim medianum = LoadResult.ok vol) :
    ∀ b ∈ vol, b < medianum ∧ b ≤ 254 := by
  have hm : medianum ≤ 255 := by
    unfold mcx_loadconfig_medianum MAX_PROP at hcfg
    by_cases h : 255 < (n + 1) % 2 ^ 32
    · rw [if_pos h] at hcfg
      exact absurd hcfg (by simp)
    · rw [if_neg h] at hcfg
      simp only [LoadResult.ok.injEq] at hcfg
      omega
  unfold mcx_loadvolume at hvol
  simp only [Bool.false_eq_true, if_false] at hvol
  cases file with
  | none => exact absurd hvol (by simp)
  | some bytes =>
    simp only at hvol
    by_cases h1 : (bytes.take (dim.x * dim.y * dim.z % 2 ^ 32)).length ≠
        dim.x * dim.y * dim.z % 2 ^ 32
    · rw [if_pos h1] at hvol
      exact absurd hvol (by simp)
    · rw [if_neg h1] at hvol
      by_cases h2 : mediumExceeds medianum (bytes.take (dim.x * dim.y * dim.z % 2 ^ 32)) = true
      · rw [if_pos h2] at hvol
        exact absurd hvol (by simp)
      · rw [if_neg h2] at hvol
        simp only [LoadResult.ok.injEq] at hvol
        subst hvol
        intro b hb
        have : b < medianum := by
          by_contra hge
          exact h2 ((mediumExceeds_iff _ _).mpr ⟨b, hb, by omega⟩)
        exact ⟨this, by omega⟩

/-! ## The neighbour test and the rejection rule -/

theorem shift_sq_le (a b c e1 e2 e3 w R : ℚ) (hw : 0 ≤ w) (hR : 0 ≤ R)
    (h1 : a * a + b * b + c * c ≤ w * w) (h2 : e1 * e1 + e2 * e2 + e3 * e3 ≤ R * R) :
    (a + e1) * (a + e1) + (b + e2) * (b + e2) + (c + e3) * (c + e3) ≤ (w + R) * (w + R) := by
  have hcs : (a * e1 + b * e2 + c * e3) * (a * e1 + b * e2 + c * e3) ≤
      (a * a + b * b + c * c) * (e1 * e1 + e2 * e2 + e3 * e3) := by
    nlinarith [sq_nonneg (a * e2 - b * e1), sq_nonneg (a * e3 - c * e1),
      sq_nonneg (b * e3 - c * e2)]
  have hprod : (a * a + b * b + c * c) * (e1 * e1 + e2 * e2 + e3 * e3) ≤ (w * w) * (R * R) := by
    apply mul_le_mul h1 h2
    · nlinarith [mul_self_nonneg e1, mul_self_nonneg e2, mul_self_nonneg e3]
    · exact mul_self_nonneg w
  have hs : a * e1 + b * e2 + c * e3 ≤ w * R := by
    by_contra hlt
    rw [not_le] at hlt
    have hwR : 0 ≤ w * R := mul_nonneg hw hR
    nlinarith
  nlinarith

theorem corner_bits (c : ℚ × ℚ × ℚ) (hc : c ∈ corners) :
    (c.1 = 0 ∨ c.1 = 1) ∧ (c.2.1 = 0 ∨ c.2.1 = 1) ∧ (c.2.2 = 0 ∨ c.2.2 = 1) := by
  simp only [corners, List.mem_cons, List.mem_singleton, List.not_mem_nil, or_false] at hc
  rcases hc with rfl | rfl | rfl | rfl | rfl | rfl | rfl | rfl <;> simp

theorem bit_diff_sq (p q : ℚ) (hp : p = 0 ∨ p = 1) (hq : q = 0 ∨ q = 1) :
    (q - p) * (q - p) ≤ 1 := by
  rcases hp with rfl | rfl <;> rcases hq with rfl | rfl <;> norm_num

/-- A voxel with one corner nearer than `w` to the centre has all its corners
within `w + 1.7321`. -/
theorem corners_within_d2max (det : float4) (vx vy vz : ℤ) (hw : 0 ≤ det.w)
    (c : ℚ × ℚ × ℚ) (hc : c ∈ corners) (hnear : cornerD2 det vx vy vz c < det.w * det.w)
    (c' : ℚ × ℚ × ℚ) (hc' : c' ∈ corners) :
    cornerD2 det vx vy vz c' ≤ (det.w + 17321 / 10000) * (det.w + 17321 / 10000) := by
  obtain ⟨b1, b2, b3⟩ := corner_bits c hc
  obtain ⟨b1', b2', b3'⟩ := corner_bits c' hc'
  have e1 := bit_diff_sq c.1 c'.1 b1 b1'
  have e2 := bit_diff_sq c.2.1 c'.2.1 b2 b2'
  have e3 := bit_diff_sq c.2.2 c'.2.2 b3 b3'
  have h := shift_sq_le ((vx : ℚ) - det.x + c.1) ((vy : ℚ) - det.y + c.2.1)
    ((vz : ℚ) - det.z + c.2.2) (c'.1 - c.1) (c'.2.1 - c.2.1) (c'.2.2 - c.2.2) det.w
    (17321 / 10000) hw (by norm_num) (le_of_lt hnear) (by norm_num; linarith)
  unfold cornerD2
  have r1 : (vx : ℚ) - det.x + c'.1 = (vx : ℚ) - det.x + c.1 + (c'.1 - c.1) := by ring
  have r2 : (vy : ℚ) - det.y + c'.2.1 = (vy : ℚ) - det.y + c.2.1 + (c'.2.1 - c.2.1) := by ring
  have r3 : (vz : ℚ) - det.z + c'.2.2 = (vz : ℚ) - det.z + c.2.2 + (c'.2.2 - c.2.2) := by ring
  rw [r1, r2, r3]
  exact h

theorem cornerLoop_eq_plain (d2max : ℚ) (det : float4) (vx vy vz : ℤ)
    (cs : List (ℚ × ℚ × ℚ)) (m : ℚ) (h : ∀ c ∈ cs, cornerD2 det vx vy vz c ≤ d2max) :
    cornerLoop d2max det vx vy vz cs m = cornerLoopPlain det vx vy vz cs m := by
  induction cs generalizing m with
  | nil => rfl
  | cons c t ih =>
    unfold cornerLoop cornerLoopPlain
    rw [if_neg (not_lt.mpr (h c (List.mem_cons_self _ _)))]
    exact ih _ (fun c' hc' => h c' (List.mem_cons_of_mem _ hc'))

theorem cornerLoopPlain_lt_iff (det : float4) (vx vy vz : ℤ) (cs : List (ℚ × ℚ × ℚ))
    (m t : ℚ) :
    cornerLoopPlain det vx vy vz cs m < t ↔
      m < t ∨ ∃ c ∈ cs, cornerD2 det vx vy vz c < t := by
  induction cs generalizing m with
  | nil => simp [cornerLoopPlain]
  | cons c cs ih =>
    unfold cornerLoopPlain
    rw [ih]
    constructor
    · rintro (h | ⟨c', hc', h⟩)
      · split_ifs at h with hlt
        · exact Or.inr ⟨c, List.mem_cons_self _ _, h⟩
        · exact Or.inl h
      · exact Or.inr ⟨c', List.mem_cons_of_mem _ hc', h⟩
    · rintro (h | ⟨c', hc', h⟩)
      · left
        split_ifs with hlt
        · exact lt_trans hlt h
        · exact h
      · rcases List.mem_cons.mp hc' with rfl | hc'
        · left
          split_ifs with hlt
          · exact h
          · exact lt_of_le_of_lt (not_lt.mp hlt) h
        · exact Or.inr ⟨c', hc', h⟩

/-- The plain loop returns the smaller of the sentinel and the true minimum. -/
theorem cornerLoopPlain_eq_min (det : float4) (vx vy vz : ℤ) :
    cornerLoopPlain det vx vy vz corners VERY_BIG = min VERY_BIG (minCornerD2 det vx vy vz) := by
  apply eq_of_forall_gt_iff
  intro t
  rw [cornerLoopPlain_lt_iff, min_lt_iff, minCornerD2_lt_iff]

theorem very_big_ge (w : ℚ) (hw0 : 0 ≤ w) (hw1 : w ≤ 100000) : w * w ≤ VERY_BIG := by
  unfold VERY_BIG
  nlinarith

/-- The plain loop keeps a voxel exactly when its smallest corner distance is
below the radius, for a radius whose square stays below the sentinel. -/
theorem plain_accepts_iff (det : float4) (vx vy vz : ℤ) (hw0 : 0 ≤ det.w)
    (hw1 : det.w ≤ 100000) :
    ¬ (cornerLoopPlain det vx vy vz corners VERY_BIG = VERY_BIG ∨
        det.w * det.w ≤ cornerLoopPlain det vx vy vz corners VERY_BIG) ↔
      minCornerD2 det vx vy vz < det.w * det.w := by
  have hvb := very_big_ge det.w hw0 hw1
  rw [cornerLoopPlain_eq_min]
  constructor
  · intro h
    have h2 : min VERY_BIG (minCornerD2 det vx vy vz) < det.w * det.w :=
      not_le.mp (fun hle => h (Or.inr hle))
    rcases min_lt_iff.mp h2 with h3 | h3
    · exact absurd h3 (not_lt.mpr hvb)
    · exact h3
  · intro h hor
    have h2 : min VERY_BIG (minCornerD2 det vx vy vz) < det.w * det.w :=
      min_lt_iff.mpr (Or.inr h)
    rcases hor with h3 | h3
    · rw [h3] at h2
      exact absurd h2 (not_lt.mpr hvb)
    · exact absurd h2 (not_lt.mpr h3)

/-- When the smallest corner distance is below the radius the loop of the
source never takes its early exit and returns that smallest distance. -/
theorem cornerLoop_eq_min (det : float4) (vx vy vz : ℤ) (hw0 : 0 ≤ det.w)
    (hw1 : det.w ≤ 100000) (h : minCornerD2 det vx vy vz < det.w * det.w) :
    (∀ c ∈ corners, cornerD2 det vx vy vz c ≤
        (det.w + 17321 / 10000) * (det.w + 17321 / 10000)) ∧
      cornerLoop ((det.w + 17321 / 10000) * (det.w + 17321 / 10000)) det vx vy vz corners
        VERY_BIG = minCornerD2 det vx vy vz ∧
      minCornerD2 det vx vy vz < VERY_BIG := by
  obtain ⟨c, hc, hlt⟩ := (minCornerD2_lt_iff det vx vy vz _).mp h
  have hall := corners_within_d2max det vx vy vz hw0 c hc hlt
  have hvb := very_big_ge det.w hw0 hw1
  have hlt2 : minCornerD2 det vx vy vz < VERY_BIG := lt_of_lt_of_le h hvb
  refine ⟨hall, ?_, hlt2⟩
  rw [cornerLoop_eq_plain _ det vx vy vz corners VERY_BIG hall, cornerLoopPlain_eq_min]
  exact min_eq_right (le_of_lt hlt2)

theorem loop_accepts_iff (det : float4) (vx vy vz : ℤ) (hw0 : 0 ≤ det.w)
    (hw1 : det.w ≤ 100000) :
    ¬ (cornerLoop ((det.w + 17321 / 10000) * (det.w + 17321 / 10000)) det vx vy vz corners
          VERY_BIG = VERY_BIG ∨
        det.w * det.w ≤ cornerLoop ((det.w + 17321 / 10000) * (det.w + 17321 / 10000)) det
          vx vy vz corners VERY_BIG) ↔
      minCornerD2 det vx vy vz < det.w * det.w := by
  constructor
  · intro h
    by_contra hmin
    rw [minCornerD2_lt_iff] at hmin
    apply h
    rcases cornerLoop_cases ((det.w + 17321 / 10000) * (det.w + 17321 / 10000)) det vx vy vz
      corners VERY_BIG with h1 | h1 | ⟨c, hc, h1⟩
    · exact Or.inl h1
    · exact Or.inl h1
    · right
      rw [h1]
      exact not_lt.mp (fun hlt => hmin ⟨c, hc, hlt⟩)
  · intro h
    obtain ⟨_, heq, hlt⟩ := cornerLoop_eq_min det vx vy vz hw0 hw1 h
    rw [heq]
    rintro (h1 | h1)
    · exact absurd h1 (ne_of_lt hlt)
    · exact absurd h (not_lt.mpr h1)

theorem cornerAccepted_iff_min (det : float4) (ix iy iz : ℚ) (hw0 : 0 ≤ det.w)
    (hw1 : det.w ≤ 100000) :
    cornerAccepted det ix iy iz = true ↔
      minCornerD2 det (cTrunc ix) (cTrunc iy) (cTrunc iz) < det.w * det.w := by
  unfold cornerAccepted mind2Of
  rw [decide_eq_true_iff]
  exact loop_accepts_iff det _ _ _ hw0 hw1

theorem cornerAccepted_eq_plain (det : float4) (ix iy iz : ℚ) (hw0 : 0 ≤ det.w)
    (hw1 : det.w ≤ 100000) :
    cornerAccepted det ix iy iz = cornerAcceptedPlain det ix iy iz := by
  rw [Bool.eq_iff_iff, cornerAccepted_iff_min det ix iy iz hw0 hw1]
  unfold cornerAcceptedPlain
  rw [decide_eq_true_iff]
  exact (plain_accepts_iff det _ _ _ hw0 hw1).symm

theorem maskdet_detector_eq_plain (dim : uint3) (pv : List Nat) (det : float4)
    (vol : List Nat) (hw0 : 0 ≤ det.w) (hw1 : det.w ≤ 100000) :
    maskdet_detectorPlain dim pv det vol = maskdet_detector dim pv det vol := by
  have hs : (fun z y x => maskdet_samplePlain dim pv det x y z) =
      (fun z y x => maskdet_sample dim pv det x y z) := by
    funext z y x st
    unfold maskdet_samplePlain maskdet_sample sampleAcceptedPlain sampleAccepted
    rw [cornerAccepted_eq_plain det _ _ _ hw0 hw1]
  unfold maskdet_detectorPlain maskdet_detector
  have h2 : ∀ z y, (fun x => maskdet_samplePlain dim pv det x y z) =
      (fun x => maskdet_sample dim pv det x y z) := fun z y => congrFun (congrFun hs z) y
  simp only [h2]

theorem maskdet_step_eq_plain (cfg : Config) (pv : List Nat) (acc : MaskOut) (det : float4)
    (hw0 : 0 ≤ det.w) (hw1 : det.w ≤ 100000) :
    maskdet_stepPlain cfg pv acc det = maskdet_step cfg pv acc det := by
  simp only [maskdet_stepPlain, maskdet_step, maskdet_detector_eq_plain cfg.dim pv det acc.vol hw0 hw1]

theorem foldl_step_eq_plain (cfg : Config) (pv : List Nat) (dets : List float4)
    (hw : ∀ det ∈ dets, 0 ≤ det.w ∧ det.w ≤ 100000) (acc : MaskOut) :
    dets.foldl (maskdet_stepPlain cfg pv) acc = dets.foldl (maskdet_step cfg pv) acc := by
  induction dets generalizing acc with
  | nil => rw [List.foldl_nil, List.foldl_nil]
  | cons d t ih =>
    have hd := hw d (List.mem_cons_self _ _)
    rw [List.foldl_cons, List.foldl_cons, maskdet_step_eq_plain cfg pv acc d hd.1 hd.2]
    exact ih (fun det hdet => hw det (List.mem_cons_of_mem _ hdet)) _

/-- Claim C27. For detectors of radius `0 ≤ w ≤ 100000`: a voxel whose smallest
squared corner distance is below `w*w` has all 8 corners within
`d2max = (w+1.7321)²`, the corner loop of the source then returns that smallest
distance and not the sentinel `VERY_BIG`; the loop with its early exit and
sentinel accepts a voxel exactly when the smallest of the 8 squared corner
distances is below `w*w`, which is also the verdict of the loop without the
early exit; and `mcx_maskdet` with the early exit taken out of the loop
produces the same volume, counters and warnings. -/
theorem corner_loop_is_minimum_test (cfg : Config)
    (hw : ∀ det ∈ cfg.detpos, 0 ≤ det.w ∧ det.w ≤ 100000) :
    (∀ det ∈ cfg.detpos, ∀ vx vy vz : ℤ,
      (minCornerD2 det vx vy vz < det.w * det.w →
        (∀ c ∈ corners, cornerD2 det vx vy vz c ≤
          (det.w + 17321 / 10000) * (det.w + 17321 / 10000)) ∧
        cornerLoop ((det.w + 17321 / 10000) * (det.w + 17321 / 10000)) det vx vy vz corners
          VERY_BIG = minCornerD2 det vx vy vz ∧
        minCornerD2 det vx vy vz < VERY_BIG) ∧
      (¬ (cornerLoop ((det.w + 17321 / 10000) * (det.w + 17321 / 10000)) det vx vy vz corners
            VERY_BIG = VERY_BIG ∨
          det.w * det.w ≤ cornerLoop ((det.w + 17321 / 10000) * (det.w + 17321 / 10000)) det
            vx vy vz corners VERY_BIG) ↔
        minCornerD2 det vx vy vz < det.w * det.w) ∧
      (¬ (cornerLoopPlain det vx vy vz corners VERY_BIG = VERY_BIG ∨
          det.w * det.w ≤ cornerLoopPlain det vx vy vz corners VERY_BIG) ↔
        minCornerD2 det vx vy vz < det.w * det.w)) ∧
    (∀ det ∈ cfg.detpos, ∀ ix iy iz : ℚ,
      cornerAccepted det ix iy iz = cornerAcceptedPlain det ix iy iz) ∧
    mcx_maskdetPlain cfg = mcx_maskdet cfg := by
  refine ⟨?_, ?_, ?_⟩
  · intro det hdet vx vy vz
    obtain ⟨h0, h1⟩ := hw det hdet
    exact ⟨cornerLoop_eq_min det vx vy vz h0 h1, loop_accepts_iff det vx vy vz h0 h1,
      plain_accepts_iff det vx vy vz h0 h1⟩
  · intro det hdet ix iy iz
    obtain ⟨h0, h1⟩ := hw det hdet
    exact cornerAccepted_eq_plain det ix iy iz h0 h1
  · unfold mcx_maskdetPlain mcx_maskdet
    rw [foldl_step_eq_plain cfg _ cfg.detpos hw]

theorem corner_loop_is_minimum_test_witness :
    (∀ det ∈ unitCfg.detpos, 0 ≤ det.w ∧ det.w ≤ 100000) ∧
      minCornerD2 ⟨0, 0, 0, 1 / 4⟩ 0 0 0 < (1 / 4 : ℚ) * (1 / 4) ∧
      cornerLoop (((1 / 4 : ℚ) + 17321 / 10000) * ((1 / 4 : ℚ) + 17321 / 10000))
        ⟨0, 0, 0, 1 / 4⟩ 0 0 0 corners VERY_BIG = minCornerD2 ⟨0, 0, 0, 1 / 4⟩ 0 0 0 ∧
      mcx_maskdetPlain unitCfg = mcx_maskdet unitCfg := by
  have hw : ∀ det ∈ unitCfg.detpos, 0 ≤ det.w ∧ det.w ≤ 100000 := by
    intro det hdet
    simp only [unitCfg, List.mem_singleton] at hdet
    subst hdet
    constructor <;> norm_num
  have hmin : minCornerD2 ⟨0, 0, 0, 1 / 4⟩ 0 0 0 < (1 / 4 : ℚ) * (1 / 4) := by
    rw [minCornerD2_lt_iff]
    exact ⟨(0, 0, 0), by simp [corners], by simp [cornerD2]⟩
  have h := corner_loop_is_minimum_test unitCfg hw
  exact ⟨hw, hmin,
    ((h.1 ⟨0, 0, 0, 1 / 4⟩ (by simp [unitCfg]) 0 0 0).1 hmin).2.1, h.2.2⟩

/-! ## Completeness of the scan -/

theorem mem_scanAxis (w x : ℚ) :
    x ∈ scanAxis w ↔ ∃ k : Nat, k < scanFuel w ∧ x = -w - 1 + (k : ℚ) / 2 := by
  unfold scanAxis
  rw [List.mem_map]
  constructor
  · rintro ⟨k, hk, rfl⟩
    exact ⟨k, List.mem_range.mp hk, rfl⟩
  · rintro ⟨k, hk, rfl⟩
    exact ⟨k, List.mem_range.mpr hk, rfl⟩

theorem mem_samplePoints (w : ℚ) (p : ℚ × ℚ × ℚ) :
    p ∈ samplePoints w ↔ p.1 ∈ scanAxis w ∧ p.2.1 ∈ scanAxis w ∧ p.2.2 ∈ scanAxis w := by
  obtain ⟨x, y, z⟩ := p
  unfold samplePoints
  simp only [List.mem_flatMap, List.mem_map, Prod.mk.injEq]
  constructor
  · rintro ⟨z', hz', y', hy', x', hx', rfl, rfl, rfl⟩
    exact ⟨hx', hy', hz'⟩
  · rintro ⟨hx, hy, hz⟩
    exact ⟨z, hz, y, hy, x, hx, rfl, rfl, rfl⟩

/-- The scan lattice of one axis has a point in every half-open interval of
length one half. -/
theorem lattice_point (c w L : ℚ) :
    ∃ k : ℤ, L ≤ -w - 1 + (k : ℚ) / 2 + c ∧ -w - 1 + (k : ℚ) / 2 + c < L + 1 / 2 := by
  refine ⟨⌈2 * (L - c + w + 1)⌉, ?_, ?_⟩
  · have h := Int.le_ceil (2 * (L - c + w + 1))
    linarith
  · have h := Int.ceil_lt_add_one (2 * (L - c + w + 1))
    linarith

/-- On one axis: a lattice point inside the voxel `v` and within one half of
the corner `v + b`. -/
theorem axis_sample (c w : ℚ) (v : Nat) (b : ℚ) (hb : b = 0 ∨ b = 1) :
    ∃ k : ℤ, (v : ℚ) ≤ -w - 1 + (k : ℚ) / 2 + c ∧ -w - 1 + (k : ℚ) / 2 + c < (v : ℚ) + 1 ∧
      (-w - 1 + (k : ℚ) / 2 - ((v : ℚ) - c + b)) * (-w - 1 + (k : ℚ) / 2 - ((v : ℚ) - c + b))
        ≤ 1 / 4 := by
  obtain ⟨k, h1, h2⟩ := lattice_point c w ((v : ℚ) + b / 2)
  refine ⟨k, ?_, ?_, ?_⟩
  · rcases hb with rfl | rfl <;> linarith
  · rcases hb with rfl | rfl <;> linarith
  · rcases hb with rfl | rfl <;> nlinarith

/-- A lattice offset of absolute value at most `w + 1` is a value of the scan
variable. -/
theorem lattice_mem_scanAxis (w : ℚ) (k : ℤ)
    (hlo : -(w + 1) ≤ -w - 1 + (k : ℚ) / 2) (hhi : -w - 1 + (k : ℚ) / 2 ≤ w + 1) :
    -w - 1 + (k : ℚ) / 2 ∈ scanAxis w := by
  have hk0 : (0 : ℚ) ≤ (k : ℚ) := by linarith
  have hk0' : 0 ≤ k := by exact_mod_cast hk0
  have hk1 : (k : ℚ) ≤ 4 * (w + 1) := by linarith
  have hk1' : k ≤ ⌊4 * (w + 1)⌋ := Int.le_floor.mpr hk1
  rw [mem_scanAxis]
  refine ⟨k.toNat, ?_, ?_⟩
  · unfold scanFuel
    omega
  · have hc : ((k.toNat : ℕ) : ℚ) = (k : ℚ) := by
      have h := Int.toNat_of_nonneg hk0'
      exact_mod_cast congrArg (fun t : ℤ => (t : ℚ)) h
    rw [hc]

theorem abs_bound_of_sq (x r : ℚ) (hr : 0 ≤ r) (h : x * x ≤ r * r) : -r ≤ x ∧ x ≤ r := by
  constructor
  · by_contra hlt
    rw [not_le] at hlt
    nlinarith
  · by_contra hlt
    rw [not_le] at hlt
    nlinarith

theorem sq_parts_le (X Y Z R : ℚ) (h : X * X + Y * Y + Z * Z ≤ R) :
    X * X ≤ R ∧ Y * Y ≤ R ∧ Z * Z ≤ R := by
  have hX := mul_self_nonneg X
  have hY := mul_self_nonneg Y
  have hZ := mul_self_nonneg Z
  exact ⟨by linarith, by linarith, by linarith⟩

theorem cTrunc_in_voxel (s : ℚ) (v : Nat) (h0 : (v : ℚ) ≤ s) (h1 : s < (v : ℚ) + 1) :
    cTrunc s = (v : ℤ) ∧ cTrunc (s + 1) = (v : ℤ) + 1 := by
  have hs : 0 ≤ s := le_trans (Nat.cast_nonneg v) h0
  have hs1 : 0 ≤ s + 1 := by linarith
  unfold cTrunc
  rw [if_pos hs, if_pos hs1]
  constructor
  · rw [Int.floor_eq_iff]
    exact ⟨by exact_mod_cast h0, by exact_mod_cast h1⟩
  · rw [Int.floor_eq_iff]
    push_cast
    constructor <;> linarith

/-- Every voxel of the domain that has a corner nearer than `w` to the detector
centre contains a sample point of the scan, which passes the test of lines
907-908 and addresses that voxel. -/
theorem exists_sample_in_voxel (dim : uint3) (det : float4) (vx vy vz : Nat)
    (hw0 : 0 ≤ det.w) (hx : vx < dim.x) (hy : vy < dim.y) (hz : vz < dim.z)
    (hmin : minCornerD2 det vx vy vz < det.w * det.w) :
    ∃ p ∈ samplePoints det.w, sampleRejected dim det p.1 p.2.1 p.2.2 = false ∧
      ((vx : ℚ) ≤ p.1 + det.x ∧ p.1 + det.x < (vx : ℚ) + 1) ∧
      ((vy : ℚ) ≤ p.2.1 + det.y ∧ p.2.1 + det.y < (vy : ℚ) + 1) ∧
      ((vz : ℚ) ≤ p.2.2 + det.z ∧ p.2.2 + det.z < (vz : ℚ) + 1) := by
  obtain ⟨c, hc, hlt⟩ := (minCornerD2_lt_iff det vx vy vz _).mp hmin
  obtain ⟨b1, b2, b3⟩ := corner_bits c hc
  obtain ⟨kx, hx0, hx1, hxe⟩ := axis_sample det.x det.w vx c.1 b1
  obtain ⟨ky, hy0, hy1, hye⟩ := axis_sample det.y det.w vy c.2.1 b2
  obtain ⟨kz, hz0, hz1, hze⟩ := axis_sample det.z det.w vz c.2.2 b3
  have hsq := shift_sq_le ((vx : ℚ) - det.x + c.1) ((vy : ℚ) - det.y + c.2.1)
    ((vz : ℚ) - det.z + c.2.2)
    (-det.w - 1 + (kx : ℚ) / 2 - ((vx : ℚ) - det.x + c.1))
    (-det.w - 1 + (ky : ℚ) / 2 - ((vy : ℚ) - det.y + c.2.1))
    (-det.w - 1 + (kz : ℚ) / 2 - ((vz : ℚ) - det.z + c.2.2)) det.w 1 hw0 (by norm_num)
    (by
      have h := le_of_lt hlt
      unfold cornerD2 at h
      push_cast at h
      exact h)
    (by linarith)
  have r : ∀ a e : ℚ, a + (e - a) = e := fun a e => by ring
  rw [r, r, r] at hsq
  have hw1 : 0 ≤ det.w + 1 := by linarith
  obtain ⟨hxx, hyy, hzz⟩ := sq_parts_le _ _ _ _ hsq
  obtain ⟨ax0, ax1⟩ := abs_bound_of_sq _ _ hw1 hxx
  obtain ⟨ay0, ay1⟩ := abs_bound_of_sq _ _ hw1 hyy
  obtain ⟨az0, az1⟩ := abs_bound_of_sq _ _ hw1 hzz
  refine ⟨(-det.w - 1 + (kx : ℚ) / 2, -det.w - 1 + (ky : ℚ) / 2, -det.w - 1 + (kz : ℚ) / 2),
    ?_, ?_, ⟨hx0, hx1⟩, ⟨hy0, hy1⟩, ⟨hz0, hz1⟩⟩
  · rw [mem_samplePoints]
    exact ⟨lattice_mem_scanAxis _ _ ax0 ax1, lattice_mem_scanAxis _ _ ay0 ay1,
      lattice_mem_scanAxis _ _ az0 az1⟩
  · unfold sampleRejected
    rw [decide_eq_false_iff_not]
    have cx : ((vx : ℚ) + 1) ≤ (dim.x : ℚ) := by exact_mod_cast hx
    have cy : ((vy : ℚ) + 1) ≤ (dim.y : ℚ) := by exact_mod_cast hy
    have cz : ((vz : ℚ) + 1) ≤ (dim.z : ℚ) := by exact_mod_cast hz
    have nx : (0 : ℚ) ≤ (vx : ℚ) := Nat.cast_nonneg vx
    have ny : (0 : ℚ) ≤ (vy : ℚ) := Nat.cast_nonneg vy
    have nz : (0 : ℚ) ≤ (vz : ℚ) := Nat.cast_nonneg vz
    simp only
    rintro (h | h | h | h | h | h | h) <;> linarith

/-- A sample inside a voxel the detector is meant to flag passes every test. -/
theorem sample_in_coverable_accepted (dim : uint3) (vol : List Nat) (det : float4)
    (vx vy vz : Nat) (hw0 : 0 ≤ det.w) (hw1 : det.w ≤ 100000)
    (hcov : Coverable dim vol det vx vy vz) (x y z : ℚ)
    (hrej : sampleRejected dim det x y z = false)
    (hx : (vx : ℚ) ≤ x + det.x ∧ x + det.x < (vx : ℚ) + 1)
    (hy : (vy : ℚ) ≤ y + det.y ∧ y + det.y < (vy : ℚ) + 1)
    (hz : (vz : ℚ) ≤ z + det.z ∧ z + det.z < (vz : ℚ) + 1) :
    sampleAccepted dim (padvol dim vol) det x y z = true ∧
      volIdxOf dim (x + det.x) (y + det.y) (z + det.z) = vz * dim.y * dim.x + vy * dim.x + vx := by
  obtain ⟨bx, by', bz, hne, hnb, hmin⟩ := hcov
  obtain ⟨tx, tx1⟩ := cTrunc_in_voxel _ vx hx.1 hx.2
  obtain ⟨ty, ty1⟩ := cTrunc_in_voxel _ vy hy.1 hy.2
  obtain ⟨tz, tz1⟩ := cTrunc_in_voxel _ vz hz.1 hz.2
  have hpad : padIdxOf dim (x + det.x) (y + det.y) (z + det.z) =
      (vz + 1) * (dim.y + 2) * (dim.x + 2) + (vy + 1) * (dim.x + 2) + (vx + 1) := by
    unfold padIdxOf
    rw [tx1, ty1, tz1]
    have e : ∀ n : Nat, ((n : ℤ) + 1).toNat = n + 1 := fun n => by omega
    rw [e, e, e]
  have hvol : volIdxOf dim (x + det.x) (y + det.y) (z + det.z) =
      vz * dim.y * dim.x + vy * dim.x + vx := by
    unfold volIdxOf
    rw [tx, ty, tz]
    simp only [Int.toNat_ofNat]
  refine ⟨?_, hvol⟩
  unfold sampleAccepted
  rw [hrej, hpad]
  have hc : cornerAccepted det (x + det.x) (y + det.y) (z + det.z) = true := by
    rw [cornerAccepted_iff_min det _ _ _ hw0 hw1, tx, ty, tz]
    exact hmin
  have he : exposed (padvol dim vol) (dim.x + 2) (dim.y + 2)
      ((vz + 1) * (dim.y + 2) * (dim.x + 2) + (vy + 1) * (dim.x + 2) + (vx + 1)) = true := by
    rw [exposed_iff, padvol_interior dim vol vx vy vz bx by' bz]
    exact ⟨hne, hnb⟩
  rw [hc, he]
  rfl

/-- The index of every voxel a detector is meant to flag is among the indices
it writes. -/
theorem coverable_mem_detHits (dim : uint3) (vol : List Nat) (det : float4)
    (vx vy vz : Nat) (hw0 : 0 ≤ det.w) (hw1 : det.w ≤ 100000)
    (hcov : Coverable dim vol det vx vy vz) :
    vz * dim.y * dim.x + vy * dim.x + vx ∈ detHits dim (padvol dim vol) det := by
  obtain ⟨p, hp, hrej, hx, hy, hz⟩ := exists_sample_in_voxel dim det vx vy vz hw0
    hcov.1 hcov.2.1 hcov.2.2.1 hcov.2.2.2.2.2
  obtain ⟨hacc, hidx⟩ := sample_in_coverable_accepted dim vol det vx vy vz hw0 hw1 hcov
    p.1 p.2.1 p.2.2 hrej hx hy hz
  rw [mem_detHits]
  exact ⟨p, hp, hacc, hidx⟩

/-- The indices a detector writes are those of the voxels it is meant to
flag. -/
theorem mem_detHits_iff_coverable (dim : uint3) (vol : List Nat) (det : float4) (i : Nat)
    (hw0 : 0 ≤ det.w) (hw1 : det.w ≤ 100000) :
    i ∈ detHits dim (padvol dim vol) det ↔
      ∃ vx vy vz : Nat, Coverable dim vol det vx vy vz ∧
        i = vz * dim.y * dim.x + vy * dim.x + vx := by
  constructor
  · intro h
    obtain ⟨p, _, hacc, hidx⟩ := (mem_detHits dim _ det i).mp h
    obtain ⟨vx, vy, vz, hx, hy, hz, hv, _, hne, hnb, hmin⟩ :=
      accepted_spec dim vol det p.1 p.2.1 p.2.2 hacc
    exact ⟨vx, vy, vz, ⟨hx, hy, hz, hne, hnb, hmin⟩, by rw [← hidx, hv]⟩
  · rintro ⟨vx, vy, vz, hcov, rfl⟩
    exact coverable_mem_detHits dim vol det vx vy vz hw0 hw1 hcov

theorem testBit_lor_mask (b : Nat) : Nat.testBit (b ||| DET_MASK) 7 = true := by
  rw [Nat.testBit_or, Bool.or_eq_true]
  exact Or.inr (by decide)

theorem lor_mask_and_med (b : Nat) : (b ||| DET_MASK) &&& MED_MASK = b &&& MED_MASK := by
  apply Nat.eq_of_testBit_eq
  intro j
  rw [Nat.testBit_and, Nat.testBit_and, Nat.testBit_or]
  have h1 : Nat.testBit DET_MASK j = decide (7 = j) := by
    have h : (2 ^ 7).testBit j = decide (7 = j) := Nat.testBit_two_pow
    simpa [DET_MASK] using h
  have h2 : Nat.testBit MED_MASK j = decide (j < 7) := by
    have h : (2 ^ 7 - 1).testBit j = decide (j < 7) := Nat.testBit_two_pow_sub_one 7 j
    simpa [MED_MASK] using h
  rw [h1, h2]
  by_cases hj : j < 7
  · have : ¬ 7 = j := by omega
    simp [hj, this]
  · simp [hj]

/-- The frame of `mcx_maskdet` in exact arithmetic: every byte of the
volume it leaves is the byte before the call or that byte with `0x80` set; the
low 7 bits are those before the call, a set bit 7 stays set, a byte `0` stays
`0`, the length of the buffer is that before the call, and the dimensions are
not among what the function writes. -/
theorem mcx_maskdet_frame (cfg : Config) :
    (∀ i, (mcx_maskdet cfg).vol.getD i 0 = cfg.vol.getD i 0 ∨
      (mcx_maskdet cfg).vol.getD i 0 = cfg.vol.getD i 0 ||| DET_MASK) ∧
    (∀ i, (mcx_maskdet cfg).vol.getD i 0 &&& MED_MASK = cfg.vol.getD i 0 &&& MED_MASK) ∧
    (∀ i, Nat.testBit (cfg.vol.getD i 0) 7 = true →
      Nat.testBit ((mcx_maskdet cfg).vol.getD i 0) 7 = true) ∧
    (∀ i, cfg.vol.getD i 0 = 0 → (mcx_maskdet cfg).vol.getD i 0 = 0) ∧
    (mcx_maskdet cfg).vol.length = cfg.vol.length ∧
    ({ cfg with vol := (mcx_maskdet cfg).vol } : Config).dim = cfg.dim := by
  refine ⟨?_, ?_, ?_, ?_, mcx_maskdet_vol_length cfg, rfl⟩
  · intro i
    rw [mcx_maskdet_getD]
    split_ifs
    · exact Or.inr rfl
    · exact Or.inl rfl
  · intro i
    rw [mcx_maskdet_getD]
    split_ifs
    · exact lor_mask_and_med _
    · rfl
  · intro i h
    rw [mcx_maskdet_getD]
    split_ifs
    · exact testBit_lor_mask _
    · exact h
  · intro i h
    exact (mcx_maskdet_zero_iff cfg i).mpr h

theorem srcIdx_nonneg (cfg : Config) (hin : srcOutside cfg = false) :
    0 ≤ ⌊cfg.srcpos.z⌋ * (cfg.dim.y : ℤ) * (cfg.dim.x : ℤ) + ⌊cfg.srcpos.y⌋ * (cfg.dim.x : ℤ) +
      ⌊cfg.srcpos.x⌋ := by
  obtain ⟨⟨hx, _⟩, ⟨hy, _⟩, ⟨hz, _⟩⟩ := (srcOutside_false_iff cfg).mp hin
  have fx : 0 ≤ ⌊cfg.srcpos.x⌋ := Int.floor_nonneg.mpr hx
  have fy : 0 ≤ ⌊cfg.srcpos.y⌋ := Int.floor_nonneg.mpr hy
  have fz : 0 ≤ ⌊cfg.srcpos.z⌋ := Int.floor_nonneg.mpr hz
  have dx : (0 : ℤ) ≤ (cfg.dim.x : ℤ) := Int.natCast_nonneg _
  have dy : (0 : ℤ) ≤ (cfg.dim.y : ℤ) := Int.natCast_nonneg _
  positivity

/-- Index safety in exact arithmetic. For a sample that passes the test of lines
907-908 the index into the volume is below `dimx*dimy*dimz`, it is the index of
a voxel `(vx,vy,vz)` of the domain, the index `idx1d` into the padded copy is
that of the shifted position `(vx+1,vy+1,vz+1)`, it is large enough for none of
the 26 offsets to reach below `0`, and `idx1d` and the 26 neighbour indices are
below `dx*dy*dz`, with `dx=dimx+2`, `dy=dimy+2`, `dz=dimz+2`; for a source
position that passes the bounds test the integer
`floor(z)*dimy*dimx+floor(y)*dimx+floor(x)` is at least `0` and below
`dimx*dimy*dimz`. -/
theorem index_safety (dim : uint3) (det : float4) (x y z : ℚ) (cfg : Config)
    (hrej : sampleRejected dim det x y z = false) (hin : srcOutside cfg = false) :
    (volIdxOf dim (x + det.x) (y + det.y) (z + det.z) < dim.x * dim.y * dim.z ∧
      (∃ vx vy vz : Nat, vx < dim.x ∧ vy < dim.y ∧ vz < dim.z ∧
        cTrunc (x + det.x) = (vx : ℤ) ∧ cTrunc (y + det.y) = (vy : ℤ) ∧
        cTrunc (z + det.z) = (vz : ℤ) ∧
        volIdxOf dim (x + det.x) (y + det.y) (z + det.z) =
          vz * dim.y * dim.x + vy * dim.x + vx ∧
        padIdxOf dim (x + det.x) (y + det.y) (z + det.z) =
          (vz + 1) * (dim.y + 2) * (dim.x + 2) + (vy + 1) * (dim.x + 2) + (vx + 1)) ∧
      (dim.y + 2) * (dim.x + 2) + (dim.x + 2) + 1 ≤
        padIdxOf dim (x + det.x) (y + det.y) (z + det.z) ∧
      padIdxOf dim (x + det.x) (y + det.y) (z + det.z) <
        (dim.x + 2) * (dim.y + 2) * (dim.z + 2) ∧
      ∀ n ∈ neighbourIdx (dim.x + 2) (dim.y + 2)
          (padIdxOf dim (x + det.x) (y + det.y) (z + det.z)),
        n < (dim.x + 2) * (dim.y + 2) * (dim.z + 2)) ∧
    (0 ≤ ⌊cfg.srcpos.z⌋ * (cfg.dim.y : ℤ) * (cfg.dim.x : ℤ) +
        ⌊cfg.srcpos.y⌋ * (cfg.dim.x : ℤ) + ⌊cfg.srcpos.x⌋ ∧
      srcIdx cfg < cfg.dim.x * cfg.dim.y * cfg.dim.z) := by
  refine ⟨?_, srcIdx_nonneg cfg hin, srcIdx_lt cfg hin⟩
  obtain ⟨vx, vy, vz, hx, hy, hz, tx, ty, tz, hv, hp⟩ := sample_voxel dim det x y z hrej
  refine ⟨?_, ⟨vx, vy, vz, hx, hy, hz, tx, ty, tz, hv, hp⟩, ?_, ?_, ?_⟩
  · rw [hv]
    exact idx3_lt dim.x dim.y dim.z vx vy vz hx hy hz
  · rw [hp]
    have h1 : (dim.y + 2) * (dim.x + 2) ≤ (vz + 1) * (dim.y + 2) * (dim.x + 2) := by
      rw [Nat.mul_assoc]
      exact Nat.le_mul_of_pos_left _ (Nat.succ_pos vz)
    have h2 : dim.x + 2 ≤ (vy + 1) * (dim.x + 2) := Nat.le_mul_of_pos_left _ (Nat.succ_pos vy)
    omega
  · rw [hp]
    exact idx3_lt (dim.x + 2) (dim.y + 2) (dim.z + 2) (vx + 1) (vy + 1) (vz + 1)
      (by omega) (by omega) (by omega)
  · intro n hn
    rw [hp, neighbourIdx_eq, List.mem_map] at hn
    obtain ⟨⟨a, b, c⟩, hmem, rfl⟩ := hn
    obtain ⟨ha, hb, hc, _⟩ := (mem_neighbourOffsets a b c).mp hmem
    exact idx3_lt (dim.x + 2) (dim.y + 2) (dim.z + 2) (vx + a) (vy + b) (vz + c)
      (by omega) (by omega) (by omega)

theorem index_safety_witness :
    (sampleRejected unitCfg.dim ⟨0, 0, 0, 1 / 4⟩ 0 0 0 = false ∧ srcOutside unitCfg = false) ∧
      volIdxOf unitCfg.dim ((0 : ℚ) + 0) ((0 : ℚ) + 0) ((0 : ℚ) + 0) <
        unitCfg.dim.x * unitCfg.dim.y * unitCfg.dim.z ∧
      srcIdx unitCfg < unitCfg.dim.x * unitCfg.dim.y * unitCfg.dim.z :=
  ⟨⟨by decide, by decide⟩,
    (index_safety unitCfg.dim ⟨0, 0, 0, 1 / 4⟩ 0 0 0 unitCfg (by decide) (by decide)).1.1,
    (index_safety unitCfg.dim ⟨0, 0, 0, 1 / 4⟩ 0 0 0 unitCfg (by decide) (by decide)).2.2⟩

/-! ## Termination of the source walk and the order of the stages -/

/-- When the source is outside the domain after `J` steps, the loop started
inside the domain ends within `J` iterations: with the error, or on a nonzero
voxel after fewer than `J` steps. -/
theorem srcLoop_stops (J : Nat) : ∀ (fuel : Nat) (cfg : Config), srcOutside cfg = false →
    srcOutside (srcAt cfg J) = true → J ≤ fuel →
    srcLoop fuel cfg =
        some (PrepResult.error (-4) "searching non-zero voxel failed along the incident vector") ∨
      ∃ k, k < J ∧ srcLoop fuel cfg = some (PrepResult.ok (srcAt cfg k)) ∧
        cfg.vol.getD (srcIdx (srcAt cfg k)) 0 ≠ 0 := by
  induction J with
  | zero =>
    intro fuel cfg hin hout _
    rw [srcAt_zero, hin] at hout
    exact absurd hout (by simp)
  | succ J ih =>
    intro fuel cfg hin hout hfuel
    obtain ⟨f, rfl⟩ : ∃ f, fuel = f + 1 := ⟨fuel - 1, by omega⟩
    by_cases hz : cfg.vol.getD (srcIdx cfg) 0 = 0
    · by_cases ho : srcOutside (srcAdvance cfg) = true
      · left
        unfold srcLoop
        rw [if_pos hz, if_pos ho]
      · have ho' : srcOutside (srcAdvance cfg) = false := by
          cases h : srcOutside (srcAdvance cfg)
          · rfl
          · exact absurd h ho
        have hstep : srcLoop (f + 1) cfg = srcLoop f (srcAdvance cfg) := by
          conv_lhs => unfold srcLoop
          rw [if_pos hz, if_neg ho]
        have hout' : srcOutside (srcAt (srcAdvance cfg) J) = true := by
          rw [srcAt_advance]
          exact hout
        rcases ih f (srcAdvance cfg) ho' hout' (by omega) with h | ⟨k, hk, h, hv⟩
        · left
          rw [hstep, h]
        · right
          refine ⟨k + 1, by omega, ?_, ?_⟩
          · rw [hstep, h, srcAt_advance]
          · rw [srcAt_advance] at hv
            exact hv
    · right
      refine ⟨0, by omega, ?_, ?_⟩
      · rw [srcAt_zero]
        exact srcLoop_of_nonzero _ cfg hz
      · rw [srcAt_zero]
        exact hz

/-- Claim C25. Termination of the source walk, over the rationals: for a source
inside the domain and a direction with a nonzero component there is a step
count `J ≥ 1` after which the position is outside the domain, and for every
such `J` the relocation loop, given room for `J` iterations, ends: either with
the error "searching non-zero voxel failed along the incident vector" or on a
nonzero voxel reached after fewer than `J` steps; the same holds for source
placement as a whole. -/
theorem source_walk_terminates (cfg : Config) (hin : srcOutside cfg = false)
    (hdir : cfg.srcdir.x ≠ 0 ∨ cfg.srcdir.y ≠ 0 ∨ cfg.srcdir.z ≠ 0) :
    (∃ J : Nat, 1 ≤ J ∧ srcOutside (srcAt cfg J) = true) ∧
    ∀ J : Nat, srcOutside (srcAt cfg J) = true → ∀ fuel, J ≤ fuel →
      (srcLoop fuel cfg =
          some (PrepResult.error (-4)
            "searching non-zero voxel failed along the incident vector") ∨
        ∃ k, k < J ∧ srcLoop fuel cfg = some (PrepResult.ok (srcAt cfg k)) ∧
          cfg.vol.getD (srcIdx (srcAt cfg k)) 0 ≠ 0) ∧
      (mcx_prepdomain_source fuel cfg =
          some (PrepResult.error (-4)
            "searching non-zero voxel failed along the incident vector") ∨
        ∃ k, k < J ∧ mcx_prepdomain_source fuel cfg = some (PrepResult.ok (srcAt cfg k)) ∧
          cfg.vol.getD (srcIdx (srcAt cfg k)) 0 ≠ 0) := by
  refine ⟨exists_step_outside cfg hdir, ?_⟩
  intro J hJ fuel hfuel
  have h := srcLoop_stops J fuel cfg hin hJ hfuel
  refine ⟨h, ?_⟩
  unfold mcx_prepdomain_source
  rw [hin]
  by_cases hz : cfg.vol.getD (srcIdx cfg) 0 = 0
  · simp only [Bool.false_eq_true, if_false, if_pos hz]
    exact h
  · simp only [Bool.false_eq_true, if_false, if_neg hz]
    have hJ0 : 0 < J := by
      rcases Nat.eq_zero_or_pos J with h0 | h0
      · rw [h0, srcAt_zero, hin] at hJ
        exact absurd hJ (by simp)
      · exact h0
    right
    refine ⟨0, hJ0, ?_, ?_⟩
    · rw [srcAt_zero]
    · rw [srcAt_zero]
      exact hz

theorem source_walk_terminates_witness :
    (srcOutside columnCfg = false ∧
        (columnCfg.srcdir.x ≠ 0 ∨ columnCfg.srcdir.y ≠ 0 ∨ columnCfg.srcdir.z ≠ 0) ∧
        srcOutside (srcAt columnCfg 3) = true) ∧
      (srcLoop 3 columnCfg =
          some (PrepResult.error (-4)
            "searching non-zero voxel failed along the incident vector") ∨
        ∃ k, k < 3 ∧ srcLoop 3 columnCfg = some (PrepResult.ok (srcAt columnCfg k)) ∧
          columnCfg.vol.getD (srcIdx (srcAt columnCfg k)) 0 ≠ 0) :=
  ⟨⟨by decide, Or.inr (Or.inr (by decide)), by decide⟩,
    ((source_walk_terminates columnCfg (by decide) (Or.inr (Or.inr (by decide)))).2 3
      (by decide) 3 (le_refl 3)).1⟩

theorem srcLoop_eq_srcAt (fuel : Nat) : ∀ (cfg cfg' : Config),
    srcLoop fuel cfg = some (PrepResult.ok cfg') → ∃ k, cfg' = srcAt cfg k := by
  induction fuel with
  | zero =>
    intro cfg cfg' h
    unfold srcLoop at h
    by_cases hz : cfg.vol.getD (srcIdx cfg) 0 = 0
    · rw [if_pos hz] at h
      exact absurd h (by simp)
    · rw [if_neg hz] at h
      refine ⟨0, ?_⟩
      rw [srcAt_zero]
      simpa using h.symm
  | succ f ih =>
    intro cfg cfg' h
    unfold srcLoop at h
    by_cases hz : cfg.vol.getD (srcIdx cfg) 0 = 0
    · rw [if_pos hz] at h
      by_cases ho : srcOutside (srcAdvance cfg) = true
      · rw [if_pos ho] at h
        exact absurd h (by simp)
      · rw [if_neg ho] at h
        obtain ⟨k, hk⟩ := ih (srcAdvance cfg) cfg' h
        exact ⟨k + 1, by rw [hk, srcAt_advance]⟩
    · rw [if_neg hz] at h
      refine ⟨0, ?_⟩
      rw [srcAt_zero]
      simpa using h.symm

theorem mcx_prepdomain_source_eq_srcAt (fuel : Nat) (cfg cfg' : Config)
    (h : mcx_prepdomain_source fuel cfg = some (PrepResult.ok cfg')) :
    ∃ k, cfg' = srcAt cfg k := by
  unfold mcx_prepdomain_source at h
  by_cases ho : srcOutside cfg = true
  · rw [if_pos ho] at h
    exact absurd h (by simp)
  · rw [if_neg ho] at h
    by_cases hz : cfg.vol.getD (srcIdx cfg) 0 = 0
    · rw [if_pos hz] at h
      exact srcLoop_eq_srcAt fuel cfg cfg' h
    · rw [if_neg hz] at h
      refine ⟨0, ?_⟩
      rw [srcAt_zero]
      simpa using h.symm

/-- The source walk reads the volume only through the test `vol[idx1d]==0`:
on a volume with the same zero bytes it takes the same steps. -/
theorem srcLoop_zero_congr (v : List Nat) (fuel : Nat) : ∀ (cfg : Config),
    (∀ j, v.getD j 0 = 0 ↔ cfg.vol.getD j 0 = 0) →
    srcLoop fuel { cfg with vol := v } = (srcLoop fuel cfg).map (withVol v) := by
  induction fuel with
  | zero =>
    intro cfg hv
    unfold srcLoop
    have e : srcIdx { cfg with vol := v } = srcIdx cfg := rfl
    by_cases hz : cfg.vol.getD (srcIdx cfg) 0 = 0
    · have hz' : v.getD (srcIdx cfg) 0 = 0 := (hv _).mpr hz
      simp only [e, hz, hz', if_true, Option.map_none']
    · have hz' : ¬ v.getD (srcIdx cfg) 0 = 0 := fun h => hz ((hv _).mp h)
      simp only [e, hz, hz', if_false, Option.map_some', withVol]
  | succ f ih =>
    intro cfg hv
    unfold srcLoop
    have e : srcIdx { cfg with vol := v } = srcIdx cfg := rfl
    have ea : srcAdvance { cfg with vol := v } = { srcAdvance cfg with vol := v } := rfl
    have eo : srcOutside { srcAdvance cfg with vol := v } = srcOutside (srcAdvance cfg) := rfl
    by_cases hz : cfg.vol.getD (srcIdx cfg) 0 = 0
    · have hz' : v.getD (srcIdx cfg) 0 = 0 := (hv _).mpr hz
      simp only [e, ea, eo, hz, hz', if_true]
      by_cases ho : srcOutside (srcAdvance cfg) = true
      · simp only [ho, if_true, Option.map_some', withVol]
      · simp only [ho, if_false]
        exact ih (srcAdvance cfg) hv
    · have hz' : ¬ v.getD (srcIdx cfg) 0 = 0 := fun h => hz ((hv _).mp h)
      simp only [e, hz, hz', if_false, Option.map_some', withVol]

theorem mcx_prepdomain_source_zero_congr (v : List Nat) (fuel : Nat) (cfg : Config)
    (hv : ∀ j, v.getD j 0 = 0 ↔ cfg.vol.getD j 0 = 0) :
    mcx_prepdomain_source fuel { cfg with vol := v } =
      (mcx_prepdomain_source fuel cfg).map (withVol v) := by
  unfold mcx_prepdomain_source
  have e : srcIdx { cfg with vol := v } = srcIdx cfg := rfl
  have eo : srcOutside { cfg with vol := v } = srcOutside cfg := rfl
  by_cases ho : srcOutside cfg = true
  · simp only [eo, ho, if_true, Option.map_some', withVol]
  · simp only [eo, ho, if_false]
    by_cases hz : cfg.vol.getD (srcIdx cfg) 0 = 0
    · have hz' : v.getD (srcIdx cfg) 0 = 0 := (hv _).mpr hz
      simp only [e, hz, hz', if_true, Bool.false_eq_true, if_false]
      exact srcLoop_zero_congr v fuel cfg hv
    · have hz' : ¬ v.getD (srcIdx cfg) 0 = 0 := fun h => hz ((hv _).mp h)
      simp only [e, hz, hz', if_false, Option.map_some', withVol, Bool.false_eq_true]

/-- The detector mask does not read the source position. -/
theorem mcx_maskdet_srcAt (cfg : Config) (k : Nat) :
    mcx_maskdet (srcAt cfg k) = mcx_maskdet cfg := by
  rw [mcx_maskdet_eq, mcx_maskdet_eq]
  rfl

/-- The order of the stages in exact arithmetic. With mask dumping off, lines
274-296 of `mcx_prepdomain`, which
run `mcx_maskdet` and then place the source on the flagged volume, end as the
other order of the two stages does, placing the source on the volume as loaded
and running `mcx_maskdet` on the configuration that leaves: same error, or same
source position and same flagged volume (and the same way of running out of
fuel). -/
theorem stage_order_irrelevant (fuel : Nat) (cfg : Config) (hdump : cfg.isdumpmask = false) :
    mcx_prepdomain_tail fuel cfg = prepdomain_source_then_mask fuel cfg := by
  have hex : ∀ c : Config, c.isdumpmask = false → (mcx_maskdet c).exited = false := by
    intro c hc
    rw [mcx_maskdet_eq]
    exact hc
  unfold mcx_prepdomain_tail prepdomain_source_then_mask
  by_cases hs : cfg.issavedet = true
  · rw [if_pos hs, hex cfg hdump]
    simp only [Bool.false_eq_true, if_false]
    rw [mcx_prepdomain_source_zero_congr _ fuel cfg (mcx_maskdet_zero_iff cfg)]
    cases hr : mcx_prepdomain_source fuel cfg with
    | none => rfl
    | some r =>
      cases r with
      | ok c =>
        obtain ⟨k, rfl⟩ := mcx_prepdomain_source_eq_srcAt fuel cfg c hr
        have h1 : (srcAt cfg k).issavedet = true := hs
        have h2 : (mcx_maskdet (srcAt cfg k)).exited = false := hex _ hdump
        simp only [Option.map_some', withVol, h1, h2, hex cfg hdump, if_true,
          Bool.false_eq_true, if_false, mcx_maskdet_srcAt]
      | error id msg => rfl
      | exited => rfl
  · rw [if_neg hs]
    cases hr : mcx_prepdomain_source fuel cfg with
    | none => rfl
    | some r =>
      cases r with
      | ok c =>
        obtain ⟨k, rfl⟩ := mcx_prepdomain_source_eq_srcAt fuel cfg c hr
        have h1 : ¬ (srcAt cfg k).issavedet = true := hs
        simp only [h1, if_false, Bool.false_eq_true]
      | error id msg => rfl
      | exited => rfl

theorem stage_order_irrelevant_witness :
    columnCfg.isdumpmask = false ∧
      mcx_prepdomain_tail 2 columnCfg = prepdomain_source_then_mask 2 columnCfg ∧
      prepdomain_source_then_mask 2 columnCfg = some (PrepResult.ok columnPlaced) :=
  ⟨rfl, stage_order_irrelevant 2 columnCfg rfl, by decide⟩

/-! ## Counting the accepted samples of a product scan -/

theorem countP_flatMap_sum {α β : Type} (p : β → Bool) (g : α → List β) (B : List α) :
    (B.flatMap g).countP p = (B.map (fun b => (g b).countP p)).sum := by
  induction B with
  | nil => rfl
  | cons b t ih =>
    rw [List.flatMap_cons, List.countP_append, ih, List.map_cons, List.sum_cons]

theorem sum_map_ite_const {α : Type} (Q : α → Bool) (c : Nat) (B : List α) :
    (B.map (fun y => if Q y = true then c else 0)).sum = B.countP Q * c := by
  induction B with
  | nil => simp
  | cons b t ih =>
    rw [List.map_cons, List.sum_cons, ih, List.countP_cons]
    by_cases hq : Q b = true
    · rw [if_pos hq, if_pos hq]
      ring
    · rw [if_neg hq, if_neg hq]
      ring

theorem countP_and_const {α : Type} (P : α → Bool) (b : Bool) (A : List α) :
    A.countP (fun x => P x && b) = if b = true then A.countP P else 0 := by
  cases b
  · simp
  · simp

/-- The number of points of a product scan that pass a test made of one test
per axis is the product of the numbers of values passing on each axis. -/
theorem product_scan_count (A : List ℚ) (P Q R : ℚ → Bool) :
    ((A.flatMap (fun z => A.flatMap (fun y => A.map (fun x => (x, y, z))))).filter
      (fun p => P p.1 && Q p.2.1 && R p.2.2)).length =
      A.countP P * A.countP Q * A.countP R := by
  rw [← List.countP_eq_length_filter, countP_flatMap_sum]
  have inner : ∀ z y : ℚ,
      (A.map (fun x => (x, y, z))).countP (fun p => P p.1 && Q p.2.1 && R p.2.2) =
        if (Q y && R z) = true then A.countP P else 0 := by
    intro z y
    rw [List.countP_map]
    have e : ((fun p : ℚ × ℚ × ℚ => P p.1 && Q p.2.1 && R p.2.2) ∘ fun x => (x, y, z)) =
        fun x => P x && (Q y && R z) := by
      funext x
      simp [Bool.and_assoc]
    rw [e, countP_and_const]
  have middle : ∀ z : ℚ,
      (A.flatMap (fun y => A.map (fun x => (x, y, z)))).countP
          (fun p => P p.1 && Q p.2.1 && R p.2.2) =
        if R z = true then A.countP Q * A.countP P else 0 := by
    intro z
    rw [countP_flatMap_sum]
    simp only [inner]
    by_cases hr : R z = true
    · simp only [hr, Bool.and_true, if_true]
      exact sum_map_ite_const Q _ A
    · have hr' : R z = false := by
        cases h : R z
        · rfl
        · exact absurd h hr
      simp [hr']
  simp only [middle]
  rw [sum_map_ite_const R _ A]
  ring

theorem scanFuel_1000 : scanFuel 1000 = 4005 := by
  unfold scanFuel
  have h : ⌊(4 : ℚ) * (1000 + 1)⌋ = 4004 := by
    rw [Int.floor_eq_iff]
    constructor <;> norm_num
  rw [h]
  rfl

theorem wrapIn_lattice (k : Nat) :
    wrapIn (-1000 - 1 + (k : ℚ) / 2) = decide (978 ≤ k ∧ k < 3026) := by
  unfold wrapIn
  rw [Bool.eq_iff_iff, decide_eq_true_iff, decide_eq_true_iff]
  constructor
  · rintro ⟨h0, h1⟩
    have a : (978 : ℚ) ≤ (k : ℚ) := by linarith
    have b : (k : ℚ) < 3026 := by linarith
    exact ⟨by exact_mod_cast a, by exact_mod_cast b⟩
  · rintro ⟨h0, h1⟩
    have a : (978 : ℚ) ≤ (k : ℚ) := by exact_mod_cast h0
    have b : (k : ℚ) < 3026 := by exact_mod_cast h1
    constructor <;> linarith

theorem floor_lattice (k : Nat) :
    ⌊-1000 - 1 + (k : ℚ) / 2 + 512⌋ = ((k / 2 : ℕ) : ℤ) - 489 := by
  rw [Int.floor_eq_iff]
  have hk : (k : ℚ) = 2 * ((k / 2 : ℕ) : ℚ) + ((k % 2 : ℕ) : ℚ) := by
    have h := Nat.div_add_mod k 2
    exact_mod_cast h.symm
  have hr0 : (0 : ℚ) ≤ ((k % 2 : ℕ) : ℚ) := Nat.cast_nonneg _
  have hr1 : ((k % 2 : ℕ) : ℚ) < 2 := by
    have h := Nat.mod_lt k (by decide : 2 > 0)
    exact_mod_cast h
  simp only [Int.cast_sub, Int.cast_natCast, Int.cast_ofNat]
  constructor <;> linarith

theorem wrapInEven_lattice (k : Nat) :
    wrapInEven (-1000 - 1 + (k : ℚ) / 2) =
      decide ((978 ≤ k ∧ k < 3026) ∧ (k / 2 + 1) % 2 = 0) := by
  have hin := wrapIn_lattice k
  unfold wrapIn at hin
  rw [Bool.eq_iff_iff, decide_eq_true_iff, decide_eq_true_iff] at hin
  unfold wrapInEven
  rw [Bool.eq_iff_iff, decide_eq_true_iff, decide_eq_true_iff, floor_lattice, hin]
  constructor
  · rintro ⟨h, he⟩
    exact ⟨h, by omega⟩
  · rintro ⟨h, he⟩
    exact ⟨h, by omega⟩

theorem count_range_in_upto (n : Nat) :
    (List.range n).countP (fun k => decide (978 ≤ k ∧ k < 3026)) =
      if n ≤ 978 then 0 else if n ≤ 3026 then n - 978 else 2048 := by
  induction n with
  | zero => rfl
  | succ n ih =>
    rw [List.range_succ, List.countP_append, ih, List.countP_singleton]
    by_cases hp : 978 ≤ n ∧ n < 3026
    · rw [if_pos (decide_eq_true hp)]
      split_ifs <;> omega
    · rw [if_neg (fun h => hp (of_decide_eq_true h))]
      split_ifs <;> omega

theorem count_range_in : (List.range 4005).countP (fun k => decide (978 ≤ k ∧ k < 3026)) = 2048 := by
  rw [count_range_in_upto]
  rfl

theorem count_range_even_upto (n : Nat) :
    (List.range n).countP
        (fun k => decide ((978 ≤ k ∧ k < 3026) ∧ (k / 2 + 1) % 2 = 0)) =
      if n ≤ 978 then 0 else if n ≤ 3026 then 2 * (n / 4) + (n % 4 - 2) - 488 else 1024 := by
  induction n with
  | zero => rfl
  | succ n ih =>
    rw [List.range_succ, List.countP_append, ih, List.countP_singleton]
    by_cases hp : (978 ≤ n ∧ n < 3026) ∧ (n / 2 + 1) % 2 = 0
    · rw [if_pos (decide_eq_true hp)]
      split_ifs <;> omega
    · rw [if_neg (fun h => hp (of_decide_eq_true h))]
      split_ifs <;> omega

theorem count_range_even :
    (List.range 4005).countP (fun k => decide ((978 ≤ k ∧ k < 3026) ∧ (k / 2 + 1) % 2 = 0))
      = 1024 := by
  rw [count_range_even_upto]
  rfl

theorem scanAxis_count_in : (scanAxis 1000).countP wrapIn = 2048 := by
  unfold scanAxis
  rw [scanFuel_1000, List.countP_map]
  have e : (wrapIn ∘ fun k : Nat => -1000 - 1 + (k : ℚ) / 2) =
      fun k => decide (978 ≤ k ∧ k < 3026) := by
    funext k
    exact wrapIn_lattice k
  rw [e]
  exact count_range_in

theorem scanAxis_count_even : (scanAxis 1000).countP wrapInEven = 1024 := by
  unfold scanAxis
  rw [scanFuel_1000, List.countP_map]
  have e : (wrapInEven ∘ fun k : Nat => -1000 - 1 + (k : ℚ) / 2) =
      fun k => decide ((978 ≤ k ∧ k < 3026) ∧ (k / 2 + 1) % 2 = 0) := by
    funext k
    exact wrapInEven_lattice k
  rw [e]
  exact count_range_even

/-! ## The scan of `wrapDet` over `wrapVol` -/

theorem wrapVol_getD (i : Nat) (hi : i < 1024 * 1024 * 1024) :
    wrapVol.getD i 0 = (i + 1) % 2 := by
  unfold wrapVol
  rw [List.getD_eq_getElem?_getD, List.getElem?_map, List.getElem?_range hi]
  rfl

theorem floor_voxel (s : ℚ) (h0 : 0 ≤ s) (h1 : s < 1024) :
    ∃ v : Nat, v < 1024 ∧ (v : ℚ) ≤ s ∧ s < (v : ℚ) + 1 ∧ ⌊s⌋ = (v : ℤ) := by
  have hf0 : 0 ≤ ⌊s⌋ := Int.floor_nonneg.mpr h0
  have hf1 : ⌊s⌋ < 1024 := Int.floor_lt.mpr (by exact_mod_cast h1)
  obtain ⟨v, hv⟩ := Int.eq_ofNat_of_zero_le hf0
  refine ⟨v, by omega, ?_, ?_, hv⟩
  · have h := Int.floor_le s
    rw [hv] at h
    exact_mod_cast h
  · have h := Int.lt_floor_add_one s
    rw [hv] at h
    exact_mod_cast h

theorem centred_sq_le (a : ℚ) (h0 : 0 ≤ a) (h1 : a ≤ 1024) :
    (a - 512) * (a - 512) ≤ 262144 := by
  nlinarith [mul_nonneg h0 (sub_nonneg.mpr h1)]

/-- In a volume whose bytes are those of `wrapVol`, every voxel of even `x` is
one the detector `wrapDet` is meant to flag. -/
theorem wrap_coverable (V : List Nat)
    (hV : ∀ i, i < 1024 * 1024 * 1024 → V.getD i 0 = (i + 1) % 2)
    (vx vy vz : Nat) (hx : vx < 1024) (hy : vy < 1024) (hz : vz < 1024)
    (he : vx % 2 = 0) : Coverable wrapDim V wrapDet vx vy vz := by
  refine ⟨hx, hy, hz, ?_, ⟨2, 1, 1, by decide, by decide, by decide, by decide, ?_⟩, ?_⟩
  · show V.getD (vz * 1024 * 1024 + vy * 1024 + vx) 0 ≠ 0
    rw [hV _ (by omega)]
    omega
  · have h := padvol_getD wrapDim V (vx + 2) (vy + 1) (vz + 1)
      (show vx + 2 < 1024 + 2 by omega) (show vy + 1 < 1024 + 2 by omega)
      (show vz + 1 < 1024 + 2 by omega)
    refine Eq.trans h ?_
    split_ifs with hi
    · show V.getD ((vz + 1 - 1) * 1024 * 1024 + (vy + 1 - 1) * 1024 + (vx + 2 - 1)) 0 = 0
      have hi' : vx + 2 ≤ 1024 := hi.2.2.2
      rw [hV _ (by omega)]
      omega
    · rfl
  · rw [minCornerD2_lt_iff]
    refine ⟨(0, 0, 0), by simp [corners], ?_⟩
    have cx := centred_sq_le (vx : ℚ) (Nat.cast_nonneg _) (by exact_mod_cast le_of_lt hx)
    have cy := centred_sq_le (vy : ℚ) (Nat.cast_nonneg _) (by exact_mod_cast le_of_lt hy)
    have cz := centred_sq_le (vz : ℚ) (Nat.cast_nonneg _) (by exact_mod_cast le_of_lt hz)
    unfold cornerD2
    simp only [wrapDet, Int.cast_natCast, add_zero]
    linarith

theorem wrap_coverable_even (V : List Nat)
    (hV : ∀ i, i < 1024 * 1024 * 1024 → V.getD i 0 = (i + 1) % 2)
    (vx vy vz : Nat) (h : Coverable wrapDim V wrapDet vx vy vz) : vx % 2 = 0 := by
  obtain ⟨hx, hy, hz, hne, _, _⟩ := h
  have hx' : vx < 1024 := hx
  have hy' : vy < 1024 := hy
  have hz' : vz < 1024 := hz
  have hne' : V.getD (vz * 1024 * 1024 + vy * 1024 + vx) 0 ≠ 0 := hne
  rw [hV _ (by omega)] at hne'
  omega

/-- A sample of `wrapDet` reaches lines 932-933 exactly when it falls inside
the domain on every axis, in a voxel of even `x`. -/
theorem wrap_sampleAccepted (V : List Nat)
    (hV : ∀ i, i < 1024 * 1024 * 1024 → V.getD i 0 = (i + 1) % 2) (x y z : ℚ) :
    sampleAccepted wrapDim (padvol wrapDim V) wrapDet x y z =
      (wrapInEven x && wrapIn y && wrapIn z) := by
  rw [Bool.eq_iff_iff]
  simp only [Bool.and_eq_true]
  unfold wrapInEven wrapIn
  simp only [decide_eq_true_iff]
  constructor
  · intro h
    obtain ⟨vx, vy, vz, hx, hy, hz, hv, hp, hne, hnb, hmin⟩ :=
      accepted_spec wrapDim V wrapDet x y z h
    unfold sampleAccepted at h
    simp only [Bool.and_eq_true, Bool.not_eq_true'] at h
    obtain ⟨⟨hrej, _⟩, _⟩ := h
    obtain ⟨ux, uy, uz, gx, gy, gz, tx, ty, tz, hv', _⟩ := sample_voxel wrapDim wrapDet x y z hrej
    have hev : ux % 2 = 0 := by
      have hu : Coverable wrapDim V wrapDet ux uy uz := by
        refine ⟨gx, gy, gz, ?_, ?_, ?_⟩
        · rw [← hv', hv]
          exact hne
        · have e : ux = vx ∧ uy = vy ∧ uz = vz := by
            have h3 := hv'.symm.trans hv
            have := idx3_unique wrapDim.x wrapDim.y ux uy uz vx vy vz gx hx gy hy
              (by
                have a : ∀ p q r : Nat, r * (wrapDim.x * wrapDim.y) + q * wrapDim.x + p =
                    r * wrapDim.y * wrapDim.x + q * wrapDim.x + p := fun p q r => by ring
                rw [a, a]
                exact h3)
            exact this
          rw [e.1, e.2.1, e.2.2]
          exact hnb
        · have e : ux = vx ∧ uy = vy ∧ uz = vz := by
            have h3 := hv'.symm.trans hv
            exact idx3_unique wrapDim.x wrapDim.y ux uy uz vx vy vz gx hx gy hy
              (by
                have a : ∀ p q r : Nat, r * (wrapDim.x * wrapDim.y) + q * wrapDim.x + p =
                    r * wrapDim.y * wrapDim.x + q * wrapDim.x + p := fun p q r => by ring
                rw [a, a]
                exact h3)
          rw [e.1, e.2.1, e.2.2]
          exact hmin
      exact wrap_coverable_even V hV ux uy uz hu
    unfold sampleRejected at hrej
    rw [decide_eq_false_iff_not] at hrej
    simp only [wrapDet, wrapDim, Nat.cast_ofNat, not_or, not_lt, not_le] at hrej
    obtain ⟨z0, x0, y0, x1, y1, z1, _⟩ := hrej
    have fx : ⌊x + 512⌋ = (ux : ℤ) := by
      have := tx
      unfold cTrunc at this
      simp only [wrapDet] at this
      rw [if_pos x0] at this
      exact this
    refine ⟨⟨⟨⟨x0, x1⟩, ?_⟩, ⟨y0, y1⟩⟩, ⟨z0, z1⟩⟩
    rw [fx]
    omega
  · rintro ⟨⟨⟨⟨x0, x1⟩, hev⟩, ⟨y0, y1⟩⟩, ⟨z0, z1⟩⟩
    obtain ⟨vx, hx, ax, bx, fx⟩ := floor_voxel (x + 512) x0 x1
    obtain ⟨vy, hy, ay, by', _⟩ := floor_voxel (y + 512) y0 y1
    obtain ⟨vz, hz, az, bz, _⟩ := floor_voxel (z + 512) z0 z1
    rw [fx] at hev
    have hcov := wrap_coverable V hV vx vy vz hx hy hz (by omega)
    have hrej : sampleRejected wrapDim wrapDet x y z = false := by
      unfold sampleRejected
      rw [decide_eq_false_iff_not]
      simp only [wrapDet, wrapDim, Nat.cast_ofNat, not_or, not_lt, not_le]
      refine ⟨z0, x0, y0, x1, y1, z1, ?_⟩
      have sx := centred_sq_le (x + 512) x0 (le_of_lt x1)
      have sy := centred_sq_le (y + 512) y0 (le_of_lt y1)
      have sz := centred_sq_le (z + 512) z0 (le_of_lt z1)
      have r : ∀ t : ℚ, t + 512 - 512 = t := fun t => by ring
      rw [r] at sx sy sz
      norm_num
      linarith
    exact (sample_in_coverable_accepted wrapDim V wrapDet vx vy vz
      (show (0 : ℚ) ≤ 1000 by norm_num) (show (1000 : ℚ) ≤ 100000 by norm_num) hcov x y z hrej
      ⟨ax, bx⟩ ⟨ay, by'⟩ ⟨az, bz⟩).1

/-- The scan of `wrapDet` accepts `2^32` samples. -/
theorem wrap_accepted_length (V : List Nat)
    (hV : ∀ i, i < 1024 * 1024 * 1024 → V.getD i 0 = (i + 1) % 2) :
    (acceptedSamples wrapDim (padvol wrapDim V) wrapDet).length = 4294967296 := by
  unfold acceptedSamples
  have e : (fun p : ℚ × ℚ × ℚ => sampleAccepted wrapDim (padvol wrapDim V) wrapDet p.1 p.2.1 p.2.2)
      = fun p => wrapInEven p.1 && wrapIn p.2.1 && wrapIn p.2.2 := by
    funext p
    exact wrap_sampleAccepted V hV p.1 p.2.1 p.2.2
  rw [e]
  show ((samplePoints 1000).filter _).length = _
  unfold samplePoints
  rw [product_scan_count (scanAxis 1000) wrapInEven wrapIn wrapIn, scanAxis_count_even,
    scanAxis_count_in]

/-! ## The zero-coverage warning -/

/-- The counter of a detector of radius `0 ≤ w ≤ 100000` is the number of
accepted samples modulo `2^32`; no sample is accepted exactly when no voxel of
the domain is nonzero, exposed and within reach; the number of distinct voxels
the detector writes is at most the number of accepted samples. As long as that
number stays below `2^32` the counter is `0`, and the warning written when
`issavedet` is set, exactly when there is no such voxel, and the counter is at
least the number of distinct voxels written. -/
theorem zero_coverage_exact (cfg : Config) (l1 l2 : List float4) (det : float4)
    (hdets : cfg.detpos = l1 ++ det :: l2) (hw0 : 0 ≤ det.w) (hw1 : det.w ≤ 100000) :
    (mcx_maskdet cfg).counts[l1.length]? =
        some ((acceptedSamples cfg.dim (padvol cfg.dim cfg.vol) det).length % 2 ^ 32) ∧
    ((acceptedSamples cfg.dim (padvol cfg.dim cfg.vol) det).length = 0 ↔
      ¬ ∃ vx vy vz : Nat, Coverable cfg.dim cfg.vol det vx vy vz) ∧
    (l1.length + 1 ∈ (mcx_maskdet cfg).warnings ↔
      cfg.issavedet = true ∧
        (acceptedSamples cfg.dim (padvol cfg.dim cfg.vol) det).length % 2 ^ 32 = 0) ∧
    (detHits cfg.dim (padvol cfg.dim cfg.vol) det).dedup.length ≤
      (acceptedSamples cfg.dim (padvol cfg.dim cfg.vol) det).length ∧
    ((acceptedSamples cfg.dim (padvol cfg.dim cfg.vol) det).length < 2 ^ 32 →
      ((mcx_maskdet cfg).counts[l1.length]? = some 0 ↔
        ¬ ∃ vx vy vz : Nat, Coverable cfg.dim cfg.vol det vx vy vz) ∧
      (l1.length + 1 ∈ (mcx_maskdet cfg).warnings ↔
        cfg.issavedet = true ∧ ¬ ∃ vx vy vz : Nat, Coverable cfg.dim cfg.vol det vx vy vz) ∧
      ∃ c, (mcx_maskdet cfg).counts[l1.length]? = some c ∧
        (detHits cfg.dim (padvol cfg.dim cfg.vol) det).dedup.length ≤ c) := by
  have hc : (mcx_maskdet cfg).counts[l1.length]? =
      some ((acceptedSamples cfg.dim (padvol cfg.dim cfg.vol) det).length % 2 ^ 32) := by
    rw [mcx_maskdet_eq]
    simp only
    rw [hdets, List.getElem?_map, List.getElem?_append_right (le_refl _)]
    simp
  have hzero : (acceptedSamples cfg.dim (padvol cfg.dim cfg.vol) det).length = 0 ↔
      ¬ ∃ vx vy vz : Nat, Coverable cfg.dim cfg.vol det vx vy vz := by
    constructor
    · rintro h ⟨vx, vy, vz, hcov⟩
      have hmem := coverable_mem_detHits cfg.dim cfg.vol det vx vy vz hw0 hw1 hcov
      unfold detHits at hmem
      rw [List.length_eq_zero.mp h] at hmem
      exact absurd hmem (List.not_mem_nil _)
    · intro h
      rw [List.length_eq_zero, List.eq_nil_iff_forall_not_mem]
      intro p hp
      apply h
      have hmem : volIdxOf cfg.dim (p.1 + det.x) (p.2.1 + det.y) (p.2.2 + det.z) ∈
          detHits cfg.dim (padvol cfg.dim cfg.vol) det := List.mem_map_of_mem _ hp
      obtain ⟨vx, vy, vz, hcov, _⟩ :=
        (mem_detHits_iff_coverable cfg.dim cfg.vol det _ hw0 hw1).mp hmem
      exact ⟨vx, vy, vz, hcov⟩
  have hwarn : l1.length + 1 ∈ (mcx_maskdet cfg).warnings ↔
      cfg.issavedet = true ∧
        (acceptedSamples cfg.dim (padvol cfg.dim cfg.vol) det).length % 2 ^ 32 = 0 := by
    have hc' := hc
    rw [mcx_maskdet_eq] at hc' ⊢
    simp only at hc' ⊢
    rw [mem_warnList]
    constructor
    · rintro ⟨hs, k, hk, hn⟩
      have hkl : k = l1.length := by omega
      rw [hkl, hc'] at hk
      exact ⟨hs, by simpa using hk⟩
    · rintro ⟨hs, h0⟩
      exact ⟨hs, l1.length, by rw [hc', h0], by omega⟩
  have hded : (detHits cfg.dim (padvol cfg.dim cfg.vol) det).dedup.length ≤
      (acceptedSamples cfg.dim (padvol cfg.dim cfg.vol) det).length := by
    have h := (List.dedup_sublist (detHits cfg.dim (padvol cfg.dim cfg.vol) det)).length_le
    unfold detHits at h ⊢
    rw [List.length_map] at h
    exact h
  refine ⟨hc, hzero, hwarn, hded, ?_⟩
  intro hlt
  have hmod : (acceptedSamples cfg.dim (padvol cfg.dim cfg.vol) det).length % 2 ^ 32 =
      (acceptedSamples cfg.dim (padvol cfg.dim cfg.vol) det).length := Nat.mod_eq_of_lt hlt
  refine ⟨?_, ?_, ?_⟩
  · rw [hc, hmod, ← hzero]
    constructor
    · intro h
      exact Option.some.inj h
    · intro h
      rw [h]
  · rw [hwarn, hmod, hzero]
  · exact ⟨_, hc, by rw [hmod]; exact hded⟩

theorem wrapCfg_vol : wrapCfg.vol = wrapVol := by
  simp only [wrapCfg]

/-- What `mcx_maskdet` leaves on a configuration with the volume `wrapVol` and
the one detector `wrapDet`. -/
theorem wrap_result (cfg : Config) (hdim : cfg.dim = wrapDim) (hvol : cfg.vol = wrapVol)
    (hdet : cfg.detpos = [wrapDet]) (hs : cfg.issavedet = true) :
    (mcx_maskdet cfg).vol.getD 0 0 = 129 ∧ (mcx_maskdet cfg).counts = [0] ∧
      (mcx_maskdet cfg).warnings = [1] := by
  have hlen := wrap_accepted_length wrapVol wrapVol_getD
  have hcov : Coverable wrapDim wrapVol wrapDet 0 0 0 :=
    wrap_coverable wrapVol wrapVol_getD 0 0 0 (by decide) (by decide) (by decide) (by decide)
  have hmem : 0 ∈ detHits wrapDim (padvol wrapDim wrapVol) wrapDet := by
    have h := coverable_mem_detHits wrapDim wrapVol wrapDet 0 0 0
      (show (0 : ℚ) ≤ 1000 by norm_num) (show (1000 : ℚ) ≤ 100000 by norm_num) hcov
    simpa using h
  have hmod : (4294967296 : Nat) % 2 ^ 32 = 0 := by norm_num
  refine ⟨?_, ?_, ?_⟩
  · rw [mcx_maskdet_getD, hdim, hvol, if_pos ⟨wrapDet, by rw [hdet]; exact List.mem_singleton.mpr rfl,
      hmem⟩, wrapVol_getD 0 (by norm_num)]
    rfl
  · rw [mcx_maskdet_eq]
    simp only
    rw [hdim, hvol, hdet, List.map_cons, List.map_nil, hlen, hmod]
  · rw [mcx_maskdet_eq]
    simp only
    rw [hdim, hvol, hdet, hs, List.map_cons, List.map_nil, hlen, hmod]
    rfl

/-- Claim C24, where it fails. On the volume `wrapVol` of `1024³` voxels the
detector `wrapDet` of radius `1000` has voxels that are nonzero, exposed and
within reach, the voxel `(0,0,0)` among them, and flags them; the scan accepts
`2^32` samples, 8 in each of the `2^29` voxels of even `x`, so the 32-bit
counter is back at `0` after the scan and, `issavedet` being set, the warning
for detector 1 is written. -/
theorem zero_coverage_counter_wraps :
    Coverable wrapDim wrapVol wrapDet 0 0 0 ∧
      (acceptedSamples wrapDim (padvol wrapDim wrapVol) wrapDet).length = 2 ^ 32 ∧
      (wrapCfg.dim = wrapDim ∧ wrapCfg.vol = wrapVol ∧ wrapCfg.detpos = [wrapDet] ∧
        wrapCfg.issavedet = true) ∧
      (mcx_maskdet wrapCfg).vol.getD 0 0 = 129 ∧
      (mcx_maskdet wrapCfg).counts = [0] ∧
      (mcx_maskdet wrapCfg).warnings = [1] :=
  ⟨wrap_coverable wrapVol wrapVol_getD 0 0 0 (by decide) (by decide) (by decide) (by decide),
    (wrap_accepted_length wrapVol wrapVol_getD).trans (by norm_num),
    ⟨rfl, wrapCfg_vol, rfl, rfl⟩,
    wrap_result wrapCfg rfl wrapCfg_vol rfl rfl⟩

/-! ## Binary32: known values -/

/-- The constants `0.2f`, `0.7f` and `1.7321f`, and two sums that rounding
absorbs: `16777217` is not a binary32 value, and neither is `2^24 - 1/2`. -/
theorem rnd32_values :
    rnd32 (1 / 5) = 13421773 / 67108864 ∧ rnd32 (7 / 10) = 11744051 / 16777216 ∧
      rnd32 (17321 / 10000) = 3632477 / 2097152 ∧ rnd32 10000000000 = 10000000000 ∧
      rnd32 (1 / 2) = 1 / 2 ∧ rnd32 16777216 = 16777216 ∧ rnd32 16777217 = 16777216 ∧
      fadd (-16777216) (1 / 2) = -16777216 ∧
      fadd (16777215 / 16777216) 1 = 2 := by
  decide

/-! ## The detector mask in binary32 -/

/-- The run of `mcx_maskdet` on `roundCfg` in binary32: four samples are
accepted and all four flag voxel `0`. -/
theorem roundCfg_run :
    mcx_maskdet_f32 8 roundCfg =
      some { vol := [128, 1], counts := [4], warnings := [], exited := false } := by
  decide

/-- The sample of the scan of `roundCfg` with `x = y = 0.3f` (four increments)
and `z = 0.8f` (five increments): it is in the domain, `(int)ix`, `(int)iy`,
`(int)iz` are `0, 0, 0`, and `(int)(iz+1.f)` is `2`. -/
theorem roundCfg_sample :
    sampleRejected_f32 ⟨1, 1, 2⟩ ⟨0, 0, rnd32 (1 / 5), rnd32 (7 / 10)⟩
        (scanValue_f32 (rnd32 (7 / 10)) 4) (scanValue_f32 (rnd32 (7 / 10)) 4)
        (scanValue_f32 (rnd32 (7 / 10)) 5) = false ∧
      fadd (scanValue_f32 (rnd32 (7 / 10)) 5) (rnd32 (1 / 5)) = 16777215 / 16777216 ∧
      cTrunc (fadd (scanValue_f32 (rnd32 (7 / 10)) 4) 0) = 0 ∧
      cTrunc (fadd (scanValue_f32 (rnd32 (7 / 10)) 5) (rnd32 (1 / 5))) = 0 ∧
      cTrunc (fadd (fadd (scanValue_f32 (rnd32 (7 / 10)) 5) (rnd32 (1 / 5))) 1) = 2 ∧
      volIdxOf ⟨1, 1, 2⟩ (fadd (scanValue_f32 (rnd32 (7 / 10)) 4) 0)
        (fadd (scanValue_f32 (rnd32 (7 / 10)) 4) 0)
        (fadd (scanValue_f32 (rnd32 (7 / 10)) 5) (rnd32 (1 / 5))) = 0 ∧
      padIdxOf_f32 ⟨1, 1, 2⟩ (fadd (scanValue_f32 (rnd32 (7 / 10)) 4) 0)
        (fadd (scanValue_f32 (rnd32 (7 / 10)) 4) 0)
        (fadd (scanValue_f32 (rnd32 (7 / 10)) 5) (rnd32 (1 / 5))) = 22 ∧
      sampleAccepted_f32 ⟨1, 1, 2⟩ (padvol ⟨1, 1, 2⟩ [0, 1])
        ⟨0, 0, rnd32 (1 / 5), rnd32 (7 / 10)⟩
        (scanValue_f32 (rnd32 (7 / 10)) 4) (scanValue_f32 (rnd32 (7 / 10)) 4)
        (scanValue_f32 (rnd32 (7 / 10)) 5) = true := by
  decide

/-- The first run of `mcx_maskdet` on `twiceCfg` in binary32 flags voxel `1`. -/
theorem twiceCfg_run :
    mcx_maskdet_f32 12 twiceCfg =
      some { vol := [0, 128, 1], counts := [4], warnings := [], exited := false } := by
  decide

/-- A second run, on the volume the first run leaves, flags voxel `0`. -/
theorem twiceCfg_rerun :
    mcx_maskdet_f32 12 { twiceCfg with vol := [0, 128, 1] } =
      some { vol := [128, 128, 1], counts := [12], warnings := [], exited := false } := by
  decide

/-- Claim C1, where it fails. On `roundCfg` (dims `(1,1,2)`, volume `[0,1]`,
one detector of radius `0.7f` at `(0,0,0.2f)`) `mcx_maskdet`, computed in
binary32 as the machine does, sets bit 7 of voxel `0`, whose byte before the
call is `0`: the samples with `iz` just below `1` test the padded position of
voxel `(0,0,1)` at line 923 and flag voxel `(0,0,0)` at line 932. In exact
arithmetic the same run flags nothing. -/
theorem mask_flags_background_voxel :
    roundCfg.vol.getD 0 0 = 0 ∧
      mcx_maskdet_f32 8 roundCfg =
        some { vol := [128, 1], counts := [4], warnings := [], exited := false } ∧
      (mcx_maskdet roundCfg).vol = [0, 1] :=
  ⟨rfl, roundCfg_run, by decide⟩

/-- Claim C2, where it fails. On `twiceCfg` (dims `(1,1,3)`, volume `[0,0,1]`,
one detector of radius `1.5` at `(0,0,-5/2^26)`) a first run of `mcx_maskdet`
in binary32 leaves `[0,128,1]`, and a second run on that volume with the same
detector leaves `[128,128,1]`: the byte of voxel `0` changes in the second
run. -/
theorem mask_second_run_differs :
    twiceCfg.vol = [0, 0, 1] ∧
      mcx_maskdet_f32 12 twiceCfg =
        some { vol := [0, 128, 1], counts := [4], warnings := [], exited := false } ∧
      mcx_maskdet_f32 12 { twiceCfg with vol := [0, 128, 1] } =
        some { vol := [128, 128, 1], counts := [12], warnings := [], exited := false } :=
  ⟨rfl, twiceCfg_run, twiceCfg_rerun⟩

/-- Claim C23, where it fails. On `twiceCfg` the byte of voxel `1` is `0`
before `mcx_maskdet` and `128` after it, in binary32: a byte that was `0` does
not stay `0`. -/
theorem mask_raises_zero_byte :
    twiceCfg.vol.getD 1 0 = 0 ∧
      (mcx_maskdet_f32 12 twiceCfg).map (fun m => m.vol.getD 1 0) = some 128 := by
  refine ⟨rfl, ?_⟩
  rw [twiceCfg_run]
  rfl

/-- Claim C26, where it fails. In the scan of `roundCfg` the sample with
`x = y = 0.3f`, `z = 0.8f` passes the test of lines 907-908 and every later
test; its unpadded index `0` is that of voxel `(0,0,0)`, whose shifted position
has padded index `13`, but `idx1d` of line 923 is `22`, the padded index of
voxel `(0,0,1)`: `iz` is the float just below `1`, so `(int)iz` is `0` while
`iz+1.f` rounds to `2`. -/
theorem padded_index_not_the_shift :
    (sampleRejected_f32 ⟨1, 1, 2⟩ ⟨0, 0, rnd32 (1 / 5), rnd32 (7 / 10)⟩
        (scanValue_f32 (rnd32 (7 / 10)) 4) (scanValue_f32 (rnd32 (7 / 10)) 4)
        (scanValue_f32 (rnd32 (7 / 10)) 5) = false ∧
      fadd (scanValue_f32 (rnd32 (7 / 10)) 5) (rnd32 (1 / 5)) = 16777215 / 16777216 ∧
      cTrunc (fadd (scanValue_f32 (rnd32 (7 / 10)) 4) 0) = 0 ∧
      cTrunc (fadd (scanValue_f32 (rnd32 (7 / 10)) 5) (rnd32 (1 / 5))) = 0 ∧
      cTrunc (fadd (fadd (scanValue_f32 (rnd32 (7 / 10)) 5) (rnd32 (1 / 5))) 1) = 2 ∧
      volIdxOf ⟨1, 1, 2⟩ (fadd (scanValue_f32 (rnd32 (7 / 10)) 4) 0)
        (fadd (scanValue_f32 (rnd32 (7 / 10)) 4) 0)
        (fadd (scanValue_f32 (rnd32 (7 / 10)) 5) (rnd32 (1 / 5))) = 0 ∧
      padIdxOf_f32 ⟨1, 1, 2⟩ (fadd (scanValue_f32 (rnd32 (7 / 10)) 4) 0)
        (fadd (scanValue_f32 (rnd32 (7 / 10)) 4) 0)
        (fadd (scanValue_f32 (rnd32 (7 / 10)) 5) (rnd32 (1 / 5))) = 22 ∧
      sampleAccepted_f32 ⟨1, 1, 2⟩ (padvol ⟨1, 1, 2⟩ [0, 1])
        ⟨0, 0, rnd32 (1 / 5), rnd32 (7 / 10)⟩
        (scanValue_f32 (rnd32 (7 / 10)) 4) (scanValue_f32 (rnd32 (7 / 10)) 4)
        (scanValue_f32 (rnd32 (7 / 10)) 5) = true) ∧
      (0 + 1) * (1 + 2) * (1 + 2) + (0 + 1) * (1 + 2) + (0 + 1) = 13 ∧
      (1 + 1) * (1 + 2) * (1 + 2) + (0 + 1) * (1 + 2) + (0 + 1) = 22 :=
  ⟨roundCfg_sample, rfl, rfl⟩

/-! ## A scan that never ends -/

/-- A loop whose variable is within its bound and is left unchanged by
`+= 0.5f` has not ended after any number of iterations. -/
theorem forHalf_f32_stuck {σ : Type} (hi v : ℚ) (body : ℚ → σ → Option σ) (hv : v ≤ hi)
    (habs : fadd v (1 / 2) = v) : ∀ (fuel : Nat) (s : σ), forHalf_f32 hi body fuel v s = none := by
  intro fuel
  induction fuel with
  | zero =>
    intro s
    unfold forHalf_f32
    rw [if_pos hv]
  | succ fuel ih =>
    intro s
    unfold forHalf_f32
    rw [if_pos hv]
    cases body v s with
    | none => rfl
    | some s' =>
      simp only
      rw [habs]
      exact ih s'

theorem absorb_values :
    fsub (-16777216) 1 = -16777216 ∧ fadd 16777216 1 = 16777216 ∧
      fadd (-16777216) (1 / 2) = -16777216 ∧
      sampleRejected_f32 ⟨1, 1, 1⟩ ⟨50331648, 0, 0, 16777216⟩ (-16777216) (-16777216)
        (-16777216) = true := by
  decide

theorem absorb_detector_none (fuel : Nat) (pv vol : List Nat) :
    maskdet_detector_f32 fuel ⟨1, 1, 1⟩ pv ⟨50331648, 0, 0, 16777216⟩ vol = none := by
  unfold maskdet_detector_f32
  simp only [absorb_values.1, absorb_values.2.1]
  exact forHalf_f32_stuck _ _ _ (by norm_num) absorb_values.2.2.1 fuel _

theorem absorb_exact_rejected :
    ∀ p ∈ samplePoints 16777216,
      sampleRejected ⟨1, 1, 1⟩ ⟨50331648, 0, 0, 16777216⟩ p.1 p.2.1 p.2.2 = true := by
  intro p hp
  obtain ⟨hx, _, _⟩ := (mem_samplePoints _ p).mp hp
  obtain ⟨k, _, hk⟩ := (mem_scanAxis _ _).mp hx
  unfold sampleRejected
  rw [decide_eq_true_iff]
  right; right; right; left
  have h0 : (0 : ℚ) ≤ (k : ℚ) := Nat.cast_nonneg k
  rw [hk]
  norm_num
  linarith

/-- Claim C6, where it fails. The detector of `absorbCfg` has radius `2^24`
and its centre at `x = 3*2^24`: no sample point of the half-step scan is inside
the domain. In binary32 the scan starts at `-w-1.f = -2^24` and `+= 0.5f`
leaves that value unchanged, so the scan loop has not ended after any number of
iterations: `mcx_maskdet` does not finish, no counter is reached and no warning
is written. -/
theorem mask_scan_never_ends :
    (∀ p ∈ samplePoints 16777216,
        sampleRejected absorbCfg.dim ⟨50331648, 0, 0, 16777216⟩ p.1 p.2.1 p.2.2 = true) ∧
      scanValue_f32 16777216 0 = -16777216 ∧ scanValue_f32 16777216 1 = -16777216 ∧
      sampleRejected_f32 absorbCfg.dim ⟨50331648, 0, 0, 16777216⟩ (-16777216) (-16777216)
        (-16777216) = true ∧
      ∀ fuel : Nat, mcx_maskdet_f32 fuel absorbCfg = none := by
  refine ⟨absorb_exact_rejected, by decide, by decide, absorb_values.2.2.2, ?_⟩
  intro fuel
  unfold mcx_maskdet_f32
  have h : absorbCfg.detpos.foldl
      (maskdet_step_f32 fuel absorbCfg (padvol absorbCfg.dim absorbCfg.vol))
      (some { vol := absorbCfg.vol, counts := [], warnings := [], exited := false }) = none := by
    rw [show absorbCfg.detpos = [⟨50331648, 0, 0, 16777216⟩] from rfl, List.foldl_cons,
      List.foldl_nil]
    unfold maskdet_step_f32
    simp only
    rw [show absorbCfg.dim = ⟨1, 1, 1⟩ from rfl, absorb_detector_none]
  rw [h]

/-! ## Source placement in binary32 -/

/-- Claim C7, where it fails. On `roundCfg`, with the source at
`(0.5,0.5,0.5)` in the background voxel `0`, lines 274-296 in binary32 return
without error: `mcx_maskdet` has turned the byte of voxel `0` into `128`, the
test `vol[idx1d]==0` fails and the source stays where it is, on a voxel whose
medium index is `0`. -/
theorem placement_ends_on_background :
    mcx_prepdomain_tail_f32 8 roundCfg = some (PrepResult.ok { roundCfg with vol := [128, 1] }) ∧
      srcIdx { roundCfg with vol := [128, 1] } = 0 ∧
      ([128, 1] : List Nat).getD 0 0 &&& MED_MASK = 0 ∧
      roundCfg.vol = [0, 1] := by
  refine ⟨?_, by decide, by decide, rfl⟩
  unfold mcx_prepdomain_tail_f32
  rw [if_pos (show roundCfg.issavedet = true from rfl), roundCfg_run]
  decide

/-- Claim C21, where it fails. On `roundCfg`, in binary32, running
`mcx_maskdet` and then placing the source leaves the source at `z = 1/2`, on
the byte `128` of voxel `0`; placing the source on the volume as loaded and
then running `mcx_maskdet` moves it to `z = 3/2`, on voxel `1`. -/
theorem stage_order_changes_source :
    mcx_prepdomain_tail_f32 8 roundCfg = some (PrepResult.ok { roundCfg with vol := [128, 1] }) ∧
      prepdomain_source_then_mask_f32 8 roundCfg =
        some (PrepResult.ok
          { roundCfg with vol := [128, 1], srcpos := ⟨1 / 2, 1 / 2, 3 / 2⟩ }) := by
  constructor
  · unfold mcx_prepdomain_tail_f32
    rw [if_pos (show roundCfg.issavedet = true from rfl), roundCfg_run]
    decide
  · decide

/-- Claim C8, where it fails. For dims `(16777217,1,1)` the source at
`x = 16777216` is inside the domain, `0 ≤ x < dimx`, and the exact bounds test
accepts it; the test of lines 276-277 compares with `dimx` converted to
`float`, which is `16777216`, and source placement ends with the error "source
position is outside of the volume". -/
theorem source_in_last_voxel_rejected (fuel : Nat) (vol : List Nat) :
    ((0 : ℚ) ≤ (edgeCfg vol).srcpos.x ∧
        (edgeCfg vol).srcpos.x < (((edgeCfg vol).dim.x : Nat) : ℚ)) ∧
      srcOutside (edgeCfg vol) = false ∧
      rnd32 (((edgeCfg vol).dim.x : Nat) : ℚ) = 16777216 ∧
      mcx_prepdomain_source_f32 fuel (edgeCfg vol) =
        some (PrepResult.error (-4) "source position is outside of the volume") := by
  have hr : rnd32 (((16777217 : Nat) : ℚ)) = 16777216 := by decide
  refine ⟨⟨by norm_num [edgeCfg], by norm_num [edgeCfg]⟩, ?_, hr, ?_⟩
  · unfold srcOutside edgeCfg
    rw [decide_eq_false_iff_not]
    norm_num
  · have ho : srcOutside_f32 (edgeCfg vol) = true := by
      unfold srcOutside_f32
      rw [decide_eq_true_iff]
      right; right; right; left
      show rnd32 (((16777217 : Nat) : ℚ)) ≤ 16777216
      rw [hr]
    unfold mcx_prepdomain_source_f32
    rw [if_pos ho]

end AoMcx
